import Mathlib

/-!
# Thing_DB: evaluation lifecycle, finalisation and ranking

A shallow embedding of the parts of `src/soring.js` that govern how an
evaluator's rubric scores reach `DB.results`, how an evaluator finalises, how
`Admin.scores` and `viewProjectDetails` aggregate, how the admin creates and
deletes projects, evaluators and panels, how `U.uid` and `IDMigration.migrate`
assign ids, and what `goToAssigned` shows as progress.

Conventions of the embedding.

* JavaScript numbers are modelled by `ℚ` with exact arithmetic; `NaN` only
  arises from `Number(inp.value)` and is the `none` of `Option ℚ`. The
  progress percentage of `goToAssigned` is computed as the code computes it,
  in double arithmetic: the quotient and the product are rounded to the
  nearest double (`roundToDouble`).
* A JavaScript object used as a string-keyed map (`scores`,
  `DB.evaluatorState`, the id maps of `migrate`) is an association list in
  insertion order; assigning to a key replaces the value of an existing key in
  place and appends otherwise. A lookup sees the object's own keys only, and
  `for ... in` visits the keys in list order.
* Falsy values are the ones the field types allow: the empty string, `0`,
  `false` and an absent value.
* `Date.now()`, `confirm(...)`, `prompt(...)` and the replies of the remote
  endpoint are explicit arguments.
* `Auth.currentEval.id` is the explicit argument `evalId`.
-/

namespace ThingDB

/-! ## Data model (`const DB = ...`) -/

/-- One entry of `DB.rubricDefs`. -/
structure RubricDef where
  key : String
  label : String
deriving DecidableEq, Repr

/-- The constant `DB.rubricDefs`; no code path reassigns it. -/
def rubricDefs : List RubricDef :=
  [ ⟨"problem", "Problem Statement Clarity"⟩,
    ⟨"originality", "Originality"⟩,
    ⟨"description", "Project Description Quality"⟩,
    ⟨"method", "Methodology & Design"⟩,
    ⟨"impact", "Practical Application / Impact"⟩,
    ⟨"presentation", "Presentation & Q&A"⟩ ]

/-- The keys of `DB.rubricDefs`, in order. -/
def rubricKeys : List String := rubricDefs.map (fun d => d.key)

/-- A string-keyed JavaScript object holding numbers, e.g. `result.scores`. -/
abbrev Scores := List (String × ℚ)

/-- An element of `DB.results`. -/
structure Result where
  id : String
  panelId : Option String
  projectId : String
  evaluatorId : String
  scores : Scores
  remark : String
  total : ℚ
  ts : Nat
  finalizedByEvaluator : Bool
deriving DecidableEq, Repr

/-- An element of `DB.projects`. -/
structure Project where
  id : String
  title : String
  category : String
  team : String
  school : String
  contact : String
deriving DecidableEq, Repr

/-- An element of `DB.evaluators`. -/
structure Evaluator where
  id : String
  name : String
  email : String
  expertise : String
  notes : String
  code : String
deriving DecidableEq, Repr

/-- An element of `DB.panels`. -/
structure Panel where
  id : String
  name : String
  evaluatorIds : List String
  projectIds : List String
deriving DecidableEq, Repr

/-- A value of `DB.evaluatorState[id]`: an object whose only field read or
written by the program is `finalizedAll` (absent in `{}`). -/
structure EvaluatorFlags where
  finalizedAll : Option Bool
deriving DecidableEq, Repr

/-- The object `DB.settings`. -/
structure Settings where
  eventTitle : String
  subtitle : String
  welcomeTitle : String
  welcomeBody : String
  logoUrl : String
  adminPass : String
  gasUrl : String
deriving DecidableEq, Repr

/-- The in-memory store `DB` (its constant `rubricDefs` is `rubricDefs`). -/
structure DB where
  settings : Settings
  evaluators : List Evaluator
  projects : List Project
  panels : List Panel
  results : List Result
  evaluatorState : List (String × EvaluatorFlags)
  lastSync : Option Nat
deriving DecidableEq, Repr

/-! ## JavaScript helpers -/

/-- Property read `obj[k]` on a string-keyed object: the value of the first
entry with that key, if any. -/
def getKey {α : Type} (obj : List (String × α)) (k : String) : Option α :=
  (obj.find? (fun e => e.1 == k)).map (fun e => e.2)

/-- Property assignment `obj[k] = v`: an existing key keeps its place and gets
the new value, a new key is appended. -/
def setKey {α : Type} : List (String × α) → String → α → List (String × α)
  | [], k, v => [(k, v)]
  | e :: rest, k, v => if e.1 = k then (k, v) :: rest else e :: setKey rest k v

/-- Array method `findIndex`: index of the first element satisfying `p`, or `-1`. -/
def findIndex {α : Type} (p : α → Bool) (l : List α) : Int :=
  match l.findIdx? p with
  | some i => (i : Int)
  | none => -1

/-- The statement pair
`const idx = DB.results.findIndex(r => r.id === x.id);
 if (idx >= 0) DB.results[idx] = x; else DB.results.push(x);`
shared by `saveResultToGAS`, `saveFromModal`, `saveDraftOnly` and `submitDraft`. -/
def storeResult (results : List Result) (x : Result) : List Result :=
  let idx := findIndex (fun r => r.id == x.id) results
  if idx ≥ 0 then results.set idx.toNat x else results ++ [x]

/-- Method `String.prototype.padStart(4, '0')`. -/
def padStart4 (s : String) : String :=
  String.mk (List.replicate (4 - s.length) '0') ++ s

namespace U

/-- Function `U.uid(type)`: category tag, a dash, and the count of entities of
that kind plus one, zero-padded to four digits. -/
def uid (db : DB) (type : String) : String :=
  let pfx :=
    if type = "project" then "PRJ"
    else if type = "evaluator" then "EVAL"
    else if type = "panel" then "PNL"
    else if type = "result" then "RES"
    else "ID"
  let count :=
    if type = "project" then db.projects.length + 1
    else if type = "evaluator" then db.evaluators.length + 1
    else if type = "panel" then db.panels.length + 1
    else if type = "result" then db.results.length + 1
    else 0
  pfx ++ "-" ++ padStart4 (toString count)

end U

/-! ## Remote boundary -/

/-- A parsed JSON reply of the remote endpoint (`login`, `res`). -/
structure Reply where
  ok : Bool
  token : Option String
  error : Option String
deriving DecidableEq, Repr

/-- What an awaited `GAS_API` call does: it throws (no base URL, network
failure, invalid JSON) or yields a reply. -/
inductive Remote
  | threw (message : String)
  | replied (r : Reply)
deriving DecidableEq, Repr

/-- Function `saveResultToGAS(result)`: the store is written first; the push is wrapped
in `try ... catch` and its outcome only reaches the console. -/
def saveResultToGAS (db : DB) (result : Result) (_push : Remote) : DB :=
  { db with results := storeResult db.results result }

/-- Function `saveToGASAsBulk()`, on the pair `(DB, ADMIN_SESSION_TOKEN)`.
`promptAnswer` is what `prompt(...)` returns (`none` when cancelled), `login`
and `push` are the outcomes of `GAS_API.adminLogin` and `GAS_API.pushBulk`,
`now` is `Date.now()`. -/
def saveToGASAsBulk (db : DB) (token : Option String) (promptAnswer : Option String)
    (login push : Remote) (now : Nat) : DB × Option String :=
  if db.settings.gasUrl = "" then (db, token)
  else
    let auth : Option (Option String) :=
      if token = none ∨ token = some "" then
        match promptAnswer with
        | none => none
        | some pass =>
          if pass = "" then none
          else
            match login with
            | .threw _ => none
            | .replied r => if r.ok then some r.token else none
      else some token
    match auth with
    | none => (db, token)
    | some t =>
      match push with
      | .threw _ => (db, t)
      | .replied r => if r.ok then ({ db with lastSync := some now }, t) else (db, t)

/-! ## Evaluator module (`const Eval = ...`) -/

/-- The `value` of an `<input type="number" data-score="...">` as the scoring
code reads it: the empty string, a numeric literal, or a string that is not a
numeric literal. -/
inductive InputValue
  | blank
  | numeric (q : ℚ)
  | other
deriving DecidableEq, Repr

/-- Conversion `Number(inp.value)`: the empty string converts to `0`, a numeric
literal to its value, anything else to `NaN` (`none`). -/
def Number : InputValue → Option ℚ
  | .blank => some 0
  | .numeric q => some q
  | .other => none

/-- The rubric dialog built by `openRubricModal`, as the user has edited it:
`value k` is the content of the input with `data-score = k` and `remarkText`
that of `#rubricRemark`. -/
structure RubricModal where
  value : String → InputValue
  remarkText : String

/-- The result of `[...modal.querySelectorAll('[data-score]')]`: the dialog holds
one input per entry of `DB.rubricDefs`, in that order (`fieldsHtml`). -/
def RubricModal.inputs (m : RubricModal) : List (String × InputValue) :=
  rubricDefs.map (fun d => (d.key, m.value d.key))

/-- Sum `Object.values(scores).reduce((a, b) => a + Number(b), 0)`. -/
def sumValues (scores : Scores) : ℚ :=
  (scores.map (fun e => e.2)).foldl (fun a b => a + b) 0

namespace Eval

/-- Method `_evaluatorFinalized()`. -/
def _evaluatorFinalized (db : DB) (evalId : String) : Bool :=
  ((getKey db.evaluatorState evalId).bind (fun f => f.finalizedAll)) == some true

/-- The lookup `prior` of `openRubricModal`. -/
def prior (db : DB) (evalId projectId : String) : Option Result :=
  db.results.find? (fun r => r.projectId == projectId && r.evaluatorId == evalId)

/-- The draft `this.draft = ...` that `openRubricModal(projectId)` builds. -/
def openRubricModal (db : DB) (evalId projectId : String) (now : Nat) : Result :=
  let panel := db.panels.find?
    (fun p => p.projectIds.contains projectId && p.evaluatorIds.contains evalId)
  match prior db evalId projectId with
  | some pr =>
    { id := if pr.id = "" then U.uid db "result" else pr.id
      panelId := panel.map (fun p => p.id)
      projectId := projectId
      evaluatorId := evalId
      scores := pr.scores
      remark := pr.remark
      total := pr.total
      ts := if pr.ts = 0 then now else pr.ts
      finalizedByEvaluator := pr.finalizedByEvaluator }
  | none =>
    { id := U.uid db "result"
      panelId := panel.map (fun p => p.id)
      projectId := projectId
      evaluatorId := evalId
      scores := []
      remark := ""
      total := 0
      ts := now
      finalizedByEvaluator := false }

/-- The dialog as `openRubricModal` first shows it: each input holds the prior
score of its criterion, or is empty. -/
def openRubricModalFields (db : DB) (evalId projectId : String) : RubricModal :=
  match prior db evalId projectId with
  | some pr =>
    { value := fun k => match getKey pr.scores k with
        | some v => .numeric v
        | none => .blank
      remarkText := pr.remark }
  | none => { value := fun _ => .blank, remarkText := "" }

/-- The loop `for (const inp of inputs) ...` of `prepareReviewFromModal` and
`saveFromModal`, on `this.draft.scores`: `false` when it returned early on an
input that is `NaN`, below 0 or above 10. -/
def readInputs : Scores → List (String × InputValue) → Bool × Scores
  | scores, [] => (true, scores)
  | scores, (k, raw) :: rest =>
    match Number raw with
    | none => (false, scores)
    | some v =>
      if v < 0 ∨ v > 10 then (false, scores)
      else readInputs (setKey scores k v) rest

/-- State after a handler of the rubric dialog: whether it passed validation,
`this.draft`, and `DB`. -/
structure Step where
  accepted : Bool
  draft : Result
  db : DB
deriving DecidableEq, Repr

/-- Method `prepareReviewFromModal(modal)`. -/
def prepareReviewFromModal (db : DB) (draft : Result) (m : RubricModal) : Step :=
  let r := readInputs draft.scores m.inputs
  if r.1 then
    { accepted := true
      draft := { draft with
        scores := r.2, total := sumValues r.2, remark := m.remarkText.trim }
      db := db }
  else { accepted := false, draft := { draft with scores := r.2 }, db := db }

/-- Method `saveFromModal(modal, closeAfterSave)`. -/
def saveFromModal (db : DB) (draft : Result) (m : RubricModal) : Step :=
  let r := readInputs draft.scores m.inputs
  if r.1 then
    let d : Result := { draft with
      scores := r.2, total := sumValues r.2, remark := m.remarkText.trim }
    { accepted := true, draft := d, db := { db with results := storeResult db.results d } }
  else { accepted := false, draft := { draft with scores := r.2 }, db := db }

/-- Method `saveDraftOnly()`. -/
def saveDraftOnly (db : DB) (draft : Result) : DB :=
  { db with results := storeResult db.results draft }

/-- Method `submitDraft()`; `now` is `Date.now()`, `push` the outcome of the
remote push inside `saveResultToGAS`. -/
def submitDraft (db : DB) (draft : Result) (now : Nat) (push : Remote) : DB :=
  let d : Result := { draft with ts := now }
  saveResultToGAS { db with results := storeResult db.results d } d push

/-- Click on `#reviewBtn` followed by `#saveDraft`: the review screen with its
buttons is only shown when `prepareReviewFromModal` did not return early. -/
def reviewThenSaveDraft (db : DB) (draft : Result) (m : RubricModal) : DB :=
  let s := prepareReviewFromModal db draft m
  if s.accepted then saveDraftOnly s.db s.draft else s.db

/-- Click on `#reviewBtn` followed by `#confirmSubmit`. -/
def reviewThenSubmit (db : DB) (draft : Result) (m : RubricModal) (now : Nat)
    (push : Remote) : DB :=
  let s := prepareReviewFromModal db draft m
  if s.accepted then submitDraft s.db s.draft now push else s.db

/-- The list `subs` of `openFinalizeModal`. -/
def subs (db : DB) (evalId : String) : List Result :=
  db.results.filter (fun r => r.evaluatorId == evalId)

/-- The `#finalizeAllBtn` handler of `openFinalizeModal`, on the pair
`(DB, ADMIN_SESSION_TOKEN)`. The dialog only opens when `subs` is non-empty and
the handler returns at once unless `confirm(...)` is answered with OK. -/
def finalizeAll (db : DB) (token : Option String) (evalId : String) (confirmed : Bool)
    (promptAnswer : Option String) (login push : Remote) (now : Nat) :
    DB × Option String :=
  if (subs db evalId).length = 0 then (db, token)
  else if !confirmed then (db, token)
  else
    let results := db.results.map
      (fun r => if r.evaluatorId = evalId then { r with finalizedByEvaluator := true } else r)
    let cur : EvaluatorFlags := (getKey db.evaluatorState evalId).getD ⟨none⟩
    let st := setKey db.evaluatorState evalId { cur with finalizedAll := some true }
    saveToGASAsBulk { db with results := results, evaluatorState := st } token
      promptAnswer login push now

end Eval

/-! ## Admin module: `Admin.scores` -/

/-- An element of `evaluators` in a row of `projectScores`. -/
structure EvaluatorScore where
  name : String
  score : ℚ
  finalized : Bool
deriving DecidableEq, Repr

/-- A row of `projectScores`. -/
structure ProjectScore where
  id : String
  title : String
  category : String
  team : String
  school : String
  evaluatorCount : Nat
  totalScore : ℚ
  averageScore : ℚ
  maxPossible : Nat
  percentage : ℚ
  evaluators : List EvaluatorScore
deriving DecidableEq, Repr

/-- Expression `s || d` on strings. -/
def orElse (s d : String) : String := if s = "" then d else s

namespace Admin

/-- The callback of `DB.projects.map(project => ...)` in `scores`. -/
def projectScore (db : DB) (project : Project) : ProjectScore :=
  let projectResults := db.results.filter (fun r => r.projectId == project.id)
  if projectResults.length = 0 then
    { id := project.id, title := project.title
      category := orElse project.category "—"
      team := orElse project.team "—"
      school := orElse project.school "—"
      evaluatorCount := 0, totalScore := 0, averageScore := 0
      maxPossible := rubricDefs.length * 10, percentage := 0, evaluators := [] }
  else
    let totalScore : ℚ := projectResults.foldl (fun sum r => sum + r.total) 0
    let averageScore : ℚ := totalScore / projectResults.length
    let maxPossible : Nat := rubricDefs.length * 10
    let percentage : ℚ := (averageScore / maxPossible) * 100
    let evaluators := projectResults.map (fun r =>
      let evaluator := db.evaluators.find? (fun e => e.id == r.evaluatorId)
      let name := match evaluator with
        | some e => orElse e.name (orElse e.email "Unknown")
        | none => "Unknown"
      ({ name := name, score := r.total, finalized := r.finalizedByEvaluator } :
        EvaluatorScore))
    { id := project.id, title := project.title
      category := orElse project.category "—"
      team := orElse project.team "—"
      school := orElse project.school "—"
      evaluatorCount := projectResults.length
      totalScore := totalScore, averageScore := averageScore
      maxPossible := maxPossible, percentage := percentage, evaluators := evaluators }

/-- The array `projectScores` before it is sorted. -/
def projectScores (db : DB) : List ProjectScore :=
  db.projects.map (projectScore db)

/-- The comparator `(a, b) => b.averageScore - a.averageScore` returns a value
`≤ 0`: `a` may stay before `b`. -/
def keepsOrder (a b : ProjectScore) : Prop := b.averageScore - a.averageScore ≤ 0

instance : DecidableRel keepsOrder := fun a b =>
  inferInstanceAs (Decidable (b.averageScore - a.averageScore ≤ 0))

/-- The ranking of `scores(host)`: `projectScores.sort(...)`. `Array.prototype.sort`
is stable, so the result is the stable sort by the comparator. -/
def scores (db : DB) : List ProjectScore :=
  (projectScores db).insertionSort keepsOrder

end Admin

/-! ## Predicates on the store used to state the properties -/

/-- Two results belong to the same (projectId, evaluatorId) pair. -/
def samePair (a b : Result) : Prop :=
  a.projectId = b.projectId ∧ a.evaluatorId = b.evaluatorId

instance : DecidableRel samePair := fun a b =>
  inferInstanceAs (Decidable (a.projectId = b.projectId ∧ a.evaluatorId = b.evaluatorId))

/-- The store holds at most one Result per (projectId, evaluatorId) pair. -/
def atMostOnePerPair (rs : List Result) : Prop :=
  rs.Pairwise (fun a b => ¬ samePair a b)

instance (rs : List Result) : Decidable (atMostOnePerPair rs) :=
  inferInstanceAs (Decidable (rs.Pairwise (fun a b => ¬ samePair a b)))

/-- The ids of the stored Results are pairwise distinct. -/
def distinctIds (rs : List Result) : Prop :=
  rs.Pairwise (fun a b : Result => a.id ≠ b.id)

instance (rs : List Result) : Decidable (distinctIds rs) :=
  inferInstanceAs (Decidable (rs.Pairwise (fun a b : Result => a.id ≠ b.id)))

/-- The record `pr` of `old` is overwritten in place by `x`: `new` is `old` with
`x` at the position of `pr`, `x` carries the id of `pr`, and the number of
records is the same. -/
def overwrittenInPlace (old new : List Result) (pr x : Result) : Prop :=
  ∃ i, old[i]? = some pr ∧ new = old.set i x ∧ x.id = pr.id ∧ new.length = old.length

/-- An input converts to a number between 0 and 10. -/
def inRange (raw : InputValue) : Prop := ∃ v, Number raw = some v ∧ 0 ≤ v ∧ v ≤ 10

/-- Every rubric input converts to a number between 0 and 10. -/
def allInputsInRange (m : RubricModal) : Prop :=
  ∀ k ∈ rubricKeys, inRange (m.value k)

/-- A string-keyed object holds each key once. -/
def keysOnce (s : Scores) : Prop := (s.map Prod.fst).Nodup

/-- All keys of a `scores` object are keys of `DB.rubricDefs`. -/
def onlyRubricKeys (s : Scores) : Prop := ∀ k ∈ s.map Prod.fst, k ∈ rubricKeys

instance (s : Scores) : Decidable (keysOnce s) :=
  inferInstanceAs (Decidable ((s.map Prod.fst).Nodup))

instance (s : Scores) : Decidable (onlyRubricKeys s) :=
  inferInstanceAs (Decidable (∀ k ∈ s.map Prod.fst, k ∈ rubricKeys))

/-- The number is an integer. -/
def isInteger (q : ℚ) : Prop := ∃ n : ℤ, (n : ℚ) = q

/-! ## Concrete stores and dialogs -/

namespace Sample

/-- Settings without a remote endpoint. -/
def settings : Settings :=
  { eventTitle := "Think Big Science Carnival 2025", subtitle := "Project Evaluation System"
    welcomeTitle := "Welcome", welcomeBody := "Please read the instructions."
    logoUrl := "", adminPass := "admin123", gasUrl := "" }

/-- A panel assigning two projects to three evaluators. -/
def panel : Panel :=
  { id := "PNL-0001", name := "Panel 1"
    evaluatorIds := ["EVAL-0001", "EVAL-0002", "EVAL-0003"]
    projectIds := ["PRJ-0001", "PRJ-0002"] }

/-- The spec's scenario scores for `PRJ-0001`, total 47. -/
def scores47 : Scores :=
  [("problem", 8), ("originality", 7), ("description", 9), ("method", 6), ("impact", 8),
   ("presentation", 9)]

/-- The Result of `EVAL-0001` for `PRJ-0001`. -/
def result1 : Result :=
  { id := "RES-0001", panelId := some "PNL-0001", projectId := "PRJ-0001"
    evaluatorId := "EVAL-0001", scores := scores47, remark := "", total := 47, ts := 1000
    finalizedByEvaluator := false }

/-- A store in which `EVAL-0001` has scored `PRJ-0001` and not yet `PRJ-0002`. -/
def store : DB :=
  { settings := settings, evaluators := []
    projects :=
      [ ⟨"PRJ-0001", "Solar Oven", "", "", "", ""⟩, ⟨"PRJ-0002", "Water Filter", "", "", "", ""⟩ ]
    panels := [panel], results := [result1], evaluatorState := [], lastSync := none }

/-- The store after `EVAL-0001` has finalised (no endpoint configured). -/
def finalizedStore : DB :=
  (Eval.finalizeAll store none "EVAL-0001" true none (.threw "") (.threw "") 2000).1

/-- A dialog in which every input was left empty. -/
def blankModal : RubricModal := { value := fun _ => .blank, remarkText := "" }

/-- A dialog in which every input holds 7.5. -/
def halfModal : RubricModal := { value := fun _ => .numeric (15 / 2), remarkText := "" }

/-- A dialog in which every input holds 10. -/
def tenModal : RubricModal := { value := fun _ => .numeric 10, remarkText := "" }

/-- A dialog whose first input holds 11. -/
def elevenModal : RubricModal :=
  { value := fun k => if k = "problem" then .numeric 11 else .numeric 5, remarkText := "" }

/-- The first Result of `EVAL-0002`, created in another browser session: it
carries the same id as `result1`. -/
def result1b : Result :=
  { id := "RES-0001", panelId := some "PNL-0001", projectId := "PRJ-0001"
    evaluatorId := "EVAL-0002", scores := scores47, remark := "", total := 47, ts := 1001
    finalizedByEvaluator := false }

/-- A store, as loaded from the remote endpoint, in which the first Results of
two evaluators share the id `RES-0001`. -/
def sharedIdStore : DB := { store with results := [result1b, result1] }

/-- A Result whose `scores` hold a key that is not in `DB.rubricDefs`. -/
def legacyResult : Result :=
  { result1 with scores := ("teamwork", 10) :: scores47, total := 57 }

/-- A store, as loaded from the remote endpoint, holding `legacyResult`. -/
def legacyStore : DB := { store with results := [legacyResult] }

end Sample

/-! ## Admin module: project details (`viewProjectDetails`) -/

/-- A value of `rubricAggregates[def.key]` in `viewProjectDetails`. -/
structure RubricAggregate where
  label : String
  scores : List ℚ
  average : ℚ
  max : Nat
deriving DecidableEq, Repr

/-- What `viewProjectDetails` computes before it renders the dialog. -/
structure ProjectDetails where
  rubricAggregates : List (String × RubricAggregate)
  totalAvg : ℚ
  maxTotal : Nat
  percentage : ℚ
deriving DecidableEq, Repr

namespace Admin

/-- Method `viewProjectDetails(projectId)`: `none` when it returns after an alert
(project not found, or no Result for the project). A missing or zero score
reads as `0` (`r.scores?.[def.key] || 0`). -/
def viewProjectDetails (db : DB) (projectId : String) : Option ProjectDetails :=
  match db.projects.find? (fun p => p.id == projectId) with
  | none => none
  | some _ =>
    let projectResults := db.results.filter (fun r => r.projectId == projectId)
    if projectResults.length = 0 then none
    else
      let rubricAggregates := rubricDefs.foldl (fun o d =>
        let scores := projectResults.map (fun r => (getKey r.scores d.key).getD 0)
        let sum := scores.foldl (fun a b => a + b) 0
        let avg : ℚ := sum / scores.length
        setKey o d.key
          ({ label := d.label, scores := scores, average := avg, max := 10 } : RubricAggregate))
        []
      let totalAvg : ℚ :=
        (rubricAggregates.map (fun e => e.2)).foldl (fun sum agg => sum + agg.average) 0
      let maxTotal : Nat := rubricDefs.length * 10
      some { rubricAggregates := rubricAggregates, totalAvg := totalAvg, maxTotal := maxTotal
             percentage := (totalAvg / maxTotal) * 100 }

end Admin

/-! ## Admin module: projects, evaluators and panels -/

/-- An argument `id` that may be absent: it is truthy when it is a non-empty
string. -/
def truthyId : Option String → Option String
  | some i => if i = "" then none else some i
  | none => none

/-- Mutation of the object that `arr.find(p)` returns: the first element
satisfying `p` is replaced by its image under `f`. -/
def updateFirst {α : Type} (p : α → Bool) (f : α → α) : List α → List α
  | [] => []
  | x :: xs => if p x then f x :: xs else x :: updateFirst p f xs

/-- The values of the inputs of the project dialog when Save is clicked. -/
structure ProjectForm where
  title : String
  category : String
  team : String
  school : String
  contact : String
deriving DecidableEq, Repr

namespace Admin

/-- Method `editProject(id)` followed by a click on `#saveBtn`: whether the save
was accepted, and the store afterwards. With an `id` the dialog edits the
object found in `DB.projects`, and the handler assigns its fields before it
tests the title; without one it fills a new object that is pushed only when
the title is not empty. When no project has the given `id` the dialog cannot
be built. -/
def editProject (db : DB) (id : Option String) (form : ProjectForm) : Bool × DB :=
  let fill := fun (p : Project) =>
    { p with
      title := form.title.trim, category := form.category.trim, team := form.team.trim
      school := form.school.trim, contact := form.contact.trim }
  match truthyId id with
  | some i =>
    match db.projects.find? (fun x => x.id == i) with
    | none => (false, db)
    | some _ =>
      let db2 := { db with projects := updateFirst (fun x => x.id == i) fill db.projects }
      if form.title.trim = "" then (false, db2) else (true, db2)
  | none =>
    let p := fill
      { id := U.uid db "project", title := "", category := "", team := "", school := ""
        contact := "" }
    if p.title = "" then (false, db) else (true, { db with projects := db.projects ++ [p] })

/-- Method `deleteProject(id)`; `confirmed` is the answer to `confirm(...)`. -/
def deleteProject (db : DB) (id : String) (confirmed : Bool) : DB :=
  if !confirmed then db
  else
    { db with
      projects := db.projects.filter (fun p => p.id != id)
      panels := db.panels.map
        (fun pa => { pa with projectIds := pa.projectIds.filter (fun pid => pid != id) }) }

/-- Method `deleteEvaluator(id)`; `confirmed` is the answer to `confirm(...)`. -/
def deleteEvaluator (db : DB) (id : String) (confirmed : Bool) : DB :=
  if !confirmed then db
  else
    { db with
      evaluators := db.evaluators.filter (fun e => e.id != id)
      panels := db.panels.map
        (fun pa => { pa with evaluatorIds := pa.evaluatorIds.filter (fun eid => eid != id) }) }

/-- Method `editPanel(id)` followed by a click on `#saveBtn`: whether the save was
accepted, and the store afterwards. `nameInput` is the value of `#pa_name`,
`checkedEvaluators` and `checkedProjects` are the values of the checked
`data-eid` and `data-pid` boxes in document order. With an `id` the handler
assigns to the object found in `DB.panels` before it tests the sizes; without
one it fills a new object that is pushed only after both tests. -/
def editPanel (db : DB) (id : Option String) (nameInput : String)
    (checkedEvaluators checkedProjects : List String) : Bool × DB :=
  let fill := fun (pa : Panel) =>
    { pa with
      name := orElse nameInput.trim pa.name, evaluatorIds := checkedEvaluators
      projectIds := checkedProjects }
  let rejected : Bool :=
    decide (checkedEvaluators.length < 3 ∨ checkedEvaluators.length > 4) ||
      decide (checkedProjects.length = 0)
  match truthyId id with
  | some i =>
    match db.panels.find? (fun x => x.id == i) with
    | none => (false, db)
    | some _ =>
      let db2 := { db with panels := updateFirst (fun x => x.id == i) fill db.panels }
      if rejected then (false, db2) else (true, db2)
  | none =>
    let pa := fill
      { id := U.uid db "panel", name := "Panel " ++ toString (db.panels.length + 1)
        evaluatorIds := [], projectIds := [] }
    if rejected then (false, db) else (true, { db with panels := db.panels ++ [pa] })

/-- Method `deletePanel(id)`; `confirmed` is the answer to `confirm(...)`. -/
def deletePanel (db : DB) (id : String) (confirmed : Bool) : DB :=
  if !confirmed then db
  else { db with panels := db.panels.filter (fun p => p.id != id) }

end Admin

/-! ## Id migration (`const IDMigration = ...`) -/

namespace IDMigration

/-- The template literal `PFX-$(String(idx + 1).padStart(4, '0'))`. -/
def newId (pfx : String) (idx : Nat) : String :=
  pfx ++ "-" ++ padStart4 (toString (idx + 1))

/-- One of the objects `idMap.projects`, `idMap.evaluators`, `idMap.panels`,
`idMap.results` after its `forEach` loop: every old id, in array order, is
assigned the new id of its position. -/
def idMap (pfx : String) (oldIds : List String) : List (String × String) :=
  (oldIds.mapIdx (fun idx old => (old, newId pfx idx))).foldl
    (fun m e => setKey m e.1 e.2) []

/-- Expression `map[x] || x`: the new id recorded for `x`, or `x` itself when the
map has no entry for it. -/
def remap (m : List (String × String)) (x : String) : String :=
  match getKey m x with
  | some v => orElse v x
  | none => x

/-- Method `migrate()`: every entity gets the new id of its position, the three
id maps built on the way rewrite the references held by panels and results,
and `DB.evaluatorState` is rebuilt under the rewritten keys. -/
def migrate (db : DB) : DB :=
  let mProjects := idMap "PRJ" (db.projects.map (fun p => p.id))
  let projects := db.projects.mapIdx (fun idx p => { p with id := newId "PRJ" idx })
  let mEvaluators := idMap "EVAL" (db.evaluators.map (fun e => e.id))
  let evaluators := db.evaluators.mapIdx (fun idx e => { e with id := newId "EVAL" idx })
  let mPanels := idMap "PNL" (db.panels.map (fun p => p.id))
  let panels := db.panels.mapIdx (fun idx p =>
    { p with
      id := newId "PNL" idx
      evaluatorIds := p.evaluatorIds.map (remap mEvaluators)
      projectIds := p.projectIds.map (remap mProjects) })
  let results := db.results.mapIdx (fun idx r =>
    { r with
      id := newId "RES" idx
      panelId := r.panelId.map (remap mPanels)
      projectId := remap mProjects r.projectId
      evaluatorId := remap mEvaluators r.evaluatorId })
  let newState := db.evaluatorState.foldl
    (fun st e => setKey st (remap mEvaluators e.1) e.2) []
  { db with
    projects := projects, evaluators := evaluators, panels := panels, results := results
    evaluatorState := newState }

end IDMigration

/-! ## Evaluator module: assigned projects and progress (`goToAssigned`) -/

/-- Expression `[...new Set(xs)]`: the distinct elements in order of first
occurrence. -/
def uniqueInOrder (xs : List String) : List String :=
  xs.foldl (fun acc x => if x ∈ acc then acc else acc ++ [x]) []

/-- Function `Math.round`: the nearest integer, halves rounded up. -/
def mathRound (x : ℚ) : ℤ := ⌊x + 1 / 2⌋

/-- Rounding to the nearest integer, a tie going to the even neighbour. -/
def roundHalfEven (x : ℚ) : ℤ :=
  if x - ⌊x⌋ < 1 / 2 then ⌊x⌋
  else if 1 / 2 < x - ⌊x⌋ then ⌊x⌋ + 1
  else if ⌊x⌋ % 2 = 0 then ⌊x⌋ else ⌊x⌋ + 1

/-- The Number (IEEE 754 binary64 value) that an arithmetic operation yields when
its exact result is `x`: the nearest value with a significand of 53 bits, a
tie going to the even significand. The exponent range is not modelled (no
overflow, no subnormal values): the quotients and products of `goToAssigned`
lie between `2 ^ (-32)` and `2 ^ 39` for arrays of fewer than `2 ^ 32`
elements. -/
def roundToDouble (x : ℚ) : ℚ :=
  if x = 0 then 0
  else if x < 0 then
    -((roundHalfEven (-x / 2 ^ (Int.log 2 (-x) - 52)) : ℚ) * 2 ^ (Int.log 2 (-x) - 52))
  else (roundHalfEven (x / 2 ^ (Int.log 2 x - 52)) : ℚ) * 2 ^ (Int.log 2 x - 52)

/-- The numbers `goToAssigned` shows in the progress bar. -/
structure Progress where
  total : Nat
  completed : Nat
  left : Int
  pct : Int
deriving DecidableEq, Repr

namespace Eval

/-- The list `myPanels` of `goToAssigned`. -/
def myPanels (db : DB) (evalId : String) : List Panel :=
  db.panels.filter (fun p => p.evaluatorIds.contains evalId)

/-- The list `myProjectIds` of `goToAssigned`. -/
def myProjectIds (db : DB) (evalId : String) : List String :=
  uniqueInOrder ((myPanels db evalId).flatMap (fun p => p.projectIds))

/-- The values `total`, `completed`, `left` and `pct` of `goToAssigned`. The two
lengths are integers below `2 ^ 32` and hence Numbers; the quotient
`completed / total` and its product with 100 are rounded to a Number each,
and `Math.round` is applied to the result. -/
def goToAssigned (db : DB) (evalId : String) : Progress :=
  let total := (myProjectIds db evalId).length
  let completed := (db.results.filter
    (fun r => r.evaluatorId == evalId && (myProjectIds db evalId).contains r.projectId)).length
  let left : Int := max 0 ((total : Int) - (completed : Int))
  let pct : Int :=
    if total = 0 then 0
    else mathRound (roundToDouble (roundToDouble ((completed : ℚ) / (total : ℚ)) * 100))
  { total := total, completed := completed, left := left, pct := pct }

end Eval

/-! ## Further predicates and samples -/

/-- The evaluator is assigned the project: some Panel holds the evaluator id in
`evaluatorIds` and the project id in `projectIds`. -/
def assigned (db : DB) (evalId projectId : String) : Prop :=
  ∃ pa ∈ db.panels, evalId ∈ pa.evaluatorIds ∧ projectId ∈ pa.projectIds

instance (db : DB) (evalId projectId : String) : Decidable (assigned db evalId projectId) :=
  inferInstanceAs (Decidable (∃ pa ∈ db.panels, evalId ∈ pa.evaluatorIds ∧ projectId ∈ pa.projectIds))

/-- Every Panel has 3 or 4 evaluator ids and at least one project id. -/
def panelInvariant (db : DB) : Prop :=
  ∀ pa ∈ db.panels,
    3 ≤ pa.evaluatorIds.length ∧ pa.evaluatorIds.length ≤ 4 ∧ pa.projectIds ≠ []

instance (db : DB) : Decidable (panelInvariant db) :=
  inferInstanceAs (Decidable (∀ pa ∈ db.panels,
    3 ≤ pa.evaluatorIds.length ∧ pa.evaluatorIds.length ≤ 4 ∧ pa.projectIds ≠ []))

/-- The sum over the rubric criteria of the scores of a Result, a missing score
counting as 0. -/
def rubricSum (r : Result) : ℚ :=
  (rubricKeys.map (fun k => (getKey r.scores k).getD 0)).sum

/-- The number that a string of decimal digits denotes. -/
def decimalValue (cs : List Char) : Nat :=
  cs.foldl (fun acc c => acc * 10 + (c.toNat - '0'.toNat)) 0

namespace Sample

/-- The Result of `EVAL-0002` for `PRJ-0001` in the spec's scenario, total 41. -/
def result2 : Result :=
  { id := "RES-0002", panelId := some "PNL-0001", projectId := "PRJ-0001"
    evaluatorId := "EVAL-0002"
    scores := [("problem", 7), ("originality", 6), ("description", 8), ("method", 6),
      ("impact", 7), ("presentation", 7)]
    remark := "", total := 41, ts := 1500, finalizedByEvaluator := false }

/-- The spec's scenario: two evaluators have scored `PRJ-0001` with totals 47 and 41. -/
def scenarioStore : DB := { store with results := [result1, result2] }

/-- The store without any entity. -/
def emptyStore : DB :=
  { settings := settings, evaluators := [], projects := [], panels := [], results := []
    evaluatorState := [], lastSync := none }

/-- The store after two projects were created with `editProject` and the first
one was deleted with `deleteProject`. -/
def afterDeletion : DB :=
  Admin.deleteProject
    (Admin.editProject
      (Admin.editProject emptyStore none ⟨"Solar Oven", "", "", "", ""⟩).2 none
      ⟨"Water Filter", "", "", "", ""⟩).2
    "PRJ-0001" true

/-- A store whose only panel has three evaluators and a single project. -/
def soloStore : DB := { store with panels := [{ panel with projectIds := ["PRJ-0001"] }] }

/-- A store with 9999 projects. -/
def largeStore : DB :=
  { emptyStore with projects := List.replicate 9999 ⟨"PRJ-0001", "Solar Oven", "", "", "", ""⟩ }

end Sample

/-! ## Remote boundary: snapshots, pushes and the initial load -/

/-- The object literal that `saveToGASAsBulk` passes to `GAS_API.pushBulk`. -/
structure Snapshot where
  settings : Settings
  evaluators : List Evaluator
  projects : List Project
  panels : List Panel
  results : List Result
  evaluatorState : List (String × EvaluatorFlags)
deriving DecidableEq, Repr

/-- The first argument of `GAS_API.pushBulk(...)` in `saveToGASAsBulk`. -/
def bulkSnapshot (db : DB) : Snapshot :=
  { settings := db.settings, evaluators := db.evaluators, projects := db.projects
    panels := db.panels, results := db.results, evaluatorState := db.evaluatorState }

/-- The arguments `(data, token)` of the call `GAS_API.pushBulk(data, token)` that
`saveToGASAsBulk` makes, or `none` when it returns before the call (no URL,
prompt cancelled or empty, login thrown or not ok). -/
def saveToGASAsBulkPushed (db : DB) (token : Option String) (promptAnswer : Option String)
    (login : Remote) : Option (Snapshot × Option String) :=
  if db.settings.gasUrl = "" then none
  else
    let auth : Option (Option String) :=
      if token = none ∨ token = some "" then
        match promptAnswer with
        | none => none
        | some pass =>
          if pass = "" then none
          else
            match login with
            | .threw _ => none
            | .replied r => if r.ok then some r.token else none
      else some token
    match auth with
    | none => none
    | some t => some (bulkSnapshot db, t)

/-- An awaited call of the endpoint as a computation: it throws or yields the
parsed reply. -/
def Remote.await : Remote → Except String Reply
  | .threw message => .error message
  | .replied r => .ok r

namespace GAS_API

/-- Method `GAS_API.pushResult(result)`: throws when no base URL is set, else
performs the request. -/
def pushResult (baseUrl : String) (net : Remote) : Except String Reply :=
  if baseUrl = "" then .error "GAS URL not configured" else net.await

end GAS_API

/-- Function `saveResultToGAS(result)` with its `try ... catch` spelled out: the
computation either throws or returns the store. `baseUrl` is
`GAS_API.baseUrl`, `net` the outcome of the request. -/
def saveResultToGASRun (db : DB) (baseUrl : String) (result : Result) (net : Remote) :
    Except String DB :=
  let db1 : DB := { db with results := storeResult db.results result }
  tryCatch
    (if db1.settings.gasUrl = "" then pure db1
     else do
       let _ ← GAS_API.pushResult baseUrl net
       pure db1)
    (fun _ => pure db1)

/-- The `settings` object of a fetched dataset: any of the keys may be absent. -/
structure SettingsData where
  eventTitle : Option String
  subtitle : Option String
  welcomeTitle : Option String
  welcomeBody : Option String
  logoUrl : Option String
  adminPass : Option String
  gasUrl : Option String
deriving DecidableEq, Repr

/-- The JSON object that `GAS_API.getData()` resolves to: any of the keys may be
absent. -/
structure Dataset where
  settings : Option SettingsData
  evaluators : Option (List Evaluator)
  projects : Option (List Project)
  panels : Option (List Panel)
  results : Option (List Result)
  evaluatorState : Option (List (String × EvaluatorFlags))
deriving DecidableEq, Repr

/-- What the request of `GAS_API.getData()` does: it throws (network failure,
status not ok, invalid JSON) or yields the parsed body, which may be `null`. -/
inductive Fetched
  | threw (message : String)
  | json (data : Option Dataset)
deriving DecidableEq, Repr

namespace GAS_API

/-- Method `GAS_API.getData()`. -/
def getData (baseUrl : String) (net : Fetched) : Except String (Option Dataset) :=
  if baseUrl = "" then .error "GAS URL not configured"
  else
    match net with
    | .threw message => .error message
    | .json data => .ok data

end GAS_API

/-- Call `Object.assign(DB.settings, data.settings)`: the keys present in the
fetched object overwrite the local ones, the others keep their value. -/
def objectAssign (s : Settings) (d : SettingsData) : Settings :=
  { eventTitle := d.eventTitle.getD s.eventTitle
    subtitle := d.subtitle.getD s.subtitle
    welcomeTitle := d.welcomeTitle.getD s.welcomeTitle
    welcomeBody := d.welcomeBody.getD s.welcomeBody
    logoUrl := d.logoUrl.getD s.logoUrl
    adminPass := d.adminPass.getD s.adminPass
    gasUrl := d.gasUrl.getD s.gasUrl }

/-- Function `attemptLoadFromGAS()` on the pair `(DB, GAS_API.baseUrl)`, with its
`try ... catch` spelled out. `net` is the outcome of the request, `now` is
`Date.now()`. -/
def attemptLoadFromGAS (db : DB) (baseUrl : String) (net : Fetched) (now : Nat) :
    Except String (DB × String) :=
  let base := if db.settings.gasUrl = "" then baseUrl else db.settings.gasUrl
  tryCatch
    (if base = "" then pure (db, base)
     else do
       let data ← GAS_API.getData base net
       match data with
       | none => pure (db, base)
       | some d =>
         pure
           ({ settings := match d.settings with
                | some sd => objectAssign db.settings sd
                | none => db.settings
              evaluators := d.evaluators.getD []
              projects := d.projects.getD []
              panels := d.panels.getD []
              results := d.results.getD []
              evaluatorState := d.evaluatorState.getD []
              lastSync := some now }, base))
    (fun _ => pure (db, base))

/-! ## Admin module: evaluators and the exported score sheet -/

/-- The values of the inputs of the evaluator dialog when Save is clicked. -/
structure EvaluatorForm where
  name : String
  email : String
  expertise : String
  code : String
  notes : String
deriving DecidableEq, Repr

/-- The number that `x.toFixed(digits)` denotes, and that `parseFloat` reads back
from it: `x` rounded to `digits` decimals, halves away from zero. -/
def toFixed (digits : Nat) (x : ℚ) : ℚ :=
  if x < 0 then -(((⌊(-x) * 10 ^ digits + 1 / 2⌋ : ℤ) : ℚ) / 10 ^ digits)
  else ((⌊x * 10 ^ digits + 1 / 2⌋ : ℤ) : ℚ) / 10 ^ digits

/-- A row of the sheet built by `exportScores`. The cells `'Average Score'` and
`'Percentage'` are held as the numbers their text denotes. -/
structure ExportRow where
  projectId : String
  projectTitle : String
  category : String
  team : String
  school : String
  numberOfEvaluators : Nat
  averageScore : ℚ
  maxPossible : Nat
  percentage : ℚ
deriving DecidableEq, Repr

namespace Admin

/-- Method `editEvaluator(id)` followed by a click on `#saveBtn`: whether the
save was accepted, and the store afterwards. With an `id` the handler assigns
to the object found in `DB.evaluators` before it tests email and name;
without one it fills a new object that is pushed only after both tests. -/
def editEvaluator (db : DB) (id : Option String) (form : EvaluatorForm) : Bool × DB :=
  let fill := fun (e : Evaluator) =>
    { e with
      name := form.name.trim, email := form.email.trim, expertise := form.expertise.trim
      code := form.code.trim, notes := form.notes.trim }
  let rejected : Bool := decide (form.email.trim = "") || decide (form.name.trim = "")
  match truthyId id with
  | some i =>
    match db.evaluators.find? (fun x => x.id == i) with
    | none => (false, db)
    | some _ =>
      let db2 := { db with evaluators := updateFirst (fun x => x.id == i) fill db.evaluators }
      if rejected then (false, db2) else (true, db2)
  | none =>
    let e := fill
      { id := U.uid db "evaluator", name := "", email := "", expertise := "", notes := ""
        code := "" }
    if rejected then (false, db) else (true, { db with evaluators := db.evaluators ++ [e] })

/-- The callback of `DB.projects.map(project => ...)` in `exportScores`. -/
def exportRow (db : DB) (project : Project) : ExportRow :=
  let projectResults := db.results.filter (fun r => r.projectId == project.id)
  if projectResults.length = 0 then
    { projectId := project.id, projectTitle := project.title
      category := orElse project.category "", team := orElse project.team ""
      school := orElse project.school "", numberOfEvaluators := 0, averageScore := 0
      maxPossible := rubricDefs.length * 10, percentage := 0 }
  else
    let totalScore : ℚ := projectResults.foldl (fun sum r => sum + r.total) 0
    let averageScore : ℚ := totalScore / projectResults.length
    let maxPossible : Nat := rubricDefs.length * 10
    let percentage : ℚ := (averageScore / maxPossible) * 100
    { projectId := project.id, projectTitle := project.title
      category := orElse project.category "", team := orElse project.team ""
      school := orElse project.school "", numberOfEvaluators := projectResults.length
      averageScore := toFixed 2 averageScore, maxPossible := maxPossible
      percentage := toFixed 1 percentage }

/-- The comparator
`(a, b) => parseFloat(b['Average Score']) - parseFloat(a['Average Score'])`
returns a value `≤ 0`: `a` may stay before `b`. -/
def exportKeepsOrder (a b : ExportRow) : Prop := b.averageScore - a.averageScore ≤ 0

instance : DecidableRel exportKeepsOrder := fun a b =>
  inferInstanceAs (Decidable (b.averageScore - a.averageScore ≤ 0))

/-- The rows that `exportScores()` hands to `U.csv`, after `projectScores.sort(...)`. -/
def exportScores (db : DB) : List ExportRow :=
  (db.projects.map (exportRow db)).insertionSort exportKeepsOrder

end Admin

/-! ## Predicates and samples for references, saves and exports -/

/-- A reference `x` is rewritten to `y` consistently: at every position where the
old ids hold `x` the new ids hold `y`, and a reference that is no old id is
kept as it is. -/
def rewrittenTo (oldIds newIds : List String) (x y : String) : Prop :=
  (∀ i : Nat, oldIds[i]? = some x → newIds[i]? = some y) ∧ (x ∉ oldIds → y = x)

namespace Sample

/-- The store after `PRJ-0001`, which `EVAL-0001` has scored, was deleted with
`deleteProject`: the Result keeps its reference to `PRJ-0001`. -/
def danglingStore : DB := Admin.deleteProject store "PRJ-0001" true

/-- A store, as loaded from the remote endpoint, whose only Result carries the id
`RES-0002`. -/
def collidingStore : DB := { store with results := [result2] }

/-- Three evaluators. -/
def staff : List Evaluator :=
  [ ⟨"EVAL-0001", "Ada", "ada@example.org", "", "", "111111"⟩,
    ⟨"EVAL-0002", "Ben", "ben@example.org", "", "", "222222"⟩,
    ⟨"EVAL-0003", "Cy", "cy@example.org", "", "", "333333"⟩ ]

/-- The sample store with its three evaluators. -/
def staffedStore : DB := { store with evaluators := staff }

/-- A store with 40 projects, all assigned to `EVAL-0001`, who has scored the
first 23 of them. -/
def halfwayStore : DB :=
  { emptyStore with
    projects := (List.range 40).map (fun i => ⟨toString i, "Project", "", "", "", ""⟩)
    panels := [{ id := "PNL-0001", name := "Panel 1"
                 evaluatorIds := ["EVAL-0001", "EVAL-0002", "EVAL-0003"]
                 projectIds := (List.range 40).map (fun i => toString i) }]
    results := (List.range 23).map (fun i =>
      { id := "R" ++ toString i, panelId := some "PNL-0001", projectId := toString i
        evaluatorId := "EVAL-0001", scores := [], remark := "", total := 0, ts := 1
        finalizedByEvaluator := false }) }

/-- A store with 200 projects, all assigned to `EVAL-0001`, who has scored the
first 199 of them. -/
def wideStore : DB :=
  { emptyStore with
    projects := (List.range 200).map (fun i => ⟨toString i, "Project", "", "", "", ""⟩)
    panels := [{ id := "PNL-0001", name := "Panel 1"
                 evaluatorIds := ["EVAL-0001", "EVAL-0002", "EVAL-0003"]
                 projectIds := (List.range 200).map (fun i => toString i) }]
    results := (List.range 199).map (fun i =>
      { id := "R" ++ toString i, panelId := some "PNL-0001", projectId := toString i
        evaluatorId := "EVAL-0001", scores := [], remark := "", total := 0, ts := 1
        finalizedByEvaluator := false }) }

/-- A store in which `PRJ-0001` has average 44.001 and `PRJ-0002` has average
44.004: one Result each, with a first score of 9.001 and 9.004. -/
def closeStore : DB :=
  { store with
    results :=
      [ { result1 with
          scores := [("problem", 9001 / 1000), ("originality", 7), ("description", 7),
            ("method", 7), ("impact", 7), ("presentation", 7)]
          total := 44001 / 1000 },
        { result2 with
          projectId := "PRJ-0002"
          scores := [("problem", 9004 / 1000), ("originality", 7), ("description", 7),
            ("method", 7), ("impact", 7), ("presentation", 7)]
          total := 44004 / 1000 } ] }

/-- A fetched dataset whose `settings` hold the event title only. -/
def remoteData : Dataset :=
  { settings := some
      { eventTitle := some "Science Fair", subtitle := none, welcomeTitle := none
        welcomeBody := none, logoUrl := none, adminPass := none, gasUrl := none }
    evaluators := some staff, projects := some [], panels := some [], results := some []
    evaluatorState := some [] }

/-- The sample store with a remote endpoint configured. -/
def onlineStore : DB := { store with settings := { settings with gasUrl := "https://gas.example/exec" } }

end Sample

/-! ## Lemmas on the JavaScript helpers -/

theorem findIndex_cons {α : Type} (p : α → Bool) (x : α) (xs : List α) :
    findIndex p (x :: xs) = if p x then 0 else
      (if findIndex p xs ≥ 0 then findIndex p xs + 1 else -1) := by
  by_cases hp : p x = true
  · simp [findIndex, List.findIdx?_cons, hp]
  · have h1 : List.findIdx? p (x :: xs) = (List.findIdx? p xs).map (fun i => i + 1) := by
      rw [List.findIdx?_cons, if_neg hp, List.findIdx?_succ]
    rw [if_neg hp]
    unfold findIndex
    rw [h1]
    cases List.findIdx? p xs with
    | none => simp
    | some i =>
      have h2 : ((i : Int) ≥ 0) := Int.ofNat_nonneg i
      simp [h2]

theorem findIndex_ge_neg_one {α : Type} (p : α → Bool) (xs : List α) :
    findIndex p xs = -1 ∨ 0 ≤ findIndex p xs := by
  unfold findIndex
  cases List.findIdx? p xs with
  | none => simp
  | some i => right; simp

theorem storeResult_nil (x : Result) : storeResult [] x = [x] := by
  simp [storeResult, findIndex]

theorem storeResult_cons (y : Result) (ys : List Result) (x : Result) :
    storeResult (y :: ys) x = if y.id = x.id then x :: ys else y :: storeResult ys x := by
  unfold storeResult
  simp only [findIndex_cons]
  by_cases h : y.id = x.id
  · simp [h]
  · simp only [beq_iff_eq, h, if_false]
    rcases findIndex_ge_neg_one (fun r => r.id == x.id) ys with h1 | h1
    · simp [h1]
    · have h2 : findIndex (fun r => r.id == x.id) ys + 1 ≥ 0 := by omega
      simp only [h1, ge_iff_le, if_true, h2]
      have h3 : (findIndex (fun r => r.id == x.id) ys + 1).toNat
          = (findIndex (fun r => r.id == x.id) ys).toNat + 1 := by omega
      rw [h3, List.set_cons_succ]

/-! ## Lemmas on `storeResult` -/

theorem storeResult_cases (rs : List Result) (x : Result) :
    storeResult rs x = rs ++ [x] ∨
      ∃ i y, rs[i]? = some y ∧ y.id = x.id ∧ storeResult rs x = rs.set i x := by
  induction rs with
  | nil => left; exact storeResult_nil x
  | cons y ys ih =>
    rw [storeResult_cons]
    by_cases h : y.id = x.id
    · right
      exact ⟨0, y, by simp, h, by simp [h]⟩
    · rw [if_neg h]
      rcases ih with h1 | ⟨i, z, hz, hid, hset⟩
      · left; simp [h1]
      · right
        exact ⟨i + 1, z, by simpa using hz, hid, by simp [hset]⟩

theorem storeResult_append_of_fresh (rs : List Result) (x : Result)
    (h : ∀ y ∈ rs, y.id ≠ x.id) : storeResult rs x = rs ++ [x] := by
  induction rs with
  | nil => exact storeResult_nil x
  | cons y ys ih =>
    rw [storeResult_cons, if_neg (h y (by simp))]
    rw [ih (fun z hz => h z (by simp [hz]))]
    simp

theorem storeResult_overwrite (rs : List Result) (x pr : Result)
    (hids : distinctIds rs) (hmem : pr ∈ rs) (hid : pr.id = x.id) :
    ∃ i, rs[i]? = some pr ∧ storeResult rs x = rs.set i x := by
  induction rs with
  | nil => simp at hmem
  | cons y ys ih =>
    rw [storeResult_cons]
    unfold distinctIds at hids
    rw [List.pairwise_cons] at hids
    by_cases h : y.id = x.id
    · have hy : pr = y := by
        rcases List.mem_cons.mp hmem with h1 | h1
        · exact h1
        · exact absurd (h.trans hid.symm) (hids.1 pr h1)
      subst hy
      exact ⟨0, by simp, by simp [h]⟩
    · rw [if_neg h]
      have hmem2 : pr ∈ ys := by
        rcases List.mem_cons.mp hmem with h1 | h1
        · subst h1; exact absurd hid h
        · exact h1
      obtain ⟨i, hi, hset⟩ := ih hids.2 hmem2
      exact ⟨i + 1, by simpa using hi, by simp [hset]⟩

theorem mem_storeResult (rs : List Result) (x : Result) : x ∈ storeResult rs x := by
  induction rs with
  | nil => simp [storeResult_nil]
  | cons y ys ih =>
    rw [storeResult_cons]
    split
    · simp
    · simp [ih]

theorem storeResult_idem (rs : List Result) (x : Result) :
    storeResult (storeResult rs x) x = storeResult rs x := by
  induction rs with
  | nil => simp [storeResult_nil, storeResult_cons]
  | cons y ys ih =>
    rw [storeResult_cons]
    by_cases h : y.id = x.id
    · simp [h, storeResult_cons]
    · simp [h, storeResult_cons, ih]

theorem atMostOnePerPair_set_same (rs : List Result) (i : Nat) (pr x : Result)
    (h : atMostOnePerPair rs) (hi : rs[i]? = some pr) (hs : samePair pr x) :
    atMostOnePerPair (rs.set i x) := by
  unfold atMostOnePerPair at h ⊢
  induction rs generalizing i with
  | nil => simp
  | cons y ys ih =>
    rw [List.pairwise_cons] at h
    cases i with
    | zero =>
      simp only [List.getElem?_cons_zero, Option.some.injEq] at hi
      subst hi
      rw [List.set_cons_zero, List.pairwise_cons]
      refine ⟨fun z hz hxz => h.1 z hz ⟨hs.1.trans hxz.1, hs.2.trans hxz.2⟩, h.2⟩
    | succ j =>
      simp only [List.getElem?_cons_succ] at hi
      rw [List.set_cons_succ, List.pairwise_cons]
      refine ⟨fun z hz hyz => ?_, ih j h.2 hi⟩
      rcases List.mem_or_eq_of_mem_set hz with h1 | h1
      · exact h.1 z h1 hyz
      · subst h1
        have hpr : pr ∈ ys := List.getElem?_mem hi
        exact h.1 pr hpr ⟨hyz.1.trans hs.1.symm, hyz.2.trans hs.2.symm⟩

theorem atMostOnePerPair_set_fresh (rs : List Result) (i : Nat) (x : Result)
    (h : atMostOnePerPair rs) (hx : ∀ y ∈ rs, ¬ samePair y x) :
    atMostOnePerPair (rs.set i x) := by
  unfold atMostOnePerPair at h ⊢
  induction rs generalizing i with
  | nil => simp
  | cons y ys ih =>
    rw [List.pairwise_cons] at h
    cases i with
    | zero =>
      rw [List.set_cons_zero, List.pairwise_cons]
      exact ⟨fun z hz hxz => hx z (by simp [hz]) ⟨hxz.1.symm, hxz.2.symm⟩, h.2⟩
    | succ j =>
      rw [List.set_cons_succ, List.pairwise_cons]
      refine ⟨fun z hz hyz => ?_, ih j h.2 (fun z hz => hx z (by simp [hz]))⟩
      rcases List.mem_or_eq_of_mem_set hz with h1 | h1
      · exact h.1 z h1 hyz
      · subst h1
        exact hx y (by simp) hyz

theorem atMostOnePerPair_append_fresh (rs : List Result) (x : Result)
    (h : atMostOnePerPair rs) (hx : ∀ y ∈ rs, ¬ samePair y x) :
    atMostOnePerPair (rs ++ [x]) := by
  unfold atMostOnePerPair at h ⊢
  rw [List.pairwise_append]
  refine ⟨h, by simp, ?_⟩
  intro a ha b hb
  simp only [List.mem_singleton] at hb
  subst hb
  exact hx a ha

/-! ## Lemmas on the rubric dialog -/

theorem prior_some {db : DB} {evalId projectId : String} {pr : Result}
    (h : Eval.prior db evalId projectId = some pr) :
    pr ∈ db.results ∧ pr.projectId = projectId ∧ pr.evaluatorId = evalId := by
  unfold Eval.prior at h
  have h1 := List.find?_some h
  simp only [Bool.and_eq_true, beq_iff_eq] at h1
  exact ⟨List.mem_of_find?_eq_some h, h1.1, h1.2⟩

theorem prior_none {db : DB} {evalId projectId : String}
    (h : Eval.prior db evalId projectId = none) :
    ∀ r ∈ db.results, ¬ (r.projectId = projectId ∧ r.evaluatorId = evalId) := by
  unfold Eval.prior at h
  rw [List.find?_eq_none] at h
  intro r hr
  simpa using h r hr

theorem openRubricModal_projectId (db : DB) (evalId projectId : String) (now : Nat) :
    (Eval.openRubricModal db evalId projectId now).projectId = projectId := by
  unfold Eval.openRubricModal
  split <;> rfl

theorem openRubricModal_evaluatorId (db : DB) (evalId projectId : String) (now : Nat) :
    (Eval.openRubricModal db evalId projectId now).evaluatorId = evalId := by
  unfold Eval.openRubricModal
  split <;> rfl

theorem openRubricModal_id_of_prior {db : DB} {evalId projectId : String} {pr : Result}
    (now : Nat) (h : Eval.prior db evalId projectId = some pr) (hne : pr.id ≠ "") :
    (Eval.openRubricModal db evalId projectId now).id = pr.id := by
  unfold Eval.openRubricModal
  rw [h]
  simp [hne]

theorem openRubricModal_flag_of_prior {db : DB} {evalId projectId : String} {pr : Result}
    (now : Nat) (h : Eval.prior db evalId projectId = some pr) :
    (Eval.openRubricModal db evalId projectId now).finalizedByEvaluator
      = pr.finalizedByEvaluator := by
  unfold Eval.openRubricModal
  rw [h]

theorem openRubricModal_flag_of_no_prior {db : DB} {evalId projectId : String}
    (now : Nat) (h : Eval.prior db evalId projectId = none) :
    (Eval.openRubricModal db evalId projectId now).finalizedByEvaluator = false := by
  unfold Eval.openRubricModal
  rw [h]

theorem prepareReview_keeps (db : DB) (d : Result) (m : RubricModal) :
    (Eval.prepareReviewFromModal db d m).draft.id = d.id ∧
    (Eval.prepareReviewFromModal db d m).draft.projectId = d.projectId ∧
    (Eval.prepareReviewFromModal db d m).draft.evaluatorId = d.evaluatorId ∧
    (Eval.prepareReviewFromModal db d m).draft.finalizedByEvaluator = d.finalizedByEvaluator ∧
    (Eval.prepareReviewFromModal db d m).db = db := by
  by_cases h : (Eval.readInputs d.scores m.inputs).1 = true <;>
    simp [Eval.prepareReviewFromModal, h]

theorem saveFromModal_keeps (db : DB) (d : Result) (m : RubricModal) :
    (Eval.saveFromModal db d m).draft.id = d.id ∧
    (Eval.saveFromModal db d m).draft.projectId = d.projectId ∧
    (Eval.saveFromModal db d m).draft.evaluatorId = d.evaluatorId ∧
    (Eval.saveFromModal db d m).draft.finalizedByEvaluator = d.finalizedByEvaluator := by
  by_cases h : (Eval.readInputs d.scores m.inputs).1 = true <;>
    simp [Eval.saveFromModal, h]

theorem saveFromModal_db (db : DB) (d : Result) (m : RubricModal) :
    ((Eval.saveFromModal db d m).accepted = true →
      (Eval.saveFromModal db d m).db.results
        = storeResult db.results (Eval.saveFromModal db d m).draft) ∧
    ((Eval.saveFromModal db d m).accepted = false → (Eval.saveFromModal db d m).db = db) := by
  by_cases h : (Eval.readInputs d.scores m.inputs).1 = true <;>
    simp [Eval.saveFromModal, h]

theorem submitDraft_results (db : DB) (d : Result) (now : Nat) (push : Remote) :
    (Eval.submitDraft db d now push).results = storeResult db.results { d with ts := now } := by
  simp [Eval.submitDraft, saveResultToGAS, storeResult_idem]

/-- Storing a record that carries the id, project and evaluator of the draft
opened for a pair keeps one Result per pair and overwrites the prior record
in place, when the stored ids are pairwise distinct and non-empty. -/
theorem storeResult_draft (db : DB) (evalId projectId : String) (now : Nat) (x : Result)
    (hpair : atMostOnePerPair db.results) (hids : distinctIds db.results)
    (hne : ∀ r ∈ db.results, r.id ≠ "")
    (hid : x.id = (Eval.openRubricModal db evalId projectId now).id)
    (hp : x.projectId = projectId) (he : x.evaluatorId = evalId) :
    atMostOnePerPair (storeResult db.results x) ∧
    ∀ pr, Eval.prior db evalId projectId = some pr →
      overwrittenInPlace db.results (storeResult db.results x) pr x := by
  cases hpr : Eval.prior db evalId projectId with
  | some pr =>
    obtain ⟨hmem, hpp, hpe⟩ := prior_some hpr
    have hidpr : pr.id = x.id := by
      rw [hid, openRubricModal_id_of_prior now hpr (hne pr hmem)]
    obtain ⟨i, hi, hset⟩ := storeResult_overwrite db.results x pr hids hmem hidpr
    have hsame : samePair pr x := ⟨hpp.trans hp.symm, hpe.trans he.symm⟩
    refine ⟨?_, ?_⟩
    · rw [hset]; exact atMostOnePerPair_set_same db.results i pr x hpair hi hsame
    · intro pr2 h2
      cases h2
      exact ⟨i, hi, hset, hidpr.symm, by rw [hset, List.length_set]⟩
  | none =>
    have hfresh : ∀ y ∈ db.results, ¬ samePair y x := by
      intro y hy hs
      exact prior_none hpr y hy ⟨hs.1.trans hp, hs.2.trans he⟩
    refine ⟨?_, by intro pr h; cases h⟩
    rcases storeResult_cases db.results x with h1 | ⟨i, y, _, _, h1⟩
    · rw [h1]; exact atMostOnePerPair_append_fresh db.results x hpair hfresh
    · rw [h1]; exact atMostOnePerPair_set_fresh db.results i x hpair hfresh

/-! ## Saving after finalisation -/

/-- C1 (the code at the failing input): `Sample.finalizedStore` is the store
after `EVAL-0001` has finalised, so `_evaluatorFinalized` is `true` and the
Result for `PRJ-0001` is finalised; the evaluator then opens the pending
project `PRJ-0002` (its Evaluate button is still shown by `goToAssigned`).
`saveFromModal` accepts the dialog and, like `saveDraftOnly` and `submitDraft`
after the review step, appends a second Result to `DB.results`: none of the
three checks `_evaluatorFinalized`. -/
theorem C1_save_after_finalize_changes_results :
    Eval._evaluatorFinalized Sample.finalizedStore "EVAL-0001" = true ∧
    (Eval.subs Sample.finalizedStore "EVAL-0001").all (fun r => r.finalizedByEvaluator) = true ∧
    (Eval.saveFromModal Sample.finalizedStore
      (Eval.openRubricModal Sample.finalizedStore "EVAL-0001" "PRJ-0002" 3000)
      Sample.tenModal).accepted = true ∧
    (Eval.saveFromModal Sample.finalizedStore
      (Eval.openRubricModal Sample.finalizedStore "EVAL-0001" "PRJ-0002" 3000)
      Sample.tenModal).db.results.length = Sample.finalizedStore.results.length + 1 ∧
    (Eval.reviewThenSaveDraft Sample.finalizedStore
      (Eval.openRubricModal Sample.finalizedStore "EVAL-0001" "PRJ-0002" 3000)
      Sample.tenModal).results.length = Sample.finalizedStore.results.length + 1 ∧
    (Eval.reviewThenSubmit Sample.finalizedStore
      (Eval.openRubricModal Sample.finalizedStore "EVAL-0001" "PRJ-0002" 3000)
      Sample.tenModal 3001 (.threw "")).results.length
        = Sample.finalizedStore.results.length + 1 ∧
    (Eval.reviewThenSubmit Sample.finalizedStore
      (Eval.openRubricModal Sample.finalizedStore "EVAL-0001" "PRJ-0002" 3000)
      Sample.tenModal 3001 (.threw "")).results ≠ Sample.finalizedStore.results := by
  decide

/-! ## One Result per (project, evaluator) pair -/

/-- C2 (counterexample): `Sample.sharedIdStore` holds one Result per pair, but
the Results of `EVAL-0002` and `EVAL-0001` for `PRJ-0001` share the id
`RES-0001`. When `EVAL-0001` reopens `PRJ-0001` and saves, `findIndex` by id
hits the record of `EVAL-0002` first: it is replaced, and the store then holds
two Results for the pair (`PRJ-0001`, `EVAL-0001`). -/
theorem C2_shared_id_duplicates_pair :
    atMostOnePerPair Sample.sharedIdStore.results ∧
    Eval.prior Sample.sharedIdStore "EVAL-0001" "PRJ-0001" = some Sample.result1 ∧
    (Eval.saveFromModal Sample.sharedIdStore
      (Eval.openRubricModal Sample.sharedIdStore "EVAL-0001" "PRJ-0001" 3000)
      Sample.tenModal).accepted = true ∧
    ¬ atMostOnePerPair (Eval.saveFromModal Sample.sharedIdStore
      (Eval.openRubricModal Sample.sharedIdStore "EVAL-0001" "PRJ-0001" 3000)
      Sample.tenModal).db.results ∧
    ¬ atMostOnePerPair (Eval.reviewThenSaveDraft Sample.sharedIdStore
      (Eval.openRubricModal Sample.sharedIdStore "EVAL-0001" "PRJ-0001" 3000)
      Sample.tenModal).results ∧
    ¬ atMostOnePerPair (Eval.reviewThenSubmit Sample.sharedIdStore
      (Eval.openRubricModal Sample.sharedIdStore "EVAL-0001" "PRJ-0001" 3000)
      Sample.tenModal 3001 (.threw "")).results := by
  decide

/-- C2 (amended): for every store that holds at most one Result per
(projectId, evaluatorId) pair and whose Result ids are pairwise distinct and
non-empty, and for the draft built by `openRubricModal` for an (evaluator,
project) pair, each way of saving the draft (`saveFromModal`, or the review
step followed by `saveDraftOnly` or `submitDraft`) yields a store that still
holds at most one Result per pair; when a Result for the pair already existed
and the dialog passes validation, that Result is overwritten in place (same
position, same id, same number of results), and when validation fails the
store is unchanged. -/
theorem C2_save_keeps_one_result_per_pair (db : DB) (evalId projectId : String)
    (now now2 : Nat) (m : RubricModal) (push : Remote)
    (hpair : atMostOnePerPair db.results) (hids : distinctIds db.results)
    (hne : ∀ r ∈ db.results, r.id ≠ "") :
    atMostOnePerPair
      (Eval.saveFromModal db (Eval.openRubricModal db evalId projectId now) m).db.results ∧
    atMostOnePerPair
      (Eval.reviewThenSaveDraft db (Eval.openRubricModal db evalId projectId now) m).results ∧
    atMostOnePerPair
      (Eval.reviewThenSubmit db (Eval.openRubricModal db evalId projectId now) m
        now2 push).results ∧
    ∀ pr, Eval.prior db evalId projectId = some pr →
      ((Eval.saveFromModal db (Eval.openRubricModal db evalId projectId now) m).accepted = true →
        overwrittenInPlace db.results
          (Eval.saveFromModal db (Eval.openRubricModal db evalId projectId now) m).db.results pr
          (Eval.saveFromModal db (Eval.openRubricModal db evalId projectId now) m).draft) ∧
      ((Eval.saveFromModal db (Eval.openRubricModal db evalId projectId now) m).accepted = false →
        (Eval.saveFromModal db (Eval.openRubricModal db evalId projectId now) m).db = db) ∧
      ((Eval.prepareReviewFromModal db (Eval.openRubricModal db evalId projectId now)
          m).accepted = true →
        overwrittenInPlace db.results
          (Eval.reviewThenSaveDraft db (Eval.openRubricModal db evalId projectId now) m).results
          pr (Eval.prepareReviewFromModal db (Eval.openRubricModal db evalId projectId now)
            m).draft ∧
        overwrittenInPlace db.results
          (Eval.reviewThenSubmit db (Eval.openRubricModal db evalId projectId now) m
            now2 push).results
          pr { (Eval.prepareReviewFromModal db (Eval.openRubricModal db evalId projectId now)
            m).draft with ts := now2 }) ∧
      ((Eval.prepareReviewFromModal db (Eval.openRubricModal db evalId projectId now)
          m).accepted = false →
        Eval.reviewThenSaveDraft db (Eval.openRubricModal db evalId projectId now) m = db ∧
        Eval.reviewThenSubmit db (Eval.openRubricModal db evalId projectId now) m
          now2 push = db) := by
  have hd_p := openRubricModal_projectId db evalId projectId now
  have hd_e := openRubricModal_evaluatorId db evalId projectId now
  generalize hd : Eval.openRubricModal db evalId projectId now = d at hd_p hd_e ⊢
  obtain ⟨hs_id, hs_p, hs_e, _⟩ := saveFromModal_keeps db d m
  obtain ⟨hsdb_acc, hsdb_rej⟩ := saveFromModal_db db d m
  obtain ⟨hr_id, hr_p, hr_e, _, hr_db⟩ := prepareReview_keeps db d m
  have key := fun (x : Result) (h1 : x.id = d.id) (h2 : x.projectId = projectId)
      (h3 : x.evaluatorId = evalId) =>
    storeResult_draft db evalId projectId now x hpair hids hne (by rw [hd]; exact h1) h2 h3
  have kS := key (Eval.saveFromModal db d m).draft hs_id (hs_p.trans hd_p) (hs_e.trans hd_e)
  have kR := key (Eval.prepareReviewFromModal db d m).draft hr_id (hr_p.trans hd_p)
    (hr_e.trans hd_e)
  have kT := key { (Eval.prepareReviewFromModal db d m).draft with ts := now2 } hr_id
    (hr_p.trans hd_p) (hr_e.trans hd_e)
  have hrs : (Eval.prepareReviewFromModal db d m).accepted = true →
      (Eval.reviewThenSaveDraft db d m).results
        = storeResult db.results (Eval.prepareReviewFromModal db d m).draft := by
    intro h
    simp [Eval.reviewThenSaveDraft, h, Eval.saveDraftOnly, hr_db]
  have hrt : (Eval.prepareReviewFromModal db d m).accepted = true →
      (Eval.reviewThenSubmit db d m now2 push).results
        = storeResult db.results
            { (Eval.prepareReviewFromModal db d m).draft with ts := now2 } := by
    intro h
    simp [Eval.reviewThenSubmit, h, submitDraft_results, hr_db]
  have hrs0 : (Eval.prepareReviewFromModal db d m).accepted = false →
      Eval.reviewThenSaveDraft db d m = db := by
    intro h
    simp [Eval.reviewThenSaveDraft, h, hr_db]
  have hrt0 : (Eval.prepareReviewFromModal db d m).accepted = false →
      Eval.reviewThenSubmit db d m now2 push = db := by
    intro h
    simp [Eval.reviewThenSubmit, h, hr_db]
  refine ⟨?_, ?_, ?_, ?_⟩
  · cases hacc : (Eval.saveFromModal db d m).accepted with
    | true => rw [hsdb_acc hacc]; exact kS.1
    | false => rw [hsdb_rej hacc]; exact hpair
  · cases hacc : (Eval.prepareReviewFromModal db d m).accepted with
    | true => rw [hrs hacc]; exact kR.1
    | false => rw [hrs0 hacc]; exact hpair
  · cases hacc : (Eval.prepareReviewFromModal db d m).accepted with
    | true => rw [hrt hacc]; exact kT.1
    | false => rw [hrt0 hacc]; exact hpair
  · intro pr hpr
    refine ⟨?_, hsdb_rej, ?_, fun h => ⟨hrs0 h, hrt0 h⟩⟩
    · intro hacc
      rw [hsdb_acc hacc]; exact kS.2 pr hpr
    · intro hacc
      rw [hrs hacc, hrt hacc]
      exact ⟨kR.2 pr hpr, kT.2 pr hpr⟩

/-- C2 (witness): the amended claim at `Sample.store`, where `EVAL-0001` reopens
`PRJ-0001`. -/
theorem C2_save_keeps_one_result_per_pair_witness :
    atMostOnePerPair Sample.store.results ∧ distinctIds Sample.store.results ∧
    (∀ r ∈ Sample.store.results, r.id ≠ "") ∧
    atMostOnePerPair
      (Eval.saveFromModal Sample.store
        (Eval.openRubricModal Sample.store "EVAL-0001" "PRJ-0001" 3000)
        Sample.tenModal).db.results :=
  ⟨by decide, by decide, by decide,
    (C2_save_keeps_one_result_per_pair Sample.store "EVAL-0001" "PRJ-0001" 3000 3001
      Sample.tenModal (.threw "") (by decide) (by decide) (by decide)).1⟩

/-! ## Lemmas on `getKey`, `setKey` and the validation loop -/

theorem getKey_cons {α : Type} (e : String × α) (s : List (String × α)) (k : String) :
    getKey (e :: s) k = if e.1 = k then some e.2 else getKey s k := by
  unfold getKey
  by_cases h : e.1 = k <;> simp [List.find?_cons, h]

theorem getKey_setKey {α : Type} (s : List (String × α)) (k k2 : String) (v : α) :
    getKey (setKey s k v) k2 = if k = k2 then some v else getKey s k2 := by
  induction s with
  | nil => simp [setKey, getKey_cons, getKey]
  | cons e rest ih =>
    unfold setKey
    by_cases h : e.1 = k
    · rw [if_pos h, getKey_cons, getKey_cons]
      by_cases h2 : k = k2
      · simp [h2]
      · have h3 : ¬ e.1 = k2 := fun h4 => h2 (h.symm.trans h4)
        simp [h2, h3]
    · rw [if_neg h, getKey_cons, getKey_cons, ih]
      by_cases h2 : e.1 = k2
      · have h3 : ¬ k = k2 := fun h4 => h (h2.trans h4.symm)
        simp [h2, h3]
      · simp [h2]

theorem keys_setKey {α : Type} (s : List (String × α)) (k : String) (v : α) :
    (setKey s k v).map Prod.fst
      = if k ∈ s.map Prod.fst then s.map Prod.fst else s.map Prod.fst ++ [k] := by
  induction s with
  | nil => simp [setKey]
  | cons e rest ih =>
    unfold setKey
    by_cases h : e.1 = k
    · simp [h]
    · have h2 : ¬ k = e.1 := fun h3 => h h3.symm
      rw [if_neg h, List.map_cons, ih]
      by_cases h3 : k ∈ rest.map Prod.fst
      · simp [h3]
      · simp [h3, h2]

theorem getKey_of_mem {α : Type} (s : List (String × α)) (e : String × α)
    (hnd : (s.map Prod.fst).Nodup) (he : e ∈ s) : getKey s e.1 = some e.2 := by
  induction s with
  | nil => simp at he
  | cons a rest ih =>
    rw [List.map_cons, List.nodup_cons] at hnd
    rw [getKey_cons]
    rcases List.mem_cons.mp he with h | h
    · subst h; simp
    · have hne : ¬ a.1 = e.1 := by
        intro h2
        exact hnd.1 (h2 ▸ List.mem_map_of_mem Prod.fst h)
      rw [if_neg hne]
      exact ih hnd.2 h

theorem readInputs_cons_inRange (s : Scores) (k : String) (raw : InputValue)
    (rest : List (String × InputValue)) (v : ℚ) (hv : Number raw = some v)
    (h0 : 0 ≤ v) (h10 : v ≤ 10) :
    Eval.readInputs s ((k, raw) :: rest) = Eval.readInputs (setKey s k v) rest := by
  have h : ¬ (v < 0 ∨ v > 10) := by
    intro h; rcases h with h | h
    · exact absurd h0 (not_le.mpr h)
    · exact absurd h10 (not_le.mpr h)
  simp only [Eval.readInputs, hv, if_neg h]

theorem readInputs_cons_reject (s : Scores) (k : String) (raw : InputValue)
    (rest : List (String × InputValue)) (h : ¬ inRange raw) :
    Eval.readInputs s ((k, raw) :: rest) = (false, s) := by
  cases hv : Number raw with
  | none => simp only [Eval.readInputs, hv]
  | some v =>
    have h2 : v < 0 ∨ v > 10 := by
      by_contra hc
      push_neg at hc
      exact h ⟨v, hv, hc.1, hc.2⟩
    simp only [Eval.readInputs, hv, if_pos h2]

theorem readInputs_accepted_iff (s : Scores) (inputs : List (String × InputValue)) :
    (Eval.readInputs s inputs).1 = true ↔ ∀ e ∈ inputs, inRange e.2 := by
  induction inputs generalizing s with
  | nil => simp [Eval.readInputs]
  | cons e rest ih =>
    obtain ⟨k, raw⟩ := e
    by_cases h : inRange raw
    · obtain ⟨v, hv, h0, h10⟩ := h
      rw [readInputs_cons_inRange s k raw rest v hv h0 h10, ih]
      constructor
      · intro hr e he
        rcases List.mem_cons.mp he with h1 | h1
        · subst h1; exact ⟨v, hv, h0, h10⟩
        · exact hr e h1
      · intro hr e he
        exact hr e (List.mem_cons_of_mem _ he)
    · rw [readInputs_cons_reject s k raw rest h]
      constructor
      · intro hf; cases hf
      · intro hr
        exact absurd (hr (k, raw) (by simp)) h

theorem readInputs_getKey_other (s : Scores) (inputs : List (String × InputValue))
    (k : String) (hk : k ∉ inputs.map Prod.fst) :
    getKey (Eval.readInputs s inputs).2 k = getKey s k := by
  induction inputs generalizing s with
  | nil => simp [Eval.readInputs]
  | cons e rest ih =>
    obtain ⟨k1, raw⟩ := e
    simp only [List.map_cons, List.mem_cons, not_or] at hk
    by_cases h : inRange raw
    · obtain ⟨v, hv, h0, h10⟩ := h
      rw [readInputs_cons_inRange s k1 raw rest v hv h0 h10, ih _ hk.2, getKey_setKey]
      rw [if_neg (fun h => hk.1 h.symm)]
    · rw [readInputs_cons_reject s k1 raw rest h]

theorem readInputs_getKey (s : Scores) (inputs : List (String × InputValue))
    (hacc : (Eval.readInputs s inputs).1 = true) (hnd : (inputs.map Prod.fst).Nodup) :
    ∀ e ∈ inputs, getKey (Eval.readInputs s inputs).2 e.1 = Number e.2 := by
  induction inputs generalizing s with
  | nil => simp
  | cons e rest ih =>
    obtain ⟨k, raw⟩ := e
    have hall := (readInputs_accepted_iff s ((k, raw) :: rest)).mp hacc
    obtain ⟨v, hv, h0, h10⟩ := hall (k, raw) (by simp)
    rw [List.map_cons, List.nodup_cons] at hnd
    rw [readInputs_cons_inRange s k raw rest v hv h0 h10] at hacc ⊢
    intro e he
    rcases List.mem_cons.mp he with h1 | h1
    · subst h1
      rw [readInputs_getKey_other _ _ _ hnd.1, getKey_setKey]
      simp [hv]
    · exact ih _ hacc hnd.2 e h1

theorem readInputs_keys (s : Scores) (inputs : List (String × InputValue)) :
    ((s.map Prod.fst).Nodup → ((Eval.readInputs s inputs).2.map Prod.fst).Nodup) ∧
    ∀ k ∈ (Eval.readInputs s inputs).2.map Prod.fst,
      k ∈ s.map Prod.fst ∨ k ∈ inputs.map Prod.fst := by
  induction inputs generalizing s with
  | nil => simp [Eval.readInputs]
  | cons e rest ih =>
    obtain ⟨k1, raw⟩ := e
    by_cases h : inRange raw
    · obtain ⟨v, hv, h0, h10⟩ := h
      rw [readInputs_cons_inRange s k1 raw rest v hv h0 h10]
      obtain ⟨ih1, ih2⟩ := ih (setKey s k1 v)
      have hkeys := keys_setKey s k1 v
      constructor
      · intro hnd
        apply ih1
        rw [hkeys]
        by_cases hk : k1 ∈ s.map Prod.fst
        · rw [if_pos hk]; exact hnd
        · rw [if_neg hk]
          exact List.Nodup.append hnd (List.nodup_singleton k1) (by simpa using hk)
      · intro k hk
        rcases ih2 k hk with h1 | h1
        · rw [hkeys] at h1
          by_cases hk1 : k1 ∈ s.map Prod.fst
          · rw [if_pos hk1] at h1; exact Or.inl h1
          · rw [if_neg hk1] at h1
            rcases List.mem_append.mp h1 with h2 | h2
            · exact Or.inl h2
            · right; simp at h2; simp [h2]
        · right; simp only [List.map_cons, List.mem_cons]; exact Or.inr h1
    · rw [readInputs_cons_reject s k1 raw rest h]
      exact ⟨fun h => h, fun k hk => Or.inl hk⟩

theorem sumValues_bounds (s : Scores) (h : ∀ e ∈ s, 0 ≤ e.2 ∧ e.2 ≤ 10) :
    0 ≤ sumValues s ∧ sumValues s ≤ (s.length : ℚ) * 10 := by
  unfold sumValues
  have key : ∀ (l : List ℚ) (acc : ℚ), (∀ v ∈ l, 0 ≤ v ∧ v ≤ 10) →
      acc ≤ l.foldl (fun a b => a + b) acc ∧
      l.foldl (fun a b => a + b) acc ≤ acc + (l.length : ℚ) * 10 := by
    intro l
    induction l with
    | nil => intro acc _; simp
    | cons v rest ih =>
      intro acc hl
      have hv := hl v (by simp)
      have hr := ih (acc + v) (fun w hw => hl w (by simp [hw]))
      simp only [List.foldl_cons, List.length_cons, Nat.cast_add, Nat.cast_one]
      constructor
      · linarith [hr.1, hv.1]
      · linarith [hr.2, hv.2]
  have hk := key (s.map (fun e => e.2)) 0 (by
    intro v hv
    obtain ⟨e, he, rfl⟩ := List.mem_map.mp hv
    exact h e he)
  simpa using hk

theorem inputs_keys (m : RubricModal) : m.inputs.map Prod.fst = rubricKeys := by
  simp [RubricModal.inputs, rubricKeys, List.map_map, Function.comp_def]

theorem rubricKeys_nodup : rubricKeys.Nodup := by decide

theorem mem_inputs (m : RubricModal) (e : String × InputValue) :
    e ∈ m.inputs ↔ ∃ k ∈ rubricKeys, e = (k, m.value k) := by
  simp only [RubricModal.inputs, rubricKeys, List.mem_map]
  constructor
  · rintro ⟨d, hd, rfl⟩
    exact ⟨d.key, ⟨d, hd, rfl⟩, rfl⟩
  · rintro ⟨k, ⟨d, hd, rfl⟩, rfl⟩
    exact ⟨d, hd, rfl⟩

theorem accepted_iff (s : Scores) (m : RubricModal) :
    (Eval.readInputs s m.inputs).1 = true ↔ allInputsInRange m := by
  rw [readInputs_accepted_iff]
  unfold allInputsInRange
  constructor
  · intro h k hk
    exact h (k, m.value k) ((mem_inputs m _).mpr ⟨k, hk, rfl⟩)
  · intro h e he
    obtain ⟨k, hk, rfl⟩ := (mem_inputs m e).mp he
    exact h k hk

theorem accepted_getKey (s : Scores) (m : RubricModal)
    (hacc : (Eval.readInputs s m.inputs).1 = true) :
    ∀ k ∈ rubricKeys, getKey (Eval.readInputs s m.inputs).2 k = Number (m.value k) := by
  intro k hk
  have h := readInputs_getKey s m.inputs hacc (by rw [inputs_keys]; exact rubricKeys_nodup)
    (k, m.value k) ((mem_inputs m _).mpr ⟨k, hk, rfl⟩)
  exact h

theorem accepted_bounds (s : Scores) (m : RubricModal)
    (hacc : (Eval.readInputs s m.inputs).1 = true)
    (hnd : keysOnce s) (hsub : onlyRubricKeys s) :
    0 ≤ sumValues (Eval.readInputs s m.inputs).2 ∧
    sumValues (Eval.readInputs s m.inputs).2 ≤ (rubricDefs.length : ℚ) * 10 := by
  obtain ⟨hk1, hk2⟩ := readInputs_keys s m.inputs
  have hnd2 := hk1 hnd
  have hsub2 : ∀ k ∈ (Eval.readInputs s m.inputs).2.map Prod.fst, k ∈ rubricKeys := by
    intro k hk
    rcases hk2 k hk with h | h
    · exact hsub k h
    · rw [inputs_keys] at h; exact h
  have hvalid : ∀ e ∈ (Eval.readInputs s m.inputs).2, 0 ≤ e.2 ∧ e.2 ≤ 10 := by
    intro e he
    have hkey := hsub2 e.1 (List.mem_map_of_mem Prod.fst he)
    have h1 := getKey_of_mem _ e hnd2 he
    rw [accepted_getKey s m hacc e.1 hkey] at h1
    obtain ⟨v, hv, h0, h10⟩ := (accepted_iff s m).mp hacc e.1 hkey
    rw [hv] at h1
    cases h1
    exact ⟨h0, h10⟩
  obtain ⟨hb0, hb1⟩ := sumValues_bounds _ hvalid
  refine ⟨hb0, le_trans hb1 ?_⟩
  have hlen : (Eval.readInputs s m.inputs).2.length ≤ rubricDefs.length := by
    have h3 := (List.subperm_of_subset hnd2 hsub2).length_le
    simpa [rubricKeys] using h3
  have hlen2 : (((Eval.readInputs s m.inputs).2.length : ℕ) : ℚ) ≤ (rubricDefs.length : ℚ) := by
    exact_mod_cast hlen
  linarith

theorem saveFromModal_accepted (db : DB) (d : Result) (m : RubricModal) :
    (Eval.saveFromModal db d m).accepted = (Eval.readInputs d.scores m.inputs).1 ∧
    (Eval.saveFromModal db d m).draft.scores = (Eval.readInputs d.scores m.inputs).2 ∧
    ((Eval.saveFromModal db d m).accepted = true →
      (Eval.saveFromModal db d m).draft.total
        = sumValues (Eval.saveFromModal db d m).draft.scores) := by
  by_cases h : (Eval.readInputs d.scores m.inputs).1 = true <;>
    simp [Eval.saveFromModal, h]

theorem prepareReview_accepted (db : DB) (d : Result) (m : RubricModal) :
    (Eval.prepareReviewFromModal db d m).accepted = (Eval.readInputs d.scores m.inputs).1 ∧
    (Eval.prepareReviewFromModal db d m).draft.scores = (Eval.readInputs d.scores m.inputs).2 ∧
    ((Eval.prepareReviewFromModal db d m).accepted = true →
      (Eval.prepareReviewFromModal db d m).draft.total
        = sumValues (Eval.prepareReviewFromModal db d m).draft.scores) := by
  by_cases h : (Eval.readInputs d.scores m.inputs).1 = true <;>
    simp [Eval.prepareReviewFromModal, h]

theorem openRubricModal_scores (db : DB) (evalId projectId : String) (now : Nat) :
    (∀ pr, Eval.prior db evalId projectId = some pr →
      (Eval.openRubricModal db evalId projectId now).scores = pr.scores) ∧
    (Eval.prior db evalId projectId = none →
      (Eval.openRubricModal db evalId projectId now).scores = []) := by
  unfold Eval.openRubricModal
  cases h : Eval.prior db evalId projectId with
  | some pr => simp
  | none => simp

theorem reviewThenSaveDraft_results (db : DB) (d : Result) (m : RubricModal) :
    ((Eval.prepareReviewFromModal db d m).accepted = true →
      (Eval.reviewThenSaveDraft db d m).results
        = storeResult db.results (Eval.prepareReviewFromModal db d m).draft) ∧
    ((Eval.prepareReviewFromModal db d m).accepted = false →
      Eval.reviewThenSaveDraft db d m = db) := by
  have hdb := (prepareReview_keeps db d m).2.2.2.2
  constructor
  · intro h; simp [Eval.reviewThenSaveDraft, h, Eval.saveDraftOnly, hdb]
  · intro h; simp [Eval.reviewThenSaveDraft, h, hdb]

theorem reviewThenSubmit_results (db : DB) (d : Result) (m : RubricModal) (now : Nat)
    (push : Remote) :
    ((Eval.prepareReviewFromModal db d m).accepted = true →
      (Eval.reviewThenSubmit db d m now push).results
        = storeResult db.results { (Eval.prepareReviewFromModal db d m).draft with ts := now }) ∧
    ((Eval.prepareReviewFromModal db d m).accepted = false →
      Eval.reviewThenSubmit db d m now push = db) := by
  have hdb := (prepareReview_keeps db d m).2.2.2.2
  constructor
  · intro h; simp [Eval.reviewThenSubmit, h, submitDraft_results, hdb]
  · intro h; simp [Eval.reviewThenSubmit, h, hdb]

/-! ## Totals -/

/-- C3 (counterexample): in `Sample.legacyStore` the prior Result of
(`PRJ-0001`, `EVAL-0001`) holds the key `teamwork`, which is not a rubric key.
The draft copies it, the six inputs (all 10) are written beside it, and the
Result stored by `saveFromModal`, or by the review step and `saveDraftOnly` or
`submitDraft`, has total 70, above 6 * 10 = 60. -/
theorem C3_total_above_sixty :
    (Eval.saveFromModal Sample.legacyStore
      (Eval.openRubricModal Sample.legacyStore "EVAL-0001" "PRJ-0001" 3000)
      Sample.tenModal).accepted = true ∧
    (Eval.saveFromModal Sample.legacyStore
      (Eval.openRubricModal Sample.legacyStore "EVAL-0001" "PRJ-0001" 3000)
      Sample.tenModal).draft ∈
        (Eval.saveFromModal Sample.legacyStore
          (Eval.openRubricModal Sample.legacyStore "EVAL-0001" "PRJ-0001" 3000)
          Sample.tenModal).db.results ∧
    (Eval.saveFromModal Sample.legacyStore
      (Eval.openRubricModal Sample.legacyStore "EVAL-0001" "PRJ-0001" 3000)
      Sample.tenModal).draft.total = 70 ∧
    ¬ (Eval.saveFromModal Sample.legacyStore
      (Eval.openRubricModal Sample.legacyStore "EVAL-0001" "PRJ-0001" 3000)
      Sample.tenModal).draft.total ≤ (rubricDefs.length : ℚ) * 10 ∧
    (Eval.reviewThenSaveDraft Sample.legacyStore
      (Eval.openRubricModal Sample.legacyStore "EVAL-0001" "PRJ-0001" 3000)
      Sample.tenModal).results.map (fun r => r.total) = [70] ∧
    (Eval.reviewThenSubmit Sample.legacyStore
      (Eval.openRubricModal Sample.legacyStore "EVAL-0001" "PRJ-0001" 3000)
      Sample.tenModal 3001 (.threw "")).results.map (fun r => r.total) = [70] := by
  decide!

/-- C3 (amended): every Result written to the store by `saveFromModal`, or by
`prepareReviewFromModal` followed by `saveDraftOnly` or `submitDraft`, has
total equal to the sum of the values of its scores mapping; and when the prior
Result of the pair, if there is one, holds each key once and only rubric keys,
0 <= total <= (number of rubric criteria) * 10 = 60. -/
theorem C3_total_is_sum_and_bounded (db : DB) (evalId projectId : String) (now now2 : Nat)
    (m : RubricModal) (push : Remote) :
    ((Eval.saveFromModal db (Eval.openRubricModal db evalId projectId now) m).accepted = true →
      (Eval.saveFromModal db (Eval.openRubricModal db evalId projectId now) m).draft ∈
        (Eval.saveFromModal db (Eval.openRubricModal db evalId projectId now) m).db.results ∧
      (Eval.saveFromModal db (Eval.openRubricModal db evalId projectId now) m).draft.total
        = sumValues
            (Eval.saveFromModal db (Eval.openRubricModal db evalId projectId now) m).draft.scores ∧
      ((∀ pr, Eval.prior db evalId projectId = some pr →
          keysOnce pr.scores ∧ onlyRubricKeys pr.scores) →
        0 ≤ (Eval.saveFromModal db (Eval.openRubricModal db evalId projectId now) m).draft.total ∧
        (Eval.saveFromModal db (Eval.openRubricModal db evalId projectId now) m).draft.total
          ≤ (rubricDefs.length : ℚ) * 10)) ∧
    ((Eval.prepareReviewFromModal db (Eval.openRubricModal db evalId projectId now)
        m).accepted = true →
      (Eval.prepareReviewFromModal db (Eval.openRubricModal db evalId projectId now) m).draft ∈
        (Eval.reviewThenSaveDraft db (Eval.openRubricModal db evalId projectId now) m).results ∧
      { (Eval.prepareReviewFromModal db (Eval.openRubricModal db evalId projectId now)
          m).draft with ts := now2 } ∈
        (Eval.reviewThenSubmit db (Eval.openRubricModal db evalId projectId now) m
          now2 push).results ∧
      (Eval.prepareReviewFromModal db (Eval.openRubricModal db evalId projectId now)
          m).draft.total
        = sumValues (Eval.prepareReviewFromModal db
            (Eval.openRubricModal db evalId projectId now) m).draft.scores ∧
      ((∀ pr, Eval.prior db evalId projectId = some pr →
          keysOnce pr.scores ∧ onlyRubricKeys pr.scores) →
        0 ≤ (Eval.prepareReviewFromModal db (Eval.openRubricModal db evalId projectId now)
          m).draft.total ∧
        (Eval.prepareReviewFromModal db (Eval.openRubricModal db evalId projectId now)
          m).draft.total ≤ (rubricDefs.length : ℚ) * 10)) ∧
    (rubricDefs.length : ℚ) * 10 = 60 := by
  have hsc := openRubricModal_scores db evalId projectId now
  generalize Eval.openRubricModal db evalId projectId now = d at hsc ⊢
  have hwf : (∀ pr, Eval.prior db evalId projectId = some pr →
      keysOnce pr.scores ∧ onlyRubricKeys pr.scores) →
      keysOnce d.scores ∧ onlyRubricKeys d.scores := by
    intro hk
    cases hpr : Eval.prior db evalId projectId with
    | some pr => rw [hsc.1 pr hpr]; exact hk pr hpr
    | none =>
      rw [hsc.2 hpr]
      exact ⟨by simp [keysOnce], by intro k hk; simp at hk⟩
  refine ⟨?_, ?_, by decide!⟩
  · intro hacc
    obtain ⟨ha, hs, ht⟩ := saveFromModal_accepted db d m
    refine ⟨?_, ht hacc, ?_⟩
    · rw [(saveFromModal_db db d m).1 hacc]; exact mem_storeResult _ _
    · intro hk
      obtain ⟨h1, h2⟩ := hwf hk
      rw [ht hacc, hs]
      exact accepted_bounds d.scores m (ha ▸ hacc) h1 h2
  · intro hacc
    obtain ⟨ha, hs, ht⟩ := prepareReview_accepted db d m
    refine ⟨?_, ?_, ht hacc, ?_⟩
    · rw [(reviewThenSaveDraft_results db d m).1 hacc]; exact mem_storeResult _ _
    · rw [(reviewThenSubmit_results db d m now2 push).1 hacc]; exact mem_storeResult _ _
    · intro hk
      obtain ⟨h1, h2⟩ := hwf hk
      rw [ht hacc, hs]
      exact accepted_bounds d.scores m (ha ▸ hacc) h1 h2

/-- C3 (witness): the amended claim at `Sample.store`, where `EVAL-0001` reopens
`PRJ-0001` and enters 10 for every criterion. -/
theorem C3_total_is_sum_and_bounded_witness :
    (Eval.saveFromModal Sample.store
      (Eval.openRubricModal Sample.store "EVAL-0001" "PRJ-0001" 3000)
      Sample.tenModal).accepted = true ∧
    (∀ pr, Eval.prior Sample.store "EVAL-0001" "PRJ-0001" = some pr →
      keysOnce pr.scores ∧ onlyRubricKeys pr.scores) ∧
    0 ≤ (Eval.saveFromModal Sample.store
      (Eval.openRubricModal Sample.store "EVAL-0001" "PRJ-0001" 3000)
      Sample.tenModal).draft.total ∧
    (Eval.saveFromModal Sample.store
      (Eval.openRubricModal Sample.store "EVAL-0001" "PRJ-0001" 3000)
      Sample.tenModal).draft.total ≤ (rubricDefs.length : ℚ) * 10 :=
  have hk : ∀ pr, Eval.prior Sample.store "EVAL-0001" "PRJ-0001" = some pr →
      keysOnce pr.scores ∧ onlyRubricKeys pr.scores := by
    intro pr h
    have h2 : Eval.prior Sample.store "EVAL-0001" "PRJ-0001" = some Sample.result1 := by decide
    rw [h2] at h
    cases h
    exact ⟨by decide, by decide⟩
  ⟨by decide, hk,
    ((C3_total_is_sum_and_bounded Sample.store "EVAL-0001" "PRJ-0001" 3000 3001
      Sample.tenModal (.threw "")).1 (by decide)).2.2 hk⟩

/-! ## Finalisation -/

theorem saveToGASAsBulk_frame (db : DB) (token promptAnswer : Option String)
    (login push : Remote) (now : Nat) :
    ∃ ls, (saveToGASAsBulk db token promptAnswer login push now).1 = { db with lastSync := ls } := by
  unfold saveToGASAsBulk
  split
  · exact ⟨db.lastSync, rfl⟩
  · dsimp only
    split
    · exact ⟨db.lastSync, rfl⟩
    · split
      · exact ⟨db.lastSync, rfl⟩
      · split
        · exact ⟨some now, rfl⟩
        · exact ⟨db.lastSync, rfl⟩

theorem subs_length_eq_zero_iff (db : DB) (evalId : String) :
    (Eval.subs db evalId).length = 0 ↔ ∀ r ∈ db.results, r.evaluatorId ≠ evalId := by
  unfold Eval.subs
  rw [List.length_eq_zero, List.filter_eq_nil_iff]
  simp

theorem finalizeAll_confirmed (db : DB) (token : Option String) (evalId : String)
    (promptAnswer : Option String) (login push : Remote) (now : Nat)
    (h : ∃ r ∈ db.results, r.evaluatorId = evalId) :
    ∃ ls, (Eval.finalizeAll db token evalId true promptAnswer login push now).1 =
      { db with
        results := db.results.map
          (fun r => if r.evaluatorId = evalId then { r with finalizedByEvaluator := true } else r)
        evaluatorState := setKey db.evaluatorState evalId ⟨some true⟩
        lastSync := ls } := by
  have hne : ¬ (Eval.subs db evalId).length = 0 := by
    rw [subs_length_eq_zero_iff]
    obtain ⟨r, hr, he⟩ := h
    exact fun hall => hall r hr he
  unfold Eval.finalizeAll
  rw [if_neg hne]
  simp only [Bool.not_true, Bool.false_eq_true, if_false]
  obtain ⟨ls, hls⟩ := saveToGASAsBulk_frame
    { db with
      results := db.results.map
        (fun r => if r.evaluatorId = evalId then { r with finalizedByEvaluator := true } else r)
      evaluatorState := setKey db.evaluatorState evalId ⟨some true⟩ }
    token promptAnswer login push now
  exact ⟨ls, hls⟩

theorem finalizeAll_not_started (db : DB) (token : Option String) (evalId : String)
    (confirmed : Bool) (promptAnswer : Option String) (login push : Remote) (now : Nat)
    (h : ∀ r ∈ db.results, r.evaluatorId ≠ evalId) :
    Eval.finalizeAll db token evalId confirmed promptAnswer login push now = (db, token) := by
  unfold Eval.finalizeAll
  rw [if_pos ((subs_length_eq_zero_iff db evalId).mpr h)]

theorem setKey_idem {α : Type} (s : List (String × α)) (k : String) (v : α) :
    setKey (setKey s k v) k v = setKey s k v := by
  induction s with
  | nil => simp [setKey]
  | cons e rest ih =>
    by_cases h : e.1 = k
    · simp [setKey, h]
    · simp [setKey, h, ih]

/-- C4: for every store and every evaluator with at least one Result, and for
every outcome of the bulk synchronisation (any answer to the password prompt,
any login outcome, any push outcome), the confirmed finalize-all step sets
`finalizedByEvaluator = true` on every Result of that evaluator (changing
nothing else in them), sets `EvaluatorState[evaluatorId].finalizedAll = true`,
and leaves the Results of every other evaluator and the EvaluatorState entry
of every other evaluator unchanged. -/
theorem C4_finalizeAll_effect (db : DB) (token : Option String) (evalId : String)
    (promptAnswer : Option String) (login push : Remote) (now : Nat)
    (h : ∃ r ∈ db.results, r.evaluatorId = evalId) :
    (∀ r ∈ (Eval.finalizeAll db token evalId true promptAnswer login push now).1.results,
      r.evaluatorId = evalId → r.finalizedByEvaluator = true) ∧
    (∀ (i : Nat) (r : Result), db.results[i]? = some r → r.evaluatorId = evalId →
      (Eval.finalizeAll db token evalId true promptAnswer login push now).1.results[i]?
        = some { r with finalizedByEvaluator := true }) ∧
    getKey (Eval.finalizeAll db token evalId true promptAnswer login push now).1.evaluatorState
      evalId = some ⟨some true⟩ ∧
    Eval._evaluatorFinalized
      (Eval.finalizeAll db token evalId true promptAnswer login push now).1 evalId = true ∧
    (Eval.finalizeAll db token evalId true promptAnswer login push now).1.results.length
      = db.results.length ∧
    (∀ (i : Nat) (r : Result), db.results[i]? = some r → r.evaluatorId ≠ evalId →
      (Eval.finalizeAll db token evalId true promptAnswer login push now).1.results[i]?
        = some r) ∧
    (∀ k, k ≠ evalId →
      getKey (Eval.finalizeAll db token evalId true promptAnswer login push now).1.evaluatorState k
        = getKey db.evaluatorState k) := by
  obtain ⟨ls, hout⟩ := finalizeAll_confirmed db token evalId promptAnswer login push now h
  rw [hout]
  have hkey : getKey (setKey db.evaluatorState evalId (⟨some true⟩ : EvaluatorFlags)) evalId
      = some ⟨some true⟩ := by
    rw [getKey_setKey]; simp
  refine ⟨?_, ?_, hkey, ?_, by simp, ?_, ?_⟩
  · intro r hr he
    simp only [List.mem_map] at hr
    obtain ⟨r0, _, hr0⟩ := hr
    by_cases h0 : r0.evaluatorId = evalId
    · rw [if_pos h0] at hr0; rw [← hr0]
    · rw [if_neg h0] at hr0; rw [← hr0] at he; exact absurd he h0
  · intro i r hi he
    simp [List.getElem?_map, hi, he]
  · simp only [Eval._evaluatorFinalized, hkey]
    rfl
  · intro i r hi he
    simp [List.getElem?_map, hi, he]
  · intro k hk
    simp only
    rw [getKey_setKey, if_neg (fun h2 => hk h2.symm)]

/-- C4 (witness): the claim at `Sample.store`, where `EVAL-0001` holds one Result,
with no endpoint reply. -/
theorem C4_finalizeAll_effect_witness :
    (∃ r ∈ Sample.store.results, r.evaluatorId = "EVAL-0001") ∧
    Eval._evaluatorFinalized
      (Eval.finalizeAll Sample.store none "EVAL-0001" true none (.threw "") (.threw "")
        2000).1 "EVAL-0001" = true :=
  ⟨⟨Sample.result1, by decide, rfl⟩,
    (C4_finalizeAll_effect Sample.store none "EVAL-0001" none (.threw "") (.threw "") 2000
      ⟨Sample.result1, by decide, rfl⟩).2.2.2.1⟩

/-- C5: the finalize-all step is idempotent on the Entity Store: for every store
and evaluator, and whatever the two synchronisations do, applying the confirmed
step twice yields the same EvaluatorState and the same Results as applying it
once (as it does for every other collection and the settings). -/
theorem C5_finalizeAll_idempotent (db : DB) (token : Option String) (evalId : String)
    (p1 p2 : Option String) (login1 push1 login2 push2 : Remote) (now1 now2 : Nat) :
    (Eval.finalizeAll (Eval.finalizeAll db token evalId true p1 login1 push1 now1).1
        (Eval.finalizeAll db token evalId true p1 login1 push1 now1).2
        evalId true p2 login2 push2 now2).1.results
      = (Eval.finalizeAll db token evalId true p1 login1 push1 now1).1.results ∧
    (Eval.finalizeAll (Eval.finalizeAll db token evalId true p1 login1 push1 now1).1
        (Eval.finalizeAll db token evalId true p1 login1 push1 now1).2
        evalId true p2 login2 push2 now2).1.evaluatorState
      = (Eval.finalizeAll db token evalId true p1 login1 push1 now1).1.evaluatorState ∧
    (Eval.finalizeAll (Eval.finalizeAll db token evalId true p1 login1 push1 now1).1
        (Eval.finalizeAll db token evalId true p1 login1 push1 now1).2
        evalId true p2 login2 push2 now2).1.projects
      = (Eval.finalizeAll db token evalId true p1 login1 push1 now1).1.projects ∧
    (Eval.finalizeAll (Eval.finalizeAll db token evalId true p1 login1 push1 now1).1
        (Eval.finalizeAll db token evalId true p1 login1 push1 now1).2
        evalId true p2 login2 push2 now2).1.evaluators
      = (Eval.finalizeAll db token evalId true p1 login1 push1 now1).1.evaluators ∧
    (Eval.finalizeAll (Eval.finalizeAll db token evalId true p1 login1 push1 now1).1
        (Eval.finalizeAll db token evalId true p1 login1 push1 now1).2
        evalId true p2 login2 push2 now2).1.panels
      = (Eval.finalizeAll db token evalId true p1 login1 push1 now1).1.panels ∧
    (Eval.finalizeAll (Eval.finalizeAll db token evalId true p1 login1 push1 now1).1
        (Eval.finalizeAll db token evalId true p1 login1 push1 now1).2
        evalId true p2 login2 push2 now2).1.settings
      = (Eval.finalizeAll db token evalId true p1 login1 push1 now1).1.settings := by
  by_cases h : ∃ r ∈ db.results, r.evaluatorId = evalId
  · obtain ⟨ls1, h1⟩ := finalizeAll_confirmed db token evalId p1 login1 push1 now1 h
    have h' : ∃ r ∈ (Eval.finalizeAll db token evalId true p1 login1 push1 now1).1.results,
        r.evaluatorId = evalId := by
      rw [h1]
      obtain ⟨r, hr, he⟩ := h
      refine ⟨{ r with finalizedByEvaluator := true }, ?_, he⟩
      simp only [List.mem_map]
      exact ⟨r, hr, by simp [he]⟩
    obtain ⟨ls2, h2⟩ := finalizeAll_confirmed
      (Eval.finalizeAll db token evalId true p1 login1 push1 now1).1
      (Eval.finalizeAll db token evalId true p1 login1 push1 now1).2 evalId p2 login2 push2
      now2 h'
    rw [h2, h1]
    refine ⟨?_, setKey_idem _ _ _, rfl, rfl, rfl, rfl⟩
    simp only [List.map_map]
    apply List.map_congr_left
    intro r _
    by_cases he : r.evaluatorId = evalId <;> simp [he]
  · have hall : ∀ r ∈ db.results, r.evaluatorId ≠ evalId := by
      intro r hr he
      exact h ⟨r, hr, he⟩
    have h1 := finalizeAll_not_started db token evalId true p1 login1 push1 now1 hall
    rw [h1]
    simp only
    rw [finalizeAll_not_started db token evalId true p2 login2 push2 now2 hall]
    exact ⟨rfl, rfl, rfl, rfl, rfl, rfl⟩

/-! ## Submission -/

theorem storeResult_positions (rs : List Result) (x : Result) :
    (∀ (i : Nat) (r : Result), rs[i]? = some r →
      (storeResult rs x)[i]? = some r ∨ (storeResult rs x)[i]? = some x) ∧
    (∀ r ∈ storeResult rs x, r = x ∨ r ∈ rs) := by
  rcases storeResult_cases rs x with h | ⟨j, y, hj, _, h⟩
  · rw [h]
    refine ⟨fun i r hi => Or.inl ?_, fun r hr => ?_⟩
    · have hlt : i < rs.length := (List.getElem?_eq_some.mp hi).1
      rw [List.getElem?_append_left hlt]; exact hi
    · rcases List.mem_append.mp hr with h1 | h1
      · exact Or.inr h1
      · left; simpa using h1
  · rw [h]
    refine ⟨fun i r hi => ?_, fun r hr => ?_⟩
    · by_cases hij : j = i
      · right
        subst hij
        have hlt : j < rs.length := (List.getElem?_eq_some.mp hi).1
        rw [List.getElem?_set_self hlt]
      · left
        rw [List.getElem?_set_ne hij]; exact hi
    · rcases List.mem_or_eq_of_mem_set hr with h1 | h1
      · exact Or.inr h1
      · exact Or.inl h1

/-- C6: `submitDraft` never transitions `finalizedByEvaluator` to true. For every
store and every draft built by `openRubricModal` (and then filled in by the
review step), if the pair had no prior Result or a prior Result with
`finalizedByEvaluator = false`, the Result stored by `submitDraft` has
`finalizedByEvaluator = false`; every position of `DB.results` other than the
one holding the stored Result keeps its record unchanged, so no other Result's
flag changes and no Result that is finalised afterwards was not finalised
before. -/
theorem C6_submit_never_finalizes (db : DB) (evalId projectId : String) (now now2 : Nat)
    (m : RubricModal) (push : Remote)
    (hprior : ∀ pr, Eval.prior db evalId projectId = some pr → pr.finalizedByEvaluator = false) :
    { (Eval.prepareReviewFromModal db (Eval.openRubricModal db evalId projectId now) m).draft
        with ts := now2 } ∈
      (Eval.submitDraft db
        (Eval.prepareReviewFromModal db (Eval.openRubricModal db evalId projectId now) m).draft
        now2 push).results ∧
    (Eval.prepareReviewFromModal db (Eval.openRubricModal db evalId projectId now)
      m).draft.finalizedByEvaluator = false ∧
    (∀ (i : Nat) (r : Result), db.results[i]? = some r →
      (Eval.submitDraft db
        (Eval.prepareReviewFromModal db (Eval.openRubricModal db evalId projectId now) m).draft
        now2 push).results[i]? = some r ∨
      (Eval.submitDraft db
        (Eval.prepareReviewFromModal db (Eval.openRubricModal db evalId projectId now) m).draft
        now2 push).results[i]? =
          some { (Eval.prepareReviewFromModal db
            (Eval.openRubricModal db evalId projectId now) m).draft with ts := now2 }) ∧
    (∀ r ∈ (Eval.submitDraft db
        (Eval.prepareReviewFromModal db (Eval.openRubricModal db evalId projectId now) m).draft
        now2 push).results,
      r.finalizedByEvaluator = true → r ∈ db.results) ∧
    (∀ (i : Nat) (r r2 : Result), db.results[i]? = some r →
      (Eval.submitDraft db
        (Eval.prepareReviewFromModal db (Eval.openRubricModal db evalId projectId now) m).draft
        now2 push).results[i]? = some r2 →
      r2.finalizedByEvaluator = true → r.finalizedByEvaluator = true) := by
  have hflag : (Eval.openRubricModal db evalId projectId now).finalizedByEvaluator = false := by
    cases hpr : Eval.prior db evalId projectId with
    | some pr => rw [openRubricModal_flag_of_prior now hpr]; exact hprior pr hpr
    | none => exact openRubricModal_flag_of_no_prior now hpr
  generalize Eval.openRubricModal db evalId projectId now = d at hflag ⊢
  have hkeep := (prepareReview_keeps db d m).2.2.2.1
  have hx : (Eval.prepareReviewFromModal db d m).draft.finalizedByEvaluator = false :=
    hkeep.trans hflag
  generalize (Eval.prepareReviewFromModal db d m).draft = x at hx ⊢
  rw [submitDraft_results]
  obtain ⟨hpos, hmem⟩ := storeResult_positions db.results { x with ts := now2 }
  refine ⟨mem_storeResult _ _, hx, hpos, ?_, ?_⟩
  · intro r hr hfin
    rcases hmem r hr with h1 | h1
    · subst h1
      exact absurd hfin (by simp [hx])
    · exact h1
  · intro i r r2 hi hi2 hfin
    rcases hpos i r hi with h1 | h1
    · rw [h1] at hi2; cases hi2; exact hfin
    · rw [h1] at hi2; cases hi2
      exact absurd hfin (by simp [hx])

/-- C6 (witness): the claim at `Sample.store`, where `EVAL-0001` reopens and
resubmits `PRJ-0001`, whose prior Result is not finalised. -/
theorem C6_submit_never_finalizes_witness :
    (∀ pr, Eval.prior Sample.store "EVAL-0001" "PRJ-0001" = some pr →
      pr.finalizedByEvaluator = false) ∧
    (Eval.prepareReviewFromModal Sample.store
      (Eval.openRubricModal Sample.store "EVAL-0001" "PRJ-0001" 3000)
      Sample.tenModal).draft.finalizedByEvaluator = false :=
  have hp : ∀ pr, Eval.prior Sample.store "EVAL-0001" "PRJ-0001" = some pr →
      pr.finalizedByEvaluator = false := by
    intro pr h
    have h2 : Eval.prior Sample.store "EVAL-0001" "PRJ-0001" = some Sample.result1 := by decide
    rw [h2] at h
    cases h
    rfl
  ⟨hp, (C6_submit_never_finalizes Sample.store "EVAL-0001" "PRJ-0001" 3000 3001
    Sample.tenModal (.threw "") hp).2.1⟩
/-! ## Validation of the rubric inputs -/

theorem not_inRange_iff (raw : InputValue) :
    ¬ inRange raw ↔ (Number raw = none ∨ ∃ v, Number raw = some v ∧ (v < 0 ∨ 10 < v)) := by
  unfold inRange
  cases h : Number raw with
  | none => simp
  | some v =>
    simp only [Option.some.injEq, exists_eq_left', false_or, reduceCtorEq]
    constructor
    · intro hn
      by_contra hc
      push_neg at hc
      exact hn ⟨hc.1, hc.2⟩
    · rintro (h1 | h1) ⟨h0, h10⟩
      · exact absurd h0 (not_le.mpr h1)
      · exact absurd h10 (not_le.mpr h1)

/-- C7: `saveFromModal` writes to the store if and only if every rubric input
converts to a number v with 0 <= v <= 10: it is accepted exactly in that case,
and then `DB.results` receives the draft (by id, in place or appended); if some
input is not a number, is below 0 or is above 10, the save is rejected and the
whole store, `DB.results` and every prior Result with its scores included, is
left unchanged. -/
theorem C7_saveFromModal_validation (db : DB) (d : Result) (m : RubricModal) :
    ((Eval.saveFromModal db d m).accepted = true ↔ allInputsInRange m) ∧
    (allInputsInRange m →
      (Eval.saveFromModal db d m).db.results
        = storeResult db.results (Eval.saveFromModal db d m).draft ∧
      (Eval.saveFromModal db d m).draft ∈ (Eval.saveFromModal db d m).db.results) ∧
    ((∃ k ∈ rubricKeys, Number (m.value k) = none ∨
        ∃ v, Number (m.value k) = some v ∧ (v < 0 ∨ 10 < v)) →
      (Eval.saveFromModal db d m).accepted = false ∧ (Eval.saveFromModal db d m).db = db) := by
  have hacc : (Eval.saveFromModal db d m).accepted = true ↔ allInputsInRange m := by
    rw [(saveFromModal_accepted db d m).1]; exact accepted_iff d.scores m
  refine ⟨hacc, ?_, ?_⟩
  · intro hall
    have h1 := (saveFromModal_db db d m).1 (hacc.mpr hall)
    exact ⟨h1, by rw [h1]; exact mem_storeResult _ _⟩
  · rintro ⟨k, hk, hbad⟩
    have hrej : (Eval.saveFromModal db d m).accepted = false := by
      cases h : (Eval.saveFromModal db d m).accepted with
      | false => rfl
      | true => exact absurd (hacc.mp h k hk) ((not_inRange_iff _).mpr hbad)
    exact ⟨hrej, (saveFromModal_db db d m).2 hrej⟩

/-- C7 (witness): at `Sample.store` an input of 11 is rejected and all inputs at 10
are accepted. -/
theorem C7_saveFromModal_validation_witness :
    allInputsInRange Sample.tenModal ∧
    (Eval.saveFromModal Sample.store
      (Eval.openRubricModal Sample.store "EVAL-0001" "PRJ-0002" 3000)
      Sample.tenModal).accepted = true ∧
    (Eval.saveFromModal Sample.store
      (Eval.openRubricModal Sample.store "EVAL-0001" "PRJ-0002" 3000)
      Sample.elevenModal).db = Sample.store :=
  have h10 : allInputsInRange Sample.tenModal := by
    intro k _
    exact ⟨10, rfl, by norm_num, le_refl _⟩
  ⟨h10,
    (C7_saveFromModal_validation Sample.store
      (Eval.openRubricModal Sample.store "EVAL-0001" "PRJ-0002" 3000) Sample.tenModal).1.mpr h10,
    ((C7_saveFromModal_validation Sample.store
      (Eval.openRubricModal Sample.store "EVAL-0001" "PRJ-0002" 3000) Sample.elevenModal).2.2
        ⟨"problem", by decide, Or.inr ⟨11, rfl, Or.inr (by norm_num)⟩⟩).2⟩

/-- C8 (counterexample): at `Sample.store` the evaluator enters 7.5 for every
criterion of `PRJ-0002`. The range check accepts it, and the Result stored by
`saveFromModal`, or by the review step and `saveDraftOnly` or `submitDraft`,
holds 7.5, which is not an integer. -/
theorem C8_half_point_score_is_stored :
    ¬ isInteger (15 / 2) ∧
    (Eval.saveFromModal Sample.store
      (Eval.openRubricModal Sample.store "EVAL-0001" "PRJ-0002" 3000)
      Sample.halfModal).accepted = true ∧
    (Eval.saveFromModal Sample.store
      (Eval.openRubricModal Sample.store "EVAL-0001" "PRJ-0002" 3000)
      Sample.halfModal).db.results.map (fun r => getKey r.scores "problem")
        = [some 8, some (15 / 2)] ∧
    (Eval.reviewThenSaveDraft Sample.store
      (Eval.openRubricModal Sample.store "EVAL-0001" "PRJ-0002" 3000)
      Sample.halfModal).results.map (fun r => getKey r.scores "problem")
        = [some 8, some (15 / 2)] ∧
    (Eval.reviewThenSubmit Sample.store
      (Eval.openRubricModal Sample.store "EVAL-0001" "PRJ-0002" 3000)
      Sample.halfModal 3001 (.threw "")).results.map (fun r => getKey r.scores "problem")
        = [some 8, some (15 / 2)] := by
  refine ⟨?_, by decide!, by decide!, by decide!, by decide!⟩
  rintro ⟨n, hn⟩
  have h2 : ((2 * n : ℤ) : ℚ) = ((15 : ℤ) : ℚ) := by
    push_cast
    linarith
  have h3 : 2 * n = 15 := by exact_mod_cast h2
  omega

/-- C8 (amended): every score that the scoring flow stores for a rubric criterion
(`saveFromModal`, or `prepareReviewFromModal` then `saveDraftOnly` or
`submitDraft`) is the number its input converts to, and lies between 0 and 10
inclusive; the check is a range check only, so a non-integer input such as 7.5
is accepted and stored as it is. -/
theorem C8_stored_scores_in_range (db : DB) (d : Result) (m : RubricModal) (now2 : Nat)
    (push : Remote) :
    ((Eval.saveFromModal db d m).accepted = true →
      (Eval.saveFromModal db d m).draft ∈ (Eval.saveFromModal db d m).db.results ∧
      ∀ k ∈ rubricKeys, ∃ v, getKey (Eval.saveFromModal db d m).draft.scores k = some v ∧
        Number (m.value k) = some v ∧ 0 ≤ v ∧ v ≤ 10) ∧
    ((Eval.prepareReviewFromModal db d m).accepted = true →
      (Eval.prepareReviewFromModal db d m).draft ∈ (Eval.reviewThenSaveDraft db d m).results ∧
      { (Eval.prepareReviewFromModal db d m).draft with ts := now2 } ∈
        (Eval.reviewThenSubmit db d m now2 push).results ∧
      ∀ k ∈ rubricKeys, ∃ v,
        getKey (Eval.prepareReviewFromModal db d m).draft.scores k = some v ∧
        Number (m.value k) = some v ∧ 0 ≤ v ∧ v ≤ 10) := by
  constructor
  · intro hacc
    obtain ⟨ha, hs, _⟩ := saveFromModal_accepted db d m
    have hr : (Eval.readInputs d.scores m.inputs).1 = true := ha ▸ hacc
    refine ⟨?_, ?_⟩
    · rw [(saveFromModal_db db d m).1 hacc]; exact mem_storeResult _ _
    · intro k hk
      obtain ⟨v, hv, h0, h10⟩ := (accepted_iff d.scores m).mp hr k hk
      exact ⟨v, by rw [hs, accepted_getKey d.scores m hr k hk, hv], hv, h0, h10⟩
  · intro hacc
    obtain ⟨ha, hs, _⟩ := prepareReview_accepted db d m
    have hr : (Eval.readInputs d.scores m.inputs).1 = true := ha ▸ hacc
    refine ⟨?_, ?_, ?_⟩
    · rw [(reviewThenSaveDraft_results db d m).1 hacc]; exact mem_storeResult _ _
    · rw [(reviewThenSubmit_results db d m now2 push).1 hacc]; exact mem_storeResult _ _
    · intro k hk
      obtain ⟨v, hv, h0, h10⟩ := (accepted_iff d.scores m).mp hr k hk
      exact ⟨v, by rw [hs, accepted_getKey d.scores m hr k hk, hv], hv, h0, h10⟩

/-- C8 (witness): the amended claim at `Sample.store` with 7.5 in every input. -/
theorem C8_stored_scores_in_range_witness :
    (Eval.saveFromModal Sample.store
      (Eval.openRubricModal Sample.store "EVAL-0001" "PRJ-0002" 3000)
      Sample.halfModal).accepted = true ∧
    ∀ k ∈ rubricKeys, ∃ v,
      getKey (Eval.saveFromModal Sample.store
        (Eval.openRubricModal Sample.store "EVAL-0001" "PRJ-0002" 3000)
        Sample.halfModal).draft.scores k = some v ∧
      Number (Sample.halfModal.value k) = some v ∧ 0 ≤ v ∧ v ≤ 10 :=
  ⟨by decide!,
    ((C8_stored_scores_in_range Sample.store
      (Eval.openRubricModal Sample.store "EVAL-0001" "PRJ-0002" 3000) Sample.halfModal 3001
      (.threw "")).1 (by decide!)).2⟩

/-- C9 (counterexample): at `Sample.store` the evaluator leaves every input of
`PRJ-0002` blank, reviews and submits. `Number('')` is 0, so the review step
accepts the dialog and `submitDraft` stores a new Result with score 0 for every
criterion: the store changes. -/
theorem C9_blank_submission_is_stored :
    (Eval.prepareReviewFromModal Sample.store
      (Eval.openRubricModal Sample.store "EVAL-0001" "PRJ-0002" 3000)
      Sample.blankModal).accepted = true ∧
    (Eval.reviewThenSubmit Sample.store
      (Eval.openRubricModal Sample.store "EVAL-0001" "PRJ-0002" 3000)
      Sample.blankModal 3001 (.threw "")) ≠ Sample.store ∧
    (Eval.reviewThenSubmit Sample.store
      (Eval.openRubricModal Sample.store "EVAL-0001" "PRJ-0002" 3000)
      Sample.blankModal 3001 (.threw "")).results.map (fun r => (r.projectId, r.scores))
        = [("PRJ-0001", Sample.scores47),
           ("PRJ-0002", [("problem", 0), ("originality", 0), ("description", 0), ("method", 0),
             ("impact", 0), ("presentation", 0)])] := by
  decide

/-- C9 (amended): submit validates the range only. A submission
(`prepareReviewFromModal` followed by `submitDraft`) is accepted exactly when
every rubric input converts to a number between 0 and 10, and is then stored
with, for every criterion, the number its input converts to; a blank input
converts to 0 and is stored as score 0. A submission that is not accepted
leaves the store unchanged. -/
theorem C9_submit_validation (db : DB) (d : Result) (m : RubricModal) (now2 : Nat)
    (push : Remote) :
    ((Eval.prepareReviewFromModal db d m).accepted = true ↔ allInputsInRange m) ∧
    ((Eval.prepareReviewFromModal db d m).accepted = true →
      { (Eval.prepareReviewFromModal db d m).draft with ts := now2 } ∈
        (Eval.reviewThenSubmit db d m now2 push).results ∧
      (∀ k ∈ rubricKeys,
        getKey (Eval.prepareReviewFromModal db d m).draft.scores k = Number (m.value k)) ∧
      (∀ k ∈ rubricKeys, m.value k = InputValue.blank →
        getKey (Eval.prepareReviewFromModal db d m).draft.scores k = some 0)) ∧
    ((Eval.prepareReviewFromModal db d m).accepted = false →
      Eval.reviewThenSubmit db d m now2 push = db) := by
  obtain ⟨ha, hs, _⟩ := prepareReview_accepted db d m
  refine ⟨by rw [ha]; exact accepted_iff d.scores m, ?_,
    (reviewThenSubmit_results db d m now2 push).2⟩
  intro hacc
  have hr : (Eval.readInputs d.scores m.inputs).1 = true := ha ▸ hacc
  refine ⟨?_, ?_, ?_⟩
  · rw [(reviewThenSubmit_results db d m now2 push).1 hacc]; exact mem_storeResult _ _
  · intro k hk
    rw [hs]; exact accepted_getKey d.scores m hr k hk
  · intro k hk hb
    rw [hs, accepted_getKey d.scores m hr k hk, hb]
    rfl

/-- C9 (witness): the amended claim at `Sample.store` with every input blank. -/
theorem C9_submit_validation_witness :
    (Eval.prepareReviewFromModal Sample.store
      (Eval.openRubricModal Sample.store "EVAL-0001" "PRJ-0002" 3000)
      Sample.blankModal).accepted = true ∧
    ∀ k ∈ rubricKeys, Sample.blankModal.value k = InputValue.blank →
      getKey (Eval.prepareReviewFromModal Sample.store
        (Eval.openRubricModal Sample.store "EVAL-0001" "PRJ-0002" 3000)
        Sample.blankModal).draft.scores k = some 0 :=
  ⟨by decide,
    ((C9_submit_validation Sample.store
      (Eval.openRubricModal Sample.store "EVAL-0001" "PRJ-0002" 3000) Sample.blankModal 3001
      (.threw "")).2.1 (by decide)).2.2⟩

/-! ## Ranking -/

theorem projectScore_id (db : DB) (p : Project) : (Admin.projectScore db p).id = p.id := by
  unfold Admin.projectScore
  dsimp only
  split <;> rfl

theorem projectScore_unscored (db : DB) (p : Project)
    (h : ∀ r ∈ db.results, r.projectId ≠ p.id) :
    (Admin.projectScore db p).evaluatorCount = 0 ∧
    (Admin.projectScore db p).averageScore = 0 ∧
    (Admin.projectScore db p).percentage = 0 := by
  have hnil : db.results.filter (fun r => r.projectId == p.id) = [] := by
    rw [List.filter_eq_nil_iff]
    intro r hr
    simpa using h r hr
  unfold Admin.projectScore
  simp [hnil]

theorem scores_perm (db : DB) : (Admin.scores db).Perm (Admin.projectScores db) :=
  List.perm_insertionSort Admin.keepsOrder (Admin.projectScores db)

theorem scores_sorted (db : DB) :
    (Admin.scores db).Pairwise (fun a b => b.averageScore ≤ a.averageScore) := by
  haveI : IsTotal ProjectScore Admin.keepsOrder := ⟨fun a b => by
    unfold Admin.keepsOrder
    rcases le_total a.averageScore b.averageScore with h | h
    · right; linarith
    · left; linarith⟩
  haveI : IsTrans ProjectScore Admin.keepsOrder := ⟨fun a b c hab hbc => by
    unfold Admin.keepsOrder at *
    linarith⟩
  have hs := List.sorted_insertionSort Admin.keepsOrder (Admin.projectScores db)
  exact List.Pairwise.imp (fun {a b} (hab : Admin.keepsOrder a b) => by
    unfold Admin.keepsOrder at hab
    linarith) hs

/-- C10: for every store, the ranking computed in `Admin.scores` holds one entry
per project (it is a rearrangement of `projectScores`) and is sorted
non-increasingly by `averageScore`: every entry's `averageScore` is >= that of
every later entry, in particular of the entry right after it; and every
project with no Result referencing it has `evaluatorCount = 0`,
`averageScore = 0` and `percentage = 0`. -/
theorem C10_ranking_sorted (db : DB) :
    (Admin.scores db).Pairwise (fun a b => b.averageScore ≤ a.averageScore) ∧
    (∀ (i : Nat) (a b : ProjectScore), (Admin.scores db)[i]? = some a →
      (Admin.scores db)[i + 1]? = some b → b.averageScore ≤ a.averageScore) ∧
    (Admin.scores db).Perm (db.projects.map (Admin.projectScore db)) ∧
    (∀ p ∈ db.projects, Admin.projectScore db p ∈ Admin.scores db ∧
      (Admin.projectScore db p).id = p.id) ∧
    (∀ e ∈ Admin.scores db, (∀ r ∈ db.results, r.projectId ≠ e.id) →
      e.evaluatorCount = 0 ∧ e.averageScore = 0 ∧ e.percentage = 0) := by
  have hsorted := scores_sorted db
  have hperm := scores_perm db
  refine ⟨hsorted, ?_, hperm, ?_, ?_⟩
  · intro i a b ha hb
    obtain ⟨hi, rfl⟩ := List.getElem?_eq_some.mp ha
    obtain ⟨hj, rfl⟩ := List.getElem?_eq_some.mp hb
    exact (List.pairwise_iff_getElem.mp hsorted) i (i + 1) hi hj (Nat.lt_succ_self i)
  · intro p hp
    refine ⟨hperm.symm.subset ?_, projectScore_id db p⟩
    exact List.mem_map_of_mem _ hp
  · intro e he hno
    have he2 : e ∈ Admin.projectScores db := hperm.subset he
    obtain ⟨p, _, rfl⟩ := List.mem_map.mp he2
    rw [projectScore_id] at hno
    exact projectScore_unscored db p hno

/-! ## Aggregation -/

theorem foldl_add_eq_sum (l : List ℚ) (acc : ℚ) :
    l.foldl (fun a b => a + b) acc = acc + l.sum := by
  induction l generalizing acc with
  | nil => simp
  | cons x xs ih => simp [List.foldl_cons, ih, add_assoc]

theorem foldl_total_eq_sum (rs : List Result) (acc : ℚ) :
    rs.foldl (fun sum r => sum + r.total) acc = acc + (rs.map (fun r => r.total)).sum := by
  induction rs generalizing acc with
  | nil => simp
  | cons x xs ih => simp [List.foldl_cons, ih, add_assoc]

theorem projectScore_scored (db : DB) (p : Project)
    (h : ∃ r ∈ db.results, r.projectId = p.id) :
    (Admin.projectScore db p).evaluatorCount
      = (db.results.filter (fun r => r.projectId == p.id)).length ∧
    (Admin.projectScore db p).totalScore
      = ((db.results.filter (fun r => r.projectId == p.id)).map (fun r => r.total)).sum ∧
    (Admin.projectScore db p).averageScore
      = ((db.results.filter (fun r => r.projectId == p.id)).map (fun r => r.total)).sum
        / ((db.results.filter (fun r => r.projectId == p.id)).length : ℚ) ∧
    (Admin.projectScore db p).maxPossible = rubricDefs.length * 10 ∧
    (Admin.projectScore db p).percentage
      = (Admin.projectScore db p).averageScore / ((Admin.projectScore db p).maxPossible : ℚ)
        * 100 := by
  have hne : ¬ (db.results.filter (fun r => r.projectId == p.id)).length = 0 := by
    obtain ⟨r, hr, hp⟩ := h
    intro h0
    have hnil := List.length_eq_zero.mp h0
    have hmem : r ∈ db.results.filter (fun r => r.projectId == p.id) := by
      simp [List.mem_filter, hr, hp]
    rw [hnil] at hmem
    cases hmem
  unfold Admin.projectScore
  simp [hne, foldl_total_eq_sum]

/-- C11: for every entry of the ranking whose project is referenced by at least
one Result, `evaluatorCount` is the number of Results with that projectId,
`averageScore` is the sum of those Results' totals divided by
`evaluatorCount`, `maxPossible` is the rubric criteria count times 10, that
is 60, and `percentage = averageScore / maxPossible * 100`, in exact rational
arithmetic. -/
theorem C11_ranking_entry_values (db : DB) (e : ProjectScore)
    (he : e ∈ Admin.scores db) (h : ∃ r ∈ db.results, r.projectId = e.id) :
    e.evaluatorCount = (db.results.filter (fun r => r.projectId == e.id)).length ∧
    0 < e.evaluatorCount ∧
    e.averageScore
      = ((db.results.filter (fun r => r.projectId == e.id)).map (fun r => r.total)).sum
        / (e.evaluatorCount : ℚ) ∧
    e.maxPossible = rubricDefs.length * 10 ∧ e.maxPossible = 60 ∧
    e.percentage = e.averageScore / (e.maxPossible : ℚ) * 100 := by
  have he2 : e ∈ Admin.projectScores db := (scores_perm db).subset he
  obtain ⟨p, _, rfl⟩ := List.mem_map.mp he2
  rw [projectScore_id] at h ⊢
  obtain ⟨h1, _, h3, h4, h5⟩ := projectScore_scored db p h
  refine ⟨h1, ?_, ?_, h4, by rw [h4]; rfl, h5⟩
  · rw [h1]
    obtain ⟨r, hr, hp⟩ := h
    exact List.length_pos_of_mem (by simp [List.mem_filter, hr, hp] :
      r ∈ db.results.filter (fun r => r.projectId == p.id))
  · rw [h3, h1]

/-- C11 (witness): in `Sample.scenarioStore` two Results with totals 47 and 41
reference `PRJ-0001`; its ranking entry has `averageScore = 44` and
`percentage = 44 / 60 * 100`. -/
theorem C11_ranking_entry_values_witness :
    Admin.projectScore Sample.scenarioStore ⟨"PRJ-0001", "Solar Oven", "", "", "", ""⟩
      ∈ Admin.scores Sample.scenarioStore ∧
    (∃ r ∈ Sample.scenarioStore.results, r.projectId = "PRJ-0001") ∧
    (Admin.projectScore Sample.scenarioStore
      ⟨"PRJ-0001", "Solar Oven", "", "", "", ""⟩).averageScore = 44 ∧
    (Admin.projectScore Sample.scenarioStore
      ⟨"PRJ-0001", "Solar Oven", "", "", "", ""⟩).percentage = 44 / 60 * 100 :=
  have hm : Admin.projectScore Sample.scenarioStore ⟨"PRJ-0001", "Solar Oven", "", "", "", ""⟩
      ∈ Admin.scores Sample.scenarioStore := by decide!
  have hr : ∃ r ∈ Sample.scenarioStore.results,
      r.projectId = (Admin.projectScore Sample.scenarioStore
        ⟨"PRJ-0001", "Solar Oven", "", "", "", ""⟩).id :=
    ⟨Sample.result1, by decide, by decide⟩
  have hc := C11_ranking_entry_values Sample.scenarioStore _ hm hr
  ⟨hm, ⟨Sample.result1, by decide, rfl⟩, hc.2.2.1.trans (by decide!),
    hc.2.2.2.2.2.trans (by decide!)⟩

theorem sum_map_rubricSum (rs : List Result) :
    (rs.map rubricSum).sum
      = (rubricKeys.map (fun k => (rs.map (fun r => (getKey r.scores k).getD 0)).sum)).sum := by
  induction rs with
  | nil => simp [rubricKeys, rubricDefs]
  | cons r rest ih =>
    simp only [List.map_cons, List.sum_cons, ih]
    simp only [rubricSum, rubricKeys, rubricDefs, List.map_cons, List.map_nil, List.sum_cons,
      List.sum_nil]
    ring

theorem viewProjectDetails_totalAvg (db : DB) (p : Project) (hp : p ∈ db.projects)
    (h : ∃ r ∈ db.results, r.projectId = p.id) :
    ∃ d, Admin.viewProjectDetails db p.id = some d ∧
      d.totalAvg
        = ((db.results.filter (fun r => r.projectId == p.id)).map rubricSum).sum
          / ((db.results.filter (fun r => r.projectId == p.id)).length : ℚ) ∧
      d.maxTotal = rubricDefs.length * 10 ∧
      d.percentage = d.totalAvg / (d.maxTotal : ℚ) * 100 := by
  have hne : ¬ (db.results.filter (fun r => r.projectId == p.id)).length = 0 := by
    obtain ⟨r, hr, hpr⟩ := h
    intro h0
    have hnil := List.length_eq_zero.mp h0
    have hmem : r ∈ db.results.filter (fun r => r.projectId == p.id) := by
      simp [List.mem_filter, hr, hpr]
    rw [hnil] at hmem
    cases hmem
  have hfind : ∃ q, db.projects.find? (fun x => x.id == p.id) = some q := by
    cases hf : db.projects.find? (fun x => x.id == p.id) with
    | some q => exact ⟨q, rfl⟩
    | none =>
      rw [List.find?_eq_none] at hf
      exact absurd (hf p hp) (by simp)
  obtain ⟨q, hq⟩ := hfind
  unfold Admin.viewProjectDetails
  rw [hq]
  simp only [hne, if_false]
  refine ⟨_, rfl, ?_, rfl, rfl⟩
  rw [sum_map_rubricSum]
  generalize db.results.filter (fun r => r.projectId == p.id) = rs
  simp only [rubricDefs, rubricKeys, List.foldl_cons, List.foldl_nil, setKey, List.map_cons,
    List.map_nil, List.length_map, foldl_add_eq_sum, List.sum_cons, List.sum_nil,
    String.reduceEq, if_false, zero_add, add_zero]
  ring

/-- C12 (counterexample): in `Sample.legacyStore` the only Result of `PRJ-0001` has
total 57, of which 10 are stored under the key `teamwork`, which is not a
rubric key. `viewProjectDetails` sums the six rubric criteria and finds
`totalAvg = 47`; `Admin.scores` averages the totals and finds
`averageScore = 57`; the percentages differ as well. -/
theorem C12_aggregations_differ :
    (Admin.viewProjectDetails Sample.legacyStore "PRJ-0001").map (fun d => d.totalAvg)
      = some 47 ∧
    (Admin.scores Sample.legacyStore).map (fun e => (e.id, e.averageScore))
      = [("PRJ-0001", 57), ("PRJ-0002", 0)] ∧
    (Admin.viewProjectDetails Sample.legacyStore "PRJ-0001").map (fun d => d.percentage)
      = some (235 / 3) ∧
    (Admin.scores Sample.legacyStore).map (fun e => (e.id, e.percentage))
      = [("PRJ-0001", 95), ("PRJ-0002", 0)] := by
  decide!

/-- C12 (amended): the two aggregations agree on the Results whose total is the
sum of their rubric scores. For every store and every project with at least
one Result, if every Result of the project has total equal to the sum of its
scores over the rubric criteria (a missing score counting as 0), then the
`totalAvg` computed by `viewProjectDetails` equals the `averageScore` computed
by `Admin.scores`, in exact arithmetic, and the two percentages are equal. -/
theorem C12_aggregations_agree (db : DB) (p : Project) (hp : p ∈ db.projects)
    (h : ∃ r ∈ db.results, r.projectId = p.id)
    (htotal : ∀ r ∈ db.results, r.projectId = p.id → r.total = rubricSum r) :
    Admin.projectScore db p ∈ Admin.scores db ∧
    ∃ d, Admin.viewProjectDetails db p.id = some d ∧
      d.totalAvg = (Admin.projectScore db p).averageScore ∧
      d.percentage = (Admin.projectScore db p).percentage := by
  obtain ⟨d, hd, havg, hmax, hpct⟩ := viewProjectDetails_totalAvg db p hp h
  obtain ⟨_, _, h3, h4, h5⟩ := projectScore_scored db p h
  have hmap : (db.results.filter (fun r => r.projectId == p.id)).map rubricSum
      = (db.results.filter (fun r => r.projectId == p.id)).map (fun r => r.total) := by
    apply List.map_congr_left
    intro r hr
    rw [List.mem_filter] at hr
    exact (htotal r hr.1 (by simpa using hr.2)).symm
  have heq : d.totalAvg = (Admin.projectScore db p).averageScore := by
    rw [havg, h3, hmap]
  refine ⟨(scores_perm db).symm.subset (List.mem_map_of_mem _ hp), d, hd, heq, ?_⟩
  rw [hpct, h5, heq, hmax, h4]

/-- C12 (witness): the amended claim at `Sample.scenarioStore` and `PRJ-0001`. -/
theorem C12_aggregations_agree_witness :
    (⟨"PRJ-0001", "Solar Oven", "", "", "", ""⟩ : Project) ∈ Sample.scenarioStore.projects ∧
    (∃ r ∈ Sample.scenarioStore.results, r.projectId = "PRJ-0001") ∧
    (∀ r ∈ Sample.scenarioStore.results, r.projectId = "PRJ-0001" → r.total = rubricSum r) ∧
    ∃ d, Admin.viewProjectDetails Sample.scenarioStore "PRJ-0001" = some d ∧
      d.totalAvg = (Admin.projectScore Sample.scenarioStore
        ⟨"PRJ-0001", "Solar Oven", "", "", "", ""⟩).averageScore ∧
      d.percentage = (Admin.projectScore Sample.scenarioStore
        ⟨"PRJ-0001", "Solar Oven", "", "", "", ""⟩).percentage :=
  have ht : ∀ r ∈ Sample.scenarioStore.results, r.projectId = "PRJ-0001" →
      r.total = rubricSum r := by decide!
  ⟨by decide, ⟨Sample.result1, by decide, rfl⟩, ht,
    (C12_aggregations_agree Sample.scenarioStore ⟨"PRJ-0001", "Solar Oven", "", "", "", ""⟩
      (by decide) ⟨Sample.result1, by decide, rfl⟩ ht).2⟩

/-! ## Deleting a project -/

/-- C13: for every store and project id, the confirmed `deleteProject` removes
the project from `DB.projects` (the others stay, in order), removes that id
from the `projectIds` of every Panel while keeping the other project ids and
their order, and leaves `DB.results`, `DB.evaluators`, every Panel's id, name
and `evaluatorIds`, and `DB.evaluatorState` unchanged, so Results referencing
the deleted project remain. An unconfirmed `deleteProject` changes nothing. -/
theorem C13_deleteProject_effect (db : DB) (id : String) :
    (∀ p, p ∈ (Admin.deleteProject db id true).projects ↔ p ∈ db.projects ∧ p.id ≠ id) ∧
    (Admin.deleteProject db id true).projects.Sublist db.projects ∧
    (Admin.deleteProject db id true).panels.length = db.panels.length ∧
    (∀ (i : Nat) (pa : Panel), db.panels[i]? = some pa →
      ∃ pa2, (Admin.deleteProject db id true).panels[i]? = some pa2 ∧
        pa2.id = pa.id ∧ pa2.name = pa.name ∧ pa2.evaluatorIds = pa.evaluatorIds ∧
        id ∉ pa2.projectIds ∧
        (∀ pid, pid ≠ id → (pid ∈ pa2.projectIds ↔ pid ∈ pa.projectIds)) ∧
        pa2.projectIds.Sublist pa.projectIds ∧
        pa2.projectIds = pa.projectIds.filter (fun pid => pid != id)) ∧
    (Admin.deleteProject db id true).results = db.results ∧
    (Admin.deleteProject db id true).evaluators = db.evaluators ∧
    (Admin.deleteProject db id true).evaluatorState = db.evaluatorState ∧
    (Admin.deleteProject db id true).settings = db.settings ∧
    (Admin.deleteProject db id true).lastSync = db.lastSync ∧
    Admin.deleteProject db id false = db := by
  refine ⟨?_, ?_, ?_, ?_, rfl, rfl, rfl, rfl, rfl, rfl⟩
  · intro p
    simp [Admin.deleteProject, List.mem_filter]
  · simp only [Admin.deleteProject, Bool.not_true, Bool.false_eq_true, if_false]
    exact List.filter_sublist db.projects
  · simp [Admin.deleteProject]
  · intro i pa hi
    refine ⟨{ pa with projectIds := pa.projectIds.filter (fun pid => pid != id) }, ?_, rfl, rfl,
      rfl, ?_, ?_, ?_, rfl⟩
    · simp [Admin.deleteProject, List.getElem?_map, hi]
    · simp [List.mem_filter]
    · intro pid hpid
      simp [List.mem_filter, hpid]
    · exact List.filter_sublist pa.projectIds

/-! ## Panels -/

theorem mem_updateFirst {α : Type} (p : α → Bool) (f : α → α) (l : List α) (y : α)
    (h : y ∈ updateFirst p f l) : y ∈ l ∨ ∃ x ∈ l, p x = true ∧ y = f x := by
  induction l with
  | nil => simp [updateFirst] at h
  | cons x xs ih =>
    unfold updateFirst at h
    by_cases hp : p x = true
    · rw [if_pos hp] at h
      rcases List.mem_cons.mp h with h1 | h1
      · exact Or.inr ⟨x, by simp, hp, h1⟩
      · exact Or.inl (List.mem_cons_of_mem _ h1)
    · rw [if_neg hp] at h
      rcases List.mem_cons.mp h with h1 | h1
      · exact Or.inl (by simp [h1])
      · rcases ih h1 with h2 | ⟨z, hz, hpz, hy⟩
        · exact Or.inl (List.mem_cons_of_mem _ h2)
        · exact Or.inr ⟨z, List.mem_cons_of_mem _ hz, hpz, hy⟩

theorem mem_mapIdx {α β : Type} (f : Nat → α → β) (l : List α) (y : β)
    (h : y ∈ l.mapIdx f) : ∃ i x, l[i]? = some x ∧ y = f i x := by
  obtain ⟨i, hi⟩ := List.mem_iff_getElem?.mp h
  rw [List.getElem?_mapIdx] at hi
  cases hx : l[i]? with
  | none => rw [hx] at hi; cases hi
  | some x =>
    rw [hx] at hi
    simp only [Option.map_some', Option.some.injEq] at hi
    exact ⟨i, x, hx, hi.symm⟩

theorem editPanel_create (db : DB) (nameInput : String) (evs prs : List String) :
    ((Admin.editPanel db none nameInput evs prs).1 = true ↔
      (3 ≤ evs.length ∧ evs.length ≤ 4 ∧ prs ≠ [])) ∧
    ((Admin.editPanel db none nameInput evs prs).1 = true →
      (Admin.editPanel db none nameInput evs prs).2 =
        { db with panels := db.panels ++
          [{ id := U.uid db "panel"
             name := orElse nameInput.trim ("Panel " ++ toString (db.panels.length + 1))
             evaluatorIds := evs, projectIds := prs }] }) ∧
    ((Admin.editPanel db none nameInput evs prs).1 = false →
      (Admin.editPanel db none nameInput evs prs).2 = db) := by
  by_cases hv : 3 ≤ evs.length ∧ evs.length ≤ 4 ∧ prs ≠ []
  · have hr : (decide (evs.length < 3 ∨ evs.length > 4) || decide (prs.length = 0)) = false := by
      have h1 : ¬ (evs.length < 3 ∨ evs.length > 4) := by omega
      have h2 : ¬ prs.length = 0 := fun h => hv.2.2 (List.length_eq_zero.mp h)
      simp [h1, h2]
    simp only [Admin.editPanel, truthyId, hr]
    simp [hv]
  · have hr : (decide (evs.length < 3 ∨ evs.length > 4) || decide (prs.length = 0)) = true := by
      by_cases h1 : evs.length < 3 ∨ evs.length > 4
      · simp [h1]
      · have h2 : prs = [] := by
          by_contra h3
          exact hv ⟨by omega, by omega, h3⟩
        simp [h2]
    simp only [Admin.editPanel, truthyId, hr]
    simp [hv]

theorem editPanel_accepted (db : DB) (id : Option String) (nameInput : String)
    (evs prs : List String) (h : (Admin.editPanel db id nameInput evs prs).1 = true) :
    (3 ≤ evs.length ∧ evs.length ≤ 4 ∧ prs ≠ []) ∧
    ∀ pa ∈ (Admin.editPanel db id nameInput evs prs).2.panels,
      pa ∈ db.panels ∨ (pa.evaluatorIds = evs ∧ pa.projectIds = prs) := by
  have hvalid : (decide (evs.length < 3 ∨ evs.length > 4) || decide (prs.length = 0)) = false →
      (3 ≤ evs.length ∧ evs.length ≤ 4 ∧ prs ≠ []) := by
    intro hr
    simp only [Bool.or_eq_false_iff, decide_eq_false_iff_not] at hr
    refine ⟨by omega, by omega, fun h0 => hr.2 (by simp [h0])⟩
  unfold Admin.editPanel at h ⊢
  cases hid : truthyId id with
  | none =>
    simp only [hid] at h ⊢
    cases hr : (decide (evs.length < 3 ∨ evs.length > 4) || decide (prs.length = 0)) with
    | true =>
      simp only [hr, if_true] at h
      cases h
    | false =>
      refine ⟨hvalid hr, ?_⟩
      simp only [hr, Bool.false_eq_true, if_false]
      intro pa hpa
      rcases List.mem_append.mp hpa with h1 | h1
      · exact Or.inl h1
      · right
        simp only [List.mem_singleton] at h1
        subst h1
        exact ⟨rfl, rfl⟩
  | some i =>
    simp only [hid] at h ⊢
    cases hf : db.panels.find? (fun x => x.id == i) with
    | none => simp [hf] at h
    | some q =>
      simp only [hf] at h ⊢
      cases hr : (decide (evs.length < 3 ∨ evs.length > 4) || decide (prs.length = 0)) with
      | true =>
        simp only [hr, if_true] at h
        cases h
      | false =>
        refine ⟨hvalid hr, ?_⟩
        simp only [hr, Bool.false_eq_true, if_false]
        intro pa hpa
        rcases mem_updateFirst _ _ _ pa hpa with h1 | ⟨x, _, _, h1⟩
        · exact Or.inl h1
        · right
          subst h1
          exact ⟨rfl, rfl⟩

theorem migrate_panels (db : DB) (pa : Panel) (h : pa ∈ (IDMigration.migrate db).panels) :
    ∃ pa0 ∈ db.panels, pa.evaluatorIds.length = pa0.evaluatorIds.length ∧
      pa.projectIds.length = pa0.projectIds.length ∧ pa.name = pa0.name := by
  unfold IDMigration.migrate at h
  obtain ⟨i, x, hx, hpa⟩ := mem_mapIdx _ _ _ h
  refine ⟨x, List.getElem?_mem hx, ?_, ?_, ?_⟩ <;> simp [hpa]

/-- C14 (counterexample): `Sample.store` and `Sample.soloStore` satisfy the panel
invariant. `deleteEvaluator` of `EVAL-0003` leaves the panel of `Sample.store`
with two evaluators, and `deleteProject` of `PRJ-0001` leaves the panel of
`Sample.soloStore` without any project. -/
theorem C14_delete_breaks_panel_invariant :
    panelInvariant Sample.store ∧
    ¬ panelInvariant (Admin.deleteEvaluator Sample.store "EVAL-0003" true) ∧
    (Admin.deleteEvaluator Sample.store "EVAL-0003" true).panels.map
      (fun pa => pa.evaluatorIds) = [["EVAL-0001", "EVAL-0002"]] ∧
    panelInvariant Sample.soloStore ∧
    ¬ panelInvariant (Admin.deleteProject Sample.soloStore "PRJ-0001" true) ∧
    (Admin.deleteProject Sample.soloStore "PRJ-0001" true).panels.map
      (fun pa => pa.projectIds) = [[]] := by
  decide

/-- C14 (amended): the panel invariant (3 or 4 `evaluatorIds` and a non-empty
`projectIds` in every Panel) is preserved by the `editPanel` save of a new
panel, by every accepted `editPanel` save, by `deletePanel` and by `migrate`.
`deleteEvaluator` and `deleteProject` remove the id from every Panel without
a test on the sizes and can leave a Panel with fewer than 3 evaluators or
without a project. -/
theorem C14_panel_invariant_preserved (db : DB) (h : panelInvariant db)
    (id : Option String) (nameInput : String) (evs prs : List String)
    (panelId : String) (confirmed : Bool) :
    panelInvariant (Admin.editPanel db none nameInput evs prs).2 ∧
    ((Admin.editPanel db id nameInput evs prs).1 = true →
      panelInvariant (Admin.editPanel db id nameInput evs prs).2) ∧
    panelInvariant (Admin.deletePanel db panelId confirmed) ∧
    panelInvariant (IDMigration.migrate db) := by
  have hacc : ∀ id2 : Option String, (Admin.editPanel db id2 nameInput evs prs).1 = true →
      panelInvariant (Admin.editPanel db id2 nameInput evs prs).2 := by
    intro id2 hok pa hpa
    obtain ⟨hv, hmem⟩ := editPanel_accepted db id2 nameInput evs prs hok
    rcases hmem pa hpa with h1 | ⟨h1, h2⟩
    · exact h pa h1
    · rw [h1, h2]; exact hv
  refine ⟨?_, hacc id, ?_, ?_⟩
  · cases hok : (Admin.editPanel db none nameInput evs prs).1 with
    | true => exact hacc none hok
    | false => rw [(editPanel_create db nameInput evs prs).2.2 hok]; exact h
  · intro pa hpa
    cases confirmed with
    | false => exact h pa (by simpa [Admin.deletePanel] using hpa)
    | true =>
      have hpa2 : pa ∈ db.panels := by
        simp only [Admin.deletePanel, Bool.not_true, Bool.false_eq_true, if_false] at hpa
        exact (List.mem_filter.mp hpa).1
      exact h pa hpa2
  · intro pa hpa
    obtain ⟨pa0, hpa0, h1, h2, _⟩ := migrate_panels db pa hpa
    obtain ⟨g1, g2, g3⟩ := h pa0 hpa0
    refine ⟨by omega, by omega, ?_⟩
    intro hnil
    rw [hnil] at h2
    exact g3 (List.length_eq_zero.mp h2.symm)

/-- C14 (witness): the amended claim at `Sample.store`, with a new panel of three
evaluators and one project. -/
theorem C14_panel_invariant_preserved_witness :
    panelInvariant Sample.store ∧
    panelInvariant (Admin.editPanel Sample.store none "Panel B"
      ["EVAL-0001", "EVAL-0002", "EVAL-0003"] ["PRJ-0002"]).2 ∧
    panelInvariant (IDMigration.migrate Sample.store) :=
  ⟨by decide,
    (C14_panel_invariant_preserved Sample.store (by decide) none "Panel B"
      ["EVAL-0001", "EVAL-0002", "EVAL-0003"] ["PRJ-0002"] "PNL-0001" true).1,
    (C14_panel_invariant_preserved Sample.store (by decide) none "Panel B"
      ["EVAL-0001", "EVAL-0002", "EVAL-0003"] ["PRJ-0002"] "PNL-0001" true).2.2.2⟩

/-- C15: creating a new panel with k selected evaluators is accepted exactly
when 3 <= k <= 4 and the project selection is not empty. When accepted, the
new panel, with the id `U.uid('panel')` and the selected evaluators and
projects, is appended to `DB.panels` and nothing else changes; when rejected
(k = 2, k = 5, any k outside 3..4, or no project selected) the store, and so
`DB.panels`, is unchanged. -/
theorem C15_create_panel (db : DB) (nameInput : String) (evs prs : List String) :
    ((Admin.editPanel db none nameInput evs prs).1 = true ↔
      (3 ≤ evs.length ∧ evs.length ≤ 4 ∧ prs ≠ [])) ∧
    (prs ≠ [] →
      ((Admin.editPanel db none nameInput evs prs).2.panels.length = db.panels.length + 1 ↔
        (3 ≤ evs.length ∧ evs.length ≤ 4))) ∧
    ((3 ≤ evs.length ∧ evs.length ≤ 4 ∧ prs ≠ []) →
      ∃ pa : Panel, pa.id = U.uid db "panel" ∧ pa.evaluatorIds = evs ∧ pa.projectIds = prs ∧
        (Admin.editPanel db none nameInput evs prs).2
          = { db with panels := db.panels ++ [pa] }) ∧
    ((evs.length < 3 ∨ 4 < evs.length ∨ prs = []) →
      (Admin.editPanel db none nameInput evs prs).1 = false ∧
      (Admin.editPanel db none nameInput evs prs).2 = db) := by
  obtain ⟨hiff, hacc, hrej⟩ := editPanel_create db nameInput evs prs
  have hbad : (evs.length < 3 ∨ 4 < evs.length ∨ prs = []) →
      (Admin.editPanel db none nameInput evs prs).1 = false := by
    intro hb
    cases hok : (Admin.editPanel db none nameInput evs prs).1 with
    | false => rfl
    | true =>
      obtain ⟨h1, h2, h3⟩ := hiff.mp hok
      rcases hb with hb | hb | hb
      · omega
      · omega
      · exact absurd hb h3
  refine ⟨hiff, ?_, ?_, fun hb => ⟨hbad hb, hrej (hbad hb)⟩⟩
  · intro hprs
    constructor
    · intro hlen
      by_contra hk
      have hb : evs.length < 3 ∨ 4 < evs.length ∨ prs = [] := by omega
      rw [hrej (hbad hb)] at hlen
      omega
    · intro hk
      rw [hacc (hiff.mpr ⟨hk.1, hk.2, hprs⟩)]
      simp
  · intro hv
    exact ⟨_, rfl, rfl, rfl, hacc (hiff.mpr hv)⟩

/-- C15 (witness): at `Sample.store` a new panel with two or with five evaluators is
rejected, one with three is appended. -/
theorem C15_create_panel_witness :
    (Admin.editPanel Sample.store none "B" ["EVAL-0001", "EVAL-0002"] ["PRJ-0001"]).2
      = Sample.store ∧
    (Admin.editPanel Sample.store none "B"
      ["EVAL-0001", "EVAL-0002", "EVAL-0003", "EVAL-0004", "EVAL-0005"] ["PRJ-0001"]).2
      = Sample.store ∧
    (Admin.editPanel Sample.store none "B" ["EVAL-0001", "EVAL-0002", "EVAL-0003"]
      ["PRJ-0001"]).1 = true :=
  ⟨((C15_create_panel Sample.store "B" ["EVAL-0001", "EVAL-0002"] ["PRJ-0001"]).2.2.2
      (Or.inl (by decide))).2,
    ((C15_create_panel Sample.store "B"
      ["EVAL-0001", "EVAL-0002", "EVAL-0003", "EVAL-0004", "EVAL-0005"] ["PRJ-0001"]).2.2.2
      (Or.inr (Or.inl (by decide)))).2,
    (C15_create_panel Sample.store "B" ["EVAL-0001", "EVAL-0002", "EVAL-0003"]
      ["PRJ-0001"]).1.mpr ⟨by decide, by decide, by decide⟩⟩

/-! ## Assigned projects and progress -/

theorem uniqueInOrder_foldl (xs acc : List String) :
    (∀ x, x ∈ xs.foldl (fun acc x => if x ∈ acc then acc else acc ++ [x]) acc ↔
      x ∈ acc ∨ x ∈ xs) ∧
    (acc.Nodup → (xs.foldl (fun acc x => if x ∈ acc then acc else acc ++ [x]) acc).Nodup) := by
  induction xs generalizing acc with
  | nil => simp
  | cons y ys ih =>
    simp only [List.foldl_cons]
    by_cases hy : y ∈ acc
    · rw [if_pos hy]
      obtain ⟨ih1, ih2⟩ := ih acc
      refine ⟨fun x => ?_, ih2⟩
      rw [ih1 x]
      constructor
      · rintro (h | h)
        · exact Or.inl h
        · exact Or.inr (List.mem_cons_of_mem _ h)
      · rintro (h | h)
        · exact Or.inl h
        · rcases List.mem_cons.mp h with h1 | h1
          · subst h1; exact Or.inl hy
          · exact Or.inr h1
    · rw [if_neg hy]
      obtain ⟨ih1, ih2⟩ := ih (acc ++ [y])
      refine ⟨fun x => ?_, fun hnd => ih2 ?_⟩
      · rw [ih1 x]
        simp only [List.mem_append, List.mem_singleton, List.mem_cons]
        tauto
      · exact List.Nodup.append hnd (List.nodup_singleton y) (by simpa using hy)

theorem mem_uniqueInOrder (xs : List String) (x : String) :
    x ∈ uniqueInOrder xs ↔ x ∈ xs := by
  unfold uniqueInOrder
  rw [(uniqueInOrder_foldl xs []).1 x]
  simp

theorem nodup_uniqueInOrder (xs : List String) : (uniqueInOrder xs).Nodup :=
  (uniqueInOrder_foldl xs []).2 List.nodup_nil

theorem mem_myProjectIds (db : DB) (evalId pid : String) :
    pid ∈ Eval.myProjectIds db evalId ↔ assigned db evalId pid := by
  unfold Eval.myProjectIds Eval.myPanels assigned
  rw [mem_uniqueInOrder, List.mem_flatMap]
  constructor
  · rintro ⟨pa, hpa, hpid⟩
    rw [List.mem_filter] at hpa
    exact ⟨pa, hpa.1, by simpa using hpa.2, hpid⟩
  · rintro ⟨pa, hpa, he, hpid⟩
    exact ⟨pa, List.mem_filter.mpr ⟨hpa, by simpa using he⟩, hpid⟩

/-- C16: for every store and evaluator id, the list `myProjectIds` computed in
`goToAssigned` contains a project id if and only if some Panel contains that
evaluator id in `evaluatorIds` and that project id in `projectIds`, and it
contains no project id twice. -/
theorem C16_assigned_projects (db : DB) (evalId : String) :
    (∀ pid, pid ∈ Eval.myProjectIds db evalId ↔
      ∃ pa ∈ db.panels, evalId ∈ pa.evaluatorIds ∧ pid ∈ pa.projectIds) ∧
    (Eval.myProjectIds db evalId).Nodup :=
  ⟨fun pid => mem_myProjectIds db evalId pid, nodup_uniqueInOrder _⟩

theorem mathRound_spec (x : ℚ) :
    ((mathRound x : ℤ) : ℚ) - 1 / 2 ≤ x ∧ x < ((mathRound x : ℤ) : ℚ) + 1 / 2 := by
  unfold mathRound
  have h1 := Int.floor_le (x + 1 / 2)
  have h2 := Int.lt_floor_add_one (x + 1 / 2)
  constructor <;> linarith

theorem roundHalfEven_floor (x : ℚ) : ⌊x⌋ ≤ roundHalfEven x ∧ roundHalfEven x ≤ ⌊x⌋ + 1 := by
  unfold roundHalfEven
  split_ifs <;> omega

theorem roundHalfEven_near (x : ℚ) :
    x - 1 / 2 ≤ (roundHalfEven x : ℚ) ∧ (roundHalfEven x : ℚ) ≤ x + 1 / 2 := by
  have h1 := Int.floor_le x
  have h2 := Int.lt_floor_add_one x
  unfold roundHalfEven
  split_ifs with ha hb hc
  · constructor <;> linarith
  · push_cast; constructor <;> linarith
  · constructor <;> linarith
  · push_cast; constructor <;> linarith

theorem roundHalfEven_intCast (n : ℤ) : roundHalfEven (n : ℚ) = n := by
  unfold roundHalfEven
  simp

theorem roundHalfEven_mono {x y : ℚ} (h : x ≤ y) : roundHalfEven x ≤ roundHalfEven y := by
  have hf : ⌊x⌋ ≤ ⌊y⌋ := Int.floor_mono h
  rcases lt_or_eq_of_le hf with hlt | heq
  · have h1 := (roundHalfEven_floor x).2
    have h2 := (roundHalfEven_floor y).1
    omega
  · unfold roundHalfEven
    rw [heq]
    split_ifs <;> first | omega | (exfalso; linarith)

theorem two_zpow_pos (e : ℤ) : (0 : ℚ) < 2 ^ e := zpow_pos (by norm_num) e

/-- The binade of a positive number. -/
theorem binade_spec {x : ℚ} (hx : 0 < x) :
    (2 : ℚ) ^ Int.log 2 x ≤ x ∧ x < 2 ^ (Int.log 2 x + 1) := by
  have h1 := Int.zpow_log_le_self (b := 2) (by norm_num) hx
  have h2 := Int.lt_zpow_succ_log_self (b := 2) (by norm_num) x
  exact ⟨by simpa using h1, by simpa using h2⟩

theorem roundToDouble_of_pos {x : ℚ} (hx : 0 < x) :
    roundToDouble x
      = (roundHalfEven (x / 2 ^ (Int.log 2 x - 52)) : ℚ) * 2 ^ (Int.log 2 x - 52) := by
  unfold roundToDouble
  rw [if_neg (ne_of_gt hx), if_neg (not_lt.mpr hx.le)]

theorem roundToDouble_zero : roundToDouble 0 = 0 := by
  unfold roundToDouble
  rw [if_pos rfl]

/-- A positive number is rounded within its binade. -/
theorem roundToDouble_binade {x : ℚ} (hx : 0 < x) :
    (2 : ℚ) ^ Int.log 2 x ≤ roundToDouble x ∧ roundToDouble x ≤ 2 ^ (Int.log 2 x + 1) := by
  obtain ⟨h1, h2⟩ := binade_spec hx
  have hq := two_zpow_pos (Int.log 2 x - 52)
  rw [roundToDouble_of_pos hx]
  have e1 : (2 : ℚ) ^ Int.log 2 x = ((2 ^ 52 : ℤ) : ℚ) * 2 ^ (Int.log 2 x - 52) := by
    rw [zpow_sub₀ (by norm_num : (2 : ℚ) ≠ 0)]
    push_cast
    field_simp
    ring
  have e2 : (2 : ℚ) ^ (Int.log 2 x + 1) = ((2 ^ 53 : ℤ) : ℚ) * 2 ^ (Int.log 2 x - 52) := by
    rw [zpow_sub₀ (by norm_num : (2 : ℚ) ≠ 0), zpow_add₀ (by norm_num : (2 : ℚ) ≠ 0)]
    push_cast
    field_simp
    ring
  have l1 : ((2 ^ 52 : ℤ) : ℚ) ≤ x / 2 ^ (Int.log 2 x - 52) := by
    rw [le_div_iff₀ hq, ← e1]; exact h1
  have l2 : x / 2 ^ (Int.log 2 x - 52) ≤ ((2 ^ 53 : ℤ) : ℚ) := by
    rw [div_le_iff₀ hq, ← e2]; exact h2.le
  have r1 := roundHalfEven_mono l1
  have r2 := roundHalfEven_mono l2
  rw [roundHalfEven_intCast] at r1 r2
  rw [e1, e2]
  constructor
  · exact mul_le_mul_of_nonneg_right (by exact_mod_cast r1) hq.le
  · exact mul_le_mul_of_nonneg_right (by exact_mod_cast r2) hq.le

theorem roundToDouble_pos {x : ℚ} (hx : 0 < x) : 0 < roundToDouble x :=
  lt_of_lt_of_le (two_zpow_pos _) (roundToDouble_binade hx).1

/-- Rounding to a Number is monotone on the non-negative numbers. -/
theorem roundToDouble_mono {x y : ℚ} (hx : 0 ≤ x) (h : x ≤ y) :
    roundToDouble x ≤ roundToDouble y := by
  rcases eq_or_lt_of_le hx with h0 | hpos
  · rw [← h0, roundToDouble_zero]
    rcases eq_or_lt_of_le (hx.trans h) with hy0 | hypos
    · rw [← hy0, roundToDouble_zero]
    · exact (roundToDouble_pos hypos).le
  · have hy : 0 < y := lt_of_lt_of_le hpos h
    have hl : Int.log 2 x ≤ Int.log 2 y := Int.log_mono_right hpos h
    rcases lt_or_eq_of_le hl with hlt | heq
    · calc roundToDouble x ≤ 2 ^ (Int.log 2 x + 1) := (roundToDouble_binade hpos).2
        _ ≤ 2 ^ Int.log 2 y := zpow_le_zpow_right₀ (by norm_num) (by omega)
        _ ≤ roundToDouble y := (roundToDouble_binade hy).1
    · rw [roundToDouble_of_pos hpos, roundToDouble_of_pos hy, heq]
      have hq := two_zpow_pos (Int.log 2 y - 52)
      apply mul_le_mul_of_nonneg_right _ hq.le
      have : x / 2 ^ (Int.log 2 y - 52) ≤ y / 2 ^ (Int.log 2 y - 52) :=
        div_le_div_of_nonneg_right h hq.le
      exact_mod_cast roundHalfEven_mono this

/-- The relative error of rounding to a Number is at most `2 ^ (-53)`. -/
theorem roundToDouble_error {x : ℚ} (hx : 0 < x) :
    x - x / 2 ^ 53 ≤ roundToDouble x ∧ roundToDouble x ≤ x + x / 2 ^ 53 := by
  obtain ⟨h1, _⟩ := binade_spec hx
  have hq := two_zpow_pos (Int.log 2 x - 52)
  obtain ⟨n1, n2⟩ := roundHalfEven_near (x / 2 ^ (Int.log 2 x - 52))
  rw [roundToDouble_of_pos hx]
  have e1 : (2 : ℚ) ^ Int.log 2 x = 2 ^ 52 * 2 ^ (Int.log 2 x - 52) := by
    rw [zpow_sub₀ (by norm_num : (2 : ℚ) ≠ 0)]
    field_simp
    ring
  have hx' : x / 2 ^ (Int.log 2 x - 52) * 2 ^ (Int.log 2 x - 52) = x := by
    field_simp
  have hhalf : (2 : ℚ) ^ (Int.log 2 x - 52) / 2 ≤ x / 2 ^ 53 := by
    rw [e1] at h1
    rw [div_le_div_iff₀ (by norm_num) (by norm_num)]
    nlinarith
  have m1 := mul_le_mul_of_nonneg_right n1 hq.le
  have m2 := mul_le_mul_of_nonneg_right n2 hq.le
  rw [sub_mul, hx'] at m1
  rw [add_mul, hx'] at m2
  constructor <;> linarith

theorem roundToDouble_one : roundToDouble 1 = 1 := by decide!

theorem roundToDouble_hundred : roundToDouble 100 = 100 := by decide!

theorem roundToDouble_199_200 : roundToDouble (roundToDouble (199 / 200) * 100) = 199 / 2 := by
  decide!

/-- The double product of `goToAssigned` stays within `2 ^ (-51)` of the exact
value, relatively. -/
theorem pct_error (c t : Nat) (ht : 0 < t) :
    (c : ℚ) / t * 100 - (c : ℚ) / t * 100 / 2 ^ 51
        ≤ roundToDouble (roundToDouble ((c : ℚ) / t) * 100) ∧
    roundToDouble (roundToDouble ((c : ℚ) / t) * 100)
        ≤ (c : ℚ) / t * 100 + (c : ℚ) / t * 100 / 2 ^ 51 := by
  have htq : (0 : ℚ) < (t : ℚ) := by exact_mod_cast ht
  rcases Nat.eq_zero_or_pos c with hc | hc
  · subst hc
    simp [roundToDouble_zero]
  · have hcq : (0 : ℚ) < (c : ℚ) := by exact_mod_cast hc
    have hx : (0 : ℚ) < (c : ℚ) / t := div_pos hcq htq
    obtain ⟨a1, a2⟩ := roundToDouble_error hx
    have hy := roundToDouble_pos hx
    have hz : (0 : ℚ) < roundToDouble ((c : ℚ) / t) * 100 := by positivity
    obtain ⟨b1, b2⟩ := roundToDouble_error hz
    generalize roundToDouble (roundToDouble ((c : ℚ) / t) * 100) = w at b1 b2 ⊢
    generalize roundToDouble ((c : ℚ) / t) = y at a1 a2 hy hz b1 b2
    generalize (c : ℚ) / t = x at hx a1 a2
    have e53 : (0 : ℚ) < 2 ^ 53 := by positivity
    constructor
    · have h1 : (x - x / 2 ^ 53) * 100 - (x - x / 2 ^ 53) * 100 / 2 ^ 53 ≤ w := by
        have : (x - x / 2 ^ 53) * 100 * (1 - 1 / 2 ^ 53) ≤ y * 100 * (1 - 1 / 2 ^ 53) :=
          mul_le_mul_of_nonneg_right (by linarith) (by norm_num)
        have e1 : y * 100 - y * 100 / 2 ^ 53 = y * 100 * (1 - 1 / 2 ^ 53) := by ring
        have e2 : (x - x / 2 ^ 53) * 100 - (x - x / 2 ^ 53) * 100 / 2 ^ 53
            = (x - x / 2 ^ 53) * 100 * (1 - 1 / 2 ^ 53) := by ring
        rw [e2]
        rw [e1] at b1
        linarith
      have h2 : x * 100 - x * 100 / 2 ^ 51
          ≤ (x - x / 2 ^ 53) * 100 - (x - x / 2 ^ 53) * 100 / 2 ^ 53 := by
        have : (x - x / 2 ^ 53) * 100 - (x - x / 2 ^ 53) * 100 / 2 ^ 53
            - (x * 100 - x * 100 / 2 ^ 51)
            = x * (100 / 2 ^ 51 - 200 / 2 ^ 53 + 100 / 2 ^ 106) := by ring
        have hpos : (0 : ℚ) ≤ x * (100 / 2 ^ 51 - 200 / 2 ^ 53 + 100 / 2 ^ 106) :=
          mul_nonneg hx.le (by norm_num)
        linarith
      linarith
    · have h1 : w ≤ (x + x / 2 ^ 53) * 100 + (x + x / 2 ^ 53) * 100 / 2 ^ 53 := by
        have : y * 100 * (1 + 1 / 2 ^ 53) ≤ (x + x / 2 ^ 53) * 100 * (1 + 1 / 2 ^ 53) :=
          mul_le_mul_of_nonneg_right (by linarith) (by norm_num)
        have e1 : y * 100 + y * 100 / 2 ^ 53 = y * 100 * (1 + 1 / 2 ^ 53) := by ring
        have e2 : (x + x / 2 ^ 53) * 100 + (x + x / 2 ^ 53) * 100 / 2 ^ 53
            = (x + x / 2 ^ 53) * 100 * (1 + 1 / 2 ^ 53) := by ring
        rw [e2]
        rw [e1] at b2
        linarith
      have h2 : (x + x / 2 ^ 53) * 100 + (x + x / 2 ^ 53) * 100 / 2 ^ 53
          ≤ x * 100 + x * 100 / 2 ^ 51 := by
        have : x * 100 + x * 100 / 2 ^ 51
            - ((x + x / 2 ^ 53) * 100 + (x + x / 2 ^ 53) * 100 / 2 ^ 53)
            = x * (100 / 2 ^ 51 - 200 / 2 ^ 53 - 100 / 2 ^ 106) := by ring
        have hpos : (0 : ℚ) ≤ x * (100 / 2 ^ 51 - 200 / 2 ^ 53 - 100 / 2 ^ 106) :=
          mul_nonneg hx.le (by norm_num)
        linarith
      linarith

/-- With fewer than `2 ^ 32` counted Results, the double product lies on the same
side of every half-integer as the exact value. -/
theorem pct_side (c t : Nat) (ht : 0 < t) (hc : c < 2 ^ 32) (k : ℤ) :
    ((c : ℚ) / t * 100 < k + 1 / 2 →
      roundToDouble (roundToDouble ((c : ℚ) / t) * 100) < k + 1 / 2) ∧
    ((k : ℚ) + 1 / 2 < (c : ℚ) / t * 100 →
      (k : ℚ) + 1 / 2 < roundToDouble (roundToDouble ((c : ℚ) / t) * 100)) := by
  have htq : (0 : ℚ) < (t : ℚ) := by exact_mod_cast ht
  have hcq : (c : ℚ) < 2 ^ 32 := by exact_mod_cast hc
  have hc0 : (0 : ℚ) ≤ (c : ℚ) := by exact_mod_cast Nat.zero_le c
  obtain ⟨e1, e2⟩ := pct_error c t ht
  have hsmall : (c : ℚ) / t * 100 / 2 ^ 51 < 1 / (2 * t) := by
    have ea : (c : ℚ) / t * 100 / 2 ^ 51 = ((c : ℚ) * 100 / 2 ^ 51) / t := by
      field_simp
      left
      ring
    have eb : (1 : ℚ) / (2 * t) = (1 / 2) / t := by
      field_simp
    rw [ea, eb]
    apply div_lt_div_of_pos_right _ htq
    rw [div_lt_iff₀ (by positivity)]
    norm_num
    linarith
  constructor
  · intro hlt
    have hi : (200 * (c : ℤ) : ℤ) < (2 * k + 1) * t := by
      have : (c : ℚ) * 100 < (k + 1 / 2) * t := by
        rwa [div_mul_eq_mul_div, div_lt_iff₀ htq] at hlt
      have h2 : ((200 * (c : ℤ) : ℤ) : ℚ) < (((2 * k + 1) * t : ℤ) : ℚ) := by
        push_cast; linarith
      exact_mod_cast h2
    have hi2 : (200 * (c : ℤ) : ℤ) + 1 ≤ (2 * k + 1) * t := hi
    have hq : (200 : ℚ) * c + 1 ≤ (2 * k + 1) * t := by exact_mod_cast hi2
    have hx : (c : ℚ) / t * 100 + 1 / (2 * t) ≤ k + 1 / 2 := by
      have : (c : ℚ) / t * 100 + 1 / (2 * t) = (200 * c + 1) / (2 * t) := by
        field_simp; ring
      rw [this, div_le_iff₀ (by positivity)]
      linarith
    linarith
  · intro hlt
    have hi : ((2 * k + 1) * t : ℤ) < 200 * (c : ℤ) := by
      have : ((k : ℚ) + 1 / 2) * t < (c : ℚ) * 100 := by
        rwa [div_mul_eq_mul_div, lt_div_iff₀ htq] at hlt
      have h2 : (((2 * k + 1) * t : ℤ) : ℚ) < ((200 * (c : ℤ) : ℤ) : ℚ) := by
        push_cast; linarith
      exact_mod_cast h2
    have hi2 : ((2 * k + 1) * t : ℤ) + 1 ≤ 200 * (c : ℤ) := hi
    have hq : ((2 : ℚ) * k + 1) * t + 1 ≤ 200 * c := by exact_mod_cast hi2
    have hx : (k : ℚ) + 1 / 2 ≤ (c : ℚ) / t * 100 - 1 / (2 * t) := by
      have : (c : ℚ) / t * 100 - 1 / (2 * t) = (200 * c - 1) / (2 * t) := by
        field_simp; ring
      rw [this, le_div_iff₀ (by positivity)]
      linarith
    linarith

/-- With fewer than `2 ^ 32` counted Results, `Math.round` of the double product
is the exact value rounded, halves up, or one less; it is the former unless
the exact value lies halfway between two integers. -/
theorem pct_rounding (c t : Nat) (ht : 0 < t) (hc : c < 2 ^ 32) :
    ⌊(c : ℚ) / t * 100 + 1 / 2⌋ - 1
        ≤ mathRound (roundToDouble (roundToDouble ((c : ℚ) / t) * 100)) ∧
    mathRound (roundToDouble (roundToDouble ((c : ℚ) / t) * 100))
        ≤ ⌊(c : ℚ) / t * 100 + 1 / 2⌋ ∧
    ((∀ k : ℤ, (c : ℚ) / t * 100 ≠ k + 1 / 2) →
      mathRound (roundToDouble (roundToDouble ((c : ℚ) / t) * 100))
        = ⌊(c : ℚ) / t * 100 + 1 / 2⌋) := by
  have f1 := Int.floor_le ((c : ℚ) / t * 100 + 1 / 2)
  have f2 := Int.lt_floor_add_one ((c : ℚ) / t * 100 + 1 / 2)
  have up := (pct_side c t ht hc ⌊(c : ℚ) / t * 100 + 1 / 2⌋).1 (by linarith)
  have low := (pct_side c t ht hc (⌊(c : ℚ) / t * 100 + 1 / 2⌋ - 2)).2
    (by push_cast; linarith)
  have hle : mathRound (roundToDouble (roundToDouble ((c : ℚ) / t) * 100))
      ≤ ⌊(c : ℚ) / t * 100 + 1 / 2⌋ := by
    unfold mathRound
    have : ⌊roundToDouble (roundToDouble ((c : ℚ) / t) * 100) + 1 / 2⌋
        < ⌊(c : ℚ) / t * 100 + 1 / 2⌋ + 1 := by
      rw [Int.floor_lt]; push_cast; linarith
    omega
  refine ⟨?_, hle, ?_⟩
  · unfold mathRound
    have : ⌊(c : ℚ) / t * 100 + 1 / 2⌋ - 1
        ≤ ⌊roundToDouble (roundToDouble ((c : ℚ) / t) * 100) + 1 / 2⌋ := by
      rw [Int.le_floor]; push_cast at low ⊢; linarith
    exact this
  · intro hne
    have hne1 := hne (⌊(c : ℚ) / t * 100 + 1 / 2⌋ - 1)
    have hgt : ((⌊(c : ℚ) / t * 100 + 1 / 2⌋ - 1 : ℤ) : ℚ) + 1 / 2 < (c : ℚ) / t * 100 := by
      rcases lt_or_eq_of_le (show ((⌊(c : ℚ) / t * 100 + 1 / 2⌋ - 1 : ℤ) : ℚ) + 1 / 2
          ≤ (c : ℚ) / t * 100 by push_cast; linarith) with h | h
      · exact h
      · exact absurd h.symm hne1
    have low2 := (pct_side c t ht hc (⌊(c : ℚ) / t * 100 + 1 / 2⌋ - 1)).2 hgt
    apply le_antisymm hle
    unfold mathRound
    rw [Int.le_floor]
    push_cast at low2 ⊢
    linarith

/-- When enough Results are counted for the exact ratio to reach 99.5 percent, the
double product lies between 99.5 and 100. -/
theorem pct_hundred (c t : Nat) (ht : 0 < t) (hle : c ≤ t) (h : 199 * t ≤ 200 * c) :
    mathRound (roundToDouble (roundToDouble ((c : ℚ) / t) * 100)) = 100 := by
  have htq : (0 : ℚ) < (t : ℚ) := by exact_mod_cast ht
  have hq : (199 : ℚ) * t ≤ 200 * c := by exact_mod_cast h
  have hct : (c : ℚ) ≤ (t : ℚ) := by exact_mod_cast hle
  have h1 : (199 : ℚ) / 200 ≤ (c : ℚ) / t := by
    rw [div_le_div_iff₀ (by norm_num) htq]; linarith
  have h2 : (c : ℚ) / t ≤ 1 := (div_le_one htq).mpr hct
  have a1 := roundToDouble_mono (by norm_num) h1
  have a2 := roundToDouble_mono (le_trans (by norm_num) h1) h2
  rw [roundToDouble_one] at a2
  have a0 : (0 : ℚ) ≤ roundToDouble (199 / 200) :=
    (roundToDouble_pos (by norm_num)).le
  have b1 := roundToDouble_mono (mul_nonneg a0 (by norm_num))
    (mul_le_mul_of_nonneg_right a1 (by norm_num : (0 : ℚ) ≤ 100))
  have b2 := roundToDouble_mono (mul_nonneg (a0.trans a1) (by norm_num))
    (show roundToDouble ((c : ℚ) / t) * 100 ≤ 100 by linarith)
  rw [roundToDouble_199_200] at b1
  rw [roundToDouble_hundred] at b2
  unfold mathRound
  rw [Int.floor_eq_iff]
  constructor
  · push_cast; linarith
  · push_cast; linarith

/-- With no more Results counted than projects assigned, the double product lies
between 0 and 100. -/
theorem pct_bounds (c t : Nat) (ht : 0 < t) (hle : c ≤ t) :
    0 ≤ mathRound (roundToDouble (roundToDouble ((c : ℚ) / t) * 100)) ∧
    mathRound (roundToDouble (roundToDouble ((c : ℚ) / t) * 100)) ≤ 100 := by
  have htq : (0 : ℚ) < (t : ℚ) := by exact_mod_cast ht
  have hcq : (0 : ℚ) ≤ (c : ℚ) := by exact_mod_cast Nat.zero_le c
  have hct : (c : ℚ) ≤ (t : ℚ) := by exact_mod_cast hle
  have h0 : (0 : ℚ) ≤ (c : ℚ) / t := div_nonneg hcq htq.le
  have h1 : (c : ℚ) / t ≤ 1 := (div_le_one htq).mpr hct
  have a0 := roundToDouble_mono (le_refl 0) h0
  have a1 := roundToDouble_mono h0 h1
  rw [roundToDouble_zero] at a0
  rw [roundToDouble_one] at a1
  have b0 := roundToDouble_mono (le_refl 0) (mul_nonneg a0 (by norm_num : (0 : ℚ) ≤ 100))
  have b1 := roundToDouble_mono (mul_nonneg a0 (by norm_num))
    (show roundToDouble ((c : ℚ) / t) * 100 ≤ 100 by linarith)
  rw [roundToDouble_zero] at b0
  rw [roundToDouble_hundred] at b1
  unfold mathRound
  constructor
  · apply Int.floor_nonneg.mpr; linarith
  · have : ⌊roundToDouble (roundToDouble ((c : ℚ) / t) * 100) + 1 / 2⌋ < 101 := by
      rw [Int.floor_lt]; push_cast; linarith
    omega

/-- C17 (counterexample): in `Sample.halfwayStore` the evaluator `EVAL-0001` is
assigned 40 projects and holds a Result for 23 of them. The exact value of
`completed / total * 100` is 57.5, which rounds to 58; the double quotient
`23 / 40` lies below 0.575, its product with 100 is 57.49999999999999, and
the progress shows 57 percent. -/
theorem C17_halfway_rounds_down :
    Eval.goToAssigned Sample.halfwayStore "EVAL-0001"
      = { total := 40, completed := 23, left := 17, pct := 57 } ∧
    (23 : ℚ) / 40 * 100 = 115 / 2 ∧
    ⌊(23 : ℚ) / 40 * 100 + 1 / 2⌋ = 58 ∧
    roundToDouble (roundToDouble ((23 : ℚ) / 40) * 100) = 115 / 2 - 1 / 2 ^ 47 := by
  decide!

/-- C17 (amended): for every store and evaluator, the progress shown by
`goToAssigned` has `total` = the size of the assigned project set
(`myProjectIds` lists that set without repetition), `completed` = the number
of Results whose evaluatorId is the evaluator and whose projectId is assigned
to the evaluator (Results for projects that are not, or no longer, assigned
are not counted), and `pct` = 0 when `total = 0`. When `total > 0`, `pct` is
`Math.round` of the double product `(completed / total) * 100`; with fewer
than `2 ^ 32` counted Results it is the exact value of
`completed / total * 100` rounded to the nearest integer, halves up, or one
less than that, and it is the former whenever the exact value does not lie
halfway between two integers. -/
theorem C17_progress_rounding (db : DB) (evalId : String) :
    (Eval.goToAssigned db evalId).total = (Eval.myProjectIds db evalId).length ∧
    (Eval.myProjectIds db evalId).Nodup ∧
    (∀ pid, pid ∈ Eval.myProjectIds db evalId ↔ assigned db evalId pid) ∧
    (Eval.goToAssigned db evalId).completed
      = (db.results.filter (fun r =>
          decide (r.evaluatorId = evalId ∧ assigned db evalId r.projectId))).length ∧
    ((Eval.goToAssigned db evalId).total = 0 → (Eval.goToAssigned db evalId).pct = 0) ∧
    (0 < (Eval.goToAssigned db evalId).total →
      (Eval.goToAssigned db evalId).pct
        = mathRound (roundToDouble (roundToDouble
            (((Eval.goToAssigned db evalId).completed : ℚ)
              / ((Eval.goToAssigned db evalId).total : ℚ)) * 100))) ∧
    (0 < (Eval.goToAssigned db evalId).total →
      (Eval.goToAssigned db evalId).completed < 2 ^ 32 →
      ⌊((Eval.goToAssigned db evalId).completed : ℚ)
          / ((Eval.goToAssigned db evalId).total : ℚ) * 100 + 1 / 2⌋ - 1
        ≤ (Eval.goToAssigned db evalId).pct ∧
      (Eval.goToAssigned db evalId).pct
        ≤ ⌊((Eval.goToAssigned db evalId).completed : ℚ)
            / ((Eval.goToAssigned db evalId).total : ℚ) * 100 + 1 / 2⌋ ∧
      ((∀ k : ℤ, ((Eval.goToAssigned db evalId).completed : ℚ)
            / ((Eval.goToAssigned db evalId).total : ℚ) * 100 ≠ k + 1 / 2) →
        (Eval.goToAssigned db evalId).pct
          = ⌊((Eval.goToAssigned db evalId).completed : ℚ)
              / ((Eval.goToAssigned db evalId).total : ℚ) * 100 + 1 / 2⌋)) := by
  have hpct : 0 < (Eval.goToAssigned db evalId).total →
      (Eval.goToAssigned db evalId).pct
        = mathRound (roundToDouble (roundToDouble
            (((Eval.goToAssigned db evalId).completed : ℚ)
              / ((Eval.goToAssigned db evalId).total : ℚ)) * 100)) := by
    intro hpos
    have hne : ¬ (Eval.myProjectIds db evalId).length = 0 := by
      simp only [Eval.goToAssigned] at hpos
      omega
    simp only [Eval.goToAssigned, hne, if_false]
  refine ⟨rfl, nodup_uniqueInOrder _, fun pid => mem_myProjectIds db evalId pid, ?_, ?_,
    hpct, ?_⟩
  · simp only [Eval.goToAssigned]
    congr 1
    apply List.filter_congr
    intro r _
    by_cases he : r.evaluatorId = evalId
    · by_cases ha : assigned db evalId r.projectId
      · have hm := (mem_myProjectIds db evalId r.projectId).mpr ha
        simp [he, ha, hm]
      · have hm : r.projectId ∉ Eval.myProjectIds db evalId :=
          fun h => ha ((mem_myProjectIds db evalId r.projectId).mp h)
        simp [he, ha, hm]
    · simp [he]
  · intro h0
    simp only [Eval.goToAssigned] at h0 ⊢
    simp [h0]
  · intro hpos hc
    rw [hpct hpos]
    exact pct_rounding _ _ hpos hc

/-- C17 (witness): in `Sample.store` the evaluator `EVAL-0001` is assigned
`PRJ-0001` and `PRJ-0002` and holds one Result, for `PRJ-0001`: the progress
is completed 1, total 2, 50 percent. -/
theorem C17_progress_rounding_witness :
    Eval.goToAssigned Sample.store "EVAL-0001"
      = { total := 2, completed := 1, left := 1, pct := 50 } ∧
    0 < (Eval.goToAssigned Sample.store "EVAL-0001").total ∧
    (Eval.goToAssigned Sample.store "EVAL-0001").completed < 2 ^ 32 ∧
    (Eval.goToAssigned Sample.store "EVAL-0001").pct
      = ⌊((Eval.goToAssigned Sample.store "EVAL-0001").completed : ℚ)
          / ((Eval.goToAssigned Sample.store "EVAL-0001").total : ℚ) * 100 + 1 / 2⌋ :=
  ⟨by decide!, by decide!, by decide!,
    ((C17_progress_rounding Sample.store "EVAL-0001").2.2.2.2.2.2 (by decide!)
      (by decide!)).2.2
      (by
        intro k h
        have h1 : (Eval.goToAssigned Sample.store "EVAL-0001").completed = 1 := by decide!
        have h2 : (Eval.goToAssigned Sample.store "EVAL-0001").total = 2 := by decide!
        rw [h1, h2] at h
        have h3 : ((100 : ℤ) : ℚ) = ((2 * k + 1 : ℤ) : ℚ) := by
          push_cast
          push_cast at h
          linarith
        have h4 : (100 : ℤ) = 2 * k + 1 := by exact_mod_cast h3
        omega)⟩

/-! ## Identifier allocation -/

theorem digitChar_isDigit : ∀ d, d < 10 → (Nat.digitChar d).isDigit = true := by decide

theorem digitChar_value : ∀ d, d < 10 → (Nat.digitChar d).toNat - '0'.toNat = d := by decide

theorem decimalValue_foldl (cs : List Char) (a : Nat) :
    cs.foldl (fun acc c => acc * 10 + (c.toNat - '0'.toNat)) a
      = a * 10 ^ cs.length + decimalValue cs := by
  unfold decimalValue
  induction cs generalizing a with
  | nil => simp
  | cons c rest ih =>
    simp only [List.foldl_cons, List.length_cons]
    rw [ih (a * 10 + (c.toNat - '0'.toNat)), ih (0 * 10 + (c.toNat - '0'.toNat))]
    ring

theorem decimalValue_cons (c : Char) (cs : List Char) :
    decimalValue (c :: cs) = (c.toNat - '0'.toNat) * 10 ^ cs.length + decimalValue cs := by
  have h := decimalValue_foldl cs (0 * 10 + (c.toNat - '0'.toNat))
  simp only [Nat.zero_mul, Nat.zero_add] at h
  simpa [decimalValue] using h

theorem decimalValue_zeros (k : Nat) (cs : List Char) :
    decimalValue (List.replicate k '0' ++ cs) = decimalValue cs := by
  induction k with
  | zero => simp
  | succ k ih =>
    rw [List.replicate_succ, List.cons_append, decimalValue_cons, ih]
    simp

theorem toDigitsCore_spec (fuel n : Nat) (ds : List Char) (hfuel : n < fuel)
    (hds : ∀ c ∈ ds, c.isDigit = true) :
    (∀ c ∈ Nat.toDigitsCore 10 fuel n ds, c.isDigit = true) ∧
    decimalValue (Nat.toDigitsCore 10 fuel n ds) = n * 10 ^ ds.length + decimalValue ds := by
  induction fuel generalizing n ds with
  | zero => omega
  | succ fuel ih =>
    have hd : n % 10 < 10 := Nat.mod_lt n (by decide)
    have hcons : ∀ c ∈ Nat.digitChar (n % 10) :: ds, c.isDigit = true := by
      intro c hc
      rcases List.mem_cons.mp hc with h | h
      · rw [h]; exact digitChar_isDigit _ hd
      · exact hds c h
    have hval : decimalValue (Nat.digitChar (n % 10) :: ds)
        = (n % 10) * 10 ^ ds.length + decimalValue ds := by
      rw [decimalValue_cons, digitChar_value _ hd]
    unfold Nat.toDigitsCore
    by_cases h0 : n / 10 = 0
    · simp only [h0, if_true]
      refine ⟨hcons, ?_⟩
      have hn : n % 10 = n := Nat.mod_eq_of_lt (by omega)
      rw [hval, hn]
    · simp only [h0, if_false]
      obtain ⟨ih1, ih2⟩ := ih (n / 10) (Nat.digitChar (n % 10) :: ds) (by omega) hcons
      refine ⟨ih1, ?_⟩
      rw [ih2, hval, List.length_cons, pow_succ]
      have hdm := Nat.div_add_mod n 10
      calc n / 10 * (10 ^ ds.length * 10) + (n % 10 * 10 ^ ds.length + decimalValue ds)
          = (10 * (n / 10) + n % 10) * 10 ^ ds.length + decimalValue ds := by ring
        _ = n * 10 ^ ds.length + decimalValue ds := by rw [hdm]

theorem decimalValue_lt (cs : List Char) (h : ∀ c ∈ cs, c.isDigit = true) :
    decimalValue cs < 10 ^ cs.length := by
  induction cs with
  | nil => simp [decimalValue]
  | cons c rest ih =>
    have hrest := ih (fun d hd => h d (List.mem_cons_of_mem _ hd))
    have hc := h c (by simp)
    have hv : c.toNat - '0'.toNat ≤ 9 := by
      simp only [Char.isDigit, Bool.and_eq_true, decide_eq_true_eq] at hc
      have h1 : c.toNat ≤ 57 := by
        have := hc.2
        exact this
      have h2 : '0'.toNat = 48 := by decide
      omega
    rw [decimalValue_cons, List.length_cons, pow_succ]
    nlinarith [hrest, hv]

theorem repr_spec (n : Nat) :
    (∀ c ∈ (toString n).data, c.isDigit = true) ∧ decimalValue (toString n).data = n ∧
    (n < 10000 → (toString n).length ≤ 4) ∧ (10000 ≤ n → 5 ≤ (toString n).length) := by
  have hdata : (toString n).data = Nat.toDigits 10 n := rfl
  obtain ⟨h1, h2⟩ := toDigitsCore_spec (n + 1) n [] (Nat.lt_succ_self n) (by simp)
  have hdig : ∀ c ∈ (toString n).data, c.isDigit = true := by
    rw [hdata]; exact h1
  have hval : decimalValue (toString n).data = n := by
    rw [hdata]
    simpa [decimalValue] using h2
  have hlt := decimalValue_lt _ hdig
  rw [hval] at hlt
  have hlen : (toString n).length = (toString n).data.length := rfl
  refine ⟨hdig, hval, ?_, ?_⟩
  · intro hn
    exact Nat.repr_length n 4 (by decide) (by simpa using hn)
  · intro hn
    rw [hlen]
    by_contra hc
    have h4 : (toString n).data.length ≤ 4 := by omega
    have hpow : 10 ^ (toString n).data.length ≤ 10 ^ 4 := Nat.pow_le_pow_right (by decide) h4
    omega

theorem padStart4_spec (n : Nat) :
    (∀ c ∈ (padStart4 (toString n)).data, c.isDigit = true) ∧
    decimalValue (padStart4 (toString n)).data = n ∧
    4 ≤ (padStart4 (toString n)).length ∧
    (n < 10000 → (padStart4 (toString n)).length = 4) ∧
    (10000 ≤ n → padStart4 (toString n) = toString n) := by
  obtain ⟨hdig, hval, hshort, hlong⟩ := repr_spec n
  have hdata : (padStart4 (toString n)).data
      = List.replicate (4 - (toString n).length) '0' ++ (toString n).data := by
    simp [padStart4, String.data_append]
  have hlen : (padStart4 (toString n)).length = (4 - (toString n).length) + (toString n).length := by
    show (padStart4 (toString n)).data.length = _
    rw [hdata, List.length_append, List.length_replicate]
    rfl
  refine ⟨?_, ?_, by omega, fun hn => ?_, fun hn => ?_⟩
  · intro c hc
    rw [hdata] at hc
    rcases List.mem_append.mp hc with h | h
    · rw [(List.mem_replicate.mp h).2]; decide
    · exact hdig c h
  · rw [hdata, decimalValue_zeros, hval]
  · have := hshort hn
    omega
  · have h5 := hlong hn
    have h0 : 4 - (toString n).length = 0 := by omega
    apply String.ext
    rw [hdata, h0]
    simp

/-- C18 (counterexample): `Sample.largeStore` holds 9999 projects, so the sequence
number is 10000 and `U.uid('project')` returns `PRJ-10000`, whose number has
five digits. -/
theorem C18_five_digit_id :
    Sample.largeStore.projects.length = 9999 ∧
    U.uid Sample.largeStore "project" = "PRJ-10000" ∧
    "10000".length = 5 := by
  have h : Sample.largeStore.projects.length = 9999 := by
    unfold Sample.largeStore
    exact List.length_replicate _ _
  refine ⟨h, ?_, by decide⟩
  simp only [U.uid, h]
  decide

/-- C18 (amended): for every store and every kind in project, evaluator, panel,
result, `U.uid(kind)` returns PREFIX + '-' + the decimal sequence number
zero-padded to at least four digits, where PREFIX is PRJ, EVAL, PNL or RES
respectively and the sequence number is the current count of entities of that
kind plus one: the part after the dash consists of decimal digits, denotes
count + 1, has exactly four characters while count + 1 is below 10000, and is
the plain decimal numeral from 10000 on. -/
theorem C18_uid_format (db : DB) (kind pfx : String) (count : Nat)
    (h : (kind, pfx, count) ∈
      [("project", "PRJ", db.projects.length), ("evaluator", "EVAL", db.evaluators.length),
       ("panel", "PNL", db.panels.length), ("result", "RES", db.results.length)]) :
    ∃ suffix : String, U.uid db kind = pfx ++ "-" ++ suffix ∧
      (∀ c ∈ suffix.data, c.isDigit = true) ∧
      decimalValue suffix.data = count + 1 ∧
      4 ≤ suffix.length ∧
      (count + 1 < 10000 → suffix.length = 4) ∧
      (10000 ≤ count + 1 → suffix = toString (count + 1)) := by
  have hu : U.uid db kind = pfx ++ "-" ++ padStart4 (toString (count + 1)) := by
    simp only [List.mem_cons, Prod.mk.injEq, List.mem_singleton, List.not_mem_nil, or_false] at h
    rcases h with ⟨rfl, rfl, rfl⟩ | ⟨rfl, rfl, rfl⟩ | ⟨rfl, rfl, rfl⟩ | ⟨rfl, rfl, rfl⟩ <;>
      simp [U.uid]
  exact ⟨padStart4 (toString (count + 1)), hu, padStart4_spec (count + 1)⟩

/-- C18 (witness): in `Sample.store`, which holds two projects, `U.uid('project')`
is `PRJ-0003`. -/
theorem C18_uid_format_witness :
    U.uid Sample.store "project" = "PRJ-0003" ∧
    ∃ suffix : String, U.uid Sample.store "project" = "PRJ" ++ "-" ++ suffix ∧
      (∀ c ∈ suffix.data, c.isDigit = true) ∧
      decimalValue suffix.data = Sample.store.projects.length + 1 ∧
      4 ≤ suffix.length ∧
      (Sample.store.projects.length + 1 < 10000 → suffix.length = 4) ∧
      (10000 ≤ Sample.store.projects.length + 1 →
        suffix = toString (Sample.store.projects.length + 1)) :=
  ⟨by decide,
    C18_uid_format Sample.store "project" "PRJ" Sample.store.projects.length (by simp)⟩

/-- C19: the count-plus-one allocator collides after a deletion. Starting from
the empty store, `editProject` creates `PRJ-0001` and `PRJ-0002`, and
`deleteProject` removes `PRJ-0001`; in the resulting store `U.uid('project')`
returns `PRJ-0002`, the id of the remaining project, and a third creation
stores a second project with that id. -/
theorem C19_uid_collides_after_deletion :
    (Admin.editProject Sample.emptyStore none ⟨"Solar Oven", "", "", "", ""⟩).2.projects.map
      (fun p => p.id) = ["PRJ-0001"] ∧
    (Admin.editProject
      (Admin.editProject Sample.emptyStore none ⟨"Solar Oven", "", "", "", ""⟩).2 none
      ⟨"Water Filter", "", "", "", ""⟩).2.projects.map (fun p => p.id)
        = ["PRJ-0001", "PRJ-0002"] ∧
    Sample.afterDeletion.projects.map (fun p => p.id) = ["PRJ-0002"] ∧
    U.uid Sample.afterDeletion "project" = "PRJ-0002" ∧
    U.uid Sample.afterDeletion "project" ∈ Sample.afterDeletion.projects.map (fun p => p.id) ∧
    (Admin.editProject Sample.afterDeletion none ⟨"Wind Mill", "", "", "", ""⟩).2.projects.map
      (fun p => (p.id, p.title)) = [("PRJ-0002", "Water Filter"), ("PRJ-0002", "Wind Mill")] := by
  decide!

/-! ## Id migration -/

theorem mem_setKey {α : Type} (s : List (String × α)) (k : String) (v : α) (e : String × α)
    (h : e ∈ setKey s k v) : e = (k, v) ∨ e ∈ s := by
  induction s with
  | nil =>
    simp only [setKey, List.mem_singleton] at h
    exact Or.inl h
  | cons a rest ih =>
    unfold setKey at h
    by_cases hk : a.1 = k
    · rw [if_pos hk] at h
      rcases List.mem_cons.mp h with h1 | h1
      · exact Or.inl h1
      · exact Or.inr (List.mem_cons_of_mem _ h1)
    · rw [if_neg hk] at h
      rcases List.mem_cons.mp h with h1 | h1
      · exact Or.inr (by simp [h1])
      · rcases ih h1 with h2 | h2
        · exact Or.inl h2
        · exact Or.inr (List.mem_cons_of_mem _ h2)

theorem setKey_of_not_mem {α : Type} (s : List (String × α)) (k : String) (v : α)
    (h : k ∉ s.map Prod.fst) : setKey s k v = s ++ [(k, v)] := by
  induction s with
  | nil => simp [setKey]
  | cons a rest ih =>
    simp only [List.map_cons, List.mem_cons, not_or] at h
    unfold setKey
    rw [if_neg (fun h2 => h.1 h2.symm), ih h.2]
    simp

theorem getKey_mem {α : Type} (s : List (String × α)) (k : String) (v : α)
    (h : getKey s k = some v) : (k, v) ∈ s := by
  induction s with
  | nil => simp [getKey] at h
  | cons a rest ih =>
    rw [getKey_cons] at h
    by_cases hk : a.1 = k
    · rw [if_pos hk] at h
      cases h
      rw [← hk]
      simp
    · rw [if_neg hk] at h
      exact List.mem_cons_of_mem _ (ih h)

theorem foldl_setKey_diagonal (pairs acc : List (String × String))
    (hacc : ∀ e ∈ acc, e.1 = e.2) (hp : ∀ e ∈ pairs, e.1 = e.2) :
    ∀ e ∈ pairs.foldl (fun m e => setKey m e.1 e.2) acc, e.1 = e.2 := by
  induction pairs generalizing acc with
  | nil => simpa using hacc
  | cons a rest ih =>
    simp only [List.foldl_cons]
    apply ih
    · intro e he
      rcases mem_setKey acc a.1 a.2 e he with h1 | h1
      · rw [h1]; exact hp a (by simp)
      · exact hacc e h1
    · intro e he
      exact hp e (List.mem_cons_of_mem _ he)

theorem remap_of_diagonal (m : List (String × String)) (hm : ∀ e ∈ m, e.1 = e.2)
    (x : String) : IDMigration.remap m x = x := by
  unfold IDMigration.remap
  cases h : getKey m x with
  | none => rfl
  | some v =>
    have hv : x = v := hm (x, v) (getKey_mem m x v h)
    simp [orElse, hv]

/-- The map built from ids that already are the new ids of their positions sends
every id to itself. -/
theorem idMap_of_migrated {α : Type} (pfx : String) (l : List α) (getId : α → String)
    (h : ∀ (i : Nat) (x : α), l[i]? = some x → getId x = IDMigration.newId pfx i) :
    ∀ e ∈ IDMigration.idMap pfx (l.map getId), e.1 = e.2 := by
  unfold IDMigration.idMap
  apply foldl_setKey_diagonal _ _ (by simp)
  intro e he
  obtain ⟨i, old, hold, rfl⟩ := mem_mapIdx _ _ _ he
  rw [List.getElem?_map] at hold
  cases hx : l[i]? with
  | none => rw [hx] at hold; cases hold
  | some x =>
    rw [hx] at hold
    simp only [Option.map_some', Option.some.injEq] at hold
    rw [← hold]
    exact h i x hx

theorem getElem?_migrate (db : DB) :
    (∀ (i : Nat) (x : Project), (IDMigration.migrate db).projects[i]? = some x →
      x.id = IDMigration.newId "PRJ" i) ∧
    (∀ (i : Nat) (x : Evaluator), (IDMigration.migrate db).evaluators[i]? = some x →
      x.id = IDMigration.newId "EVAL" i) ∧
    (∀ (i : Nat) (x : Panel), (IDMigration.migrate db).panels[i]? = some x →
      x.id = IDMigration.newId "PNL" i) := by
  refine ⟨?_, ?_, ?_⟩ <;>
  · intro i x hx
    simp only [IDMigration.migrate, List.getElem?_mapIdx] at hx
    cases hy : (_ : List _)[i]? with
    | none => rw [hy] at hx; cases hx
    | some y =>
      rw [hy] at hx
      simp only [Option.map_some', Option.some.injEq] at hx
      rw [← hx]

theorem mapIdx_idem {α : Type} (f g : Nat → α → α) (l : List α)
    (h : ∀ i x, g i (f i x) = f i x) : (l.mapIdx f).mapIdx g = l.mapIdx f := by
  apply List.ext_getElem?
  intro i
  rw [List.getElem?_mapIdx, List.getElem?_mapIdx]
  cases l[i]? with
  | none => rfl
  | some x => simp [h]

theorem keys_foldl_setKey {α : Type} (l : List (String × α)) (f : String → String)
    (acc : List (String × α)) (hacc : (acc.map Prod.fst).Nodup) :
    ((l.foldl (fun st e => setKey st (f e.1) e.2) acc).map Prod.fst).Nodup := by
  induction l generalizing acc with
  | nil => simpa using hacc
  | cons a rest ih =>
    simp only [List.foldl_cons]
    apply ih
    rw [keys_setKey]
    by_cases hk : f a.1 ∈ acc.map Prod.fst
    · rw [if_pos hk]; exact hacc
    · rw [if_neg hk]
      exact List.Nodup.append hacc (List.nodup_singleton _) (by simpa using hk)

theorem foldl_setKey_rebuild {α : Type} (l acc : List (String × α))
    (h : ((acc ++ l).map Prod.fst).Nodup) :
    l.foldl (fun st e => setKey st e.1 e.2) acc = acc ++ l := by
  induction l generalizing acc with
  | nil => simp
  | cons a rest ih =>
    simp only [List.foldl_cons]
    have hnot : a.1 ∉ acc.map Prod.fst := by
      rw [List.map_append, List.nodup_append] at h
      intro hmem
      exact h.2.2 hmem (by simp)
    rw [setKey_of_not_mem acc a.1 a.2 hnot]
    have h2 : ((acc ++ [(a.1, a.2)] ++ rest).map Prod.fst).Nodup := by
      simpa using h
    rw [ih (acc ++ [(a.1, a.2)]) h2]
    simp

/-- C20: migration is idempotent. For every store s,
`migrate(migrate(s)) = migrate(s)`: the second run changes no id and no
cross-reference in projects, evaluators, panels, results and evaluatorState
(nor anything else in the store). -/
theorem C20_migrate_idempotent (db : DB) :
    IDMigration.migrate (IDMigration.migrate db) = IDMigration.migrate db ∧
    (IDMigration.migrate (IDMigration.migrate db)).projects = (IDMigration.migrate db).projects ∧
    (IDMigration.migrate (IDMigration.migrate db)).evaluators
      = (IDMigration.migrate db).evaluators ∧
    (IDMigration.migrate (IDMigration.migrate db)).panels = (IDMigration.migrate db).panels ∧
    (IDMigration.migrate (IDMigration.migrate db)).results = (IDMigration.migrate db).results ∧
    (IDMigration.migrate (IDMigration.migrate db)).evaluatorState
      = (IDMigration.migrate db).evaluatorState := by
  obtain ⟨hP, hE, hN⟩ := getElem?_migrate db
  have dP := idMap_of_migrated "PRJ" (IDMigration.migrate db).projects (fun p => p.id) hP
  have dE := idMap_of_migrated "EVAL" (IDMigration.migrate db).evaluators (fun e => e.id) hE
  have dN := idMap_of_migrated "PNL" (IDMigration.migrate db).panels (fun p => p.id) hN
  have rP := remap_of_diagonal _ dP
  have rE := remap_of_diagonal _ dE
  have rN := remap_of_diagonal _ dN
  have hkeys : ((IDMigration.migrate db).evaluatorState.map Prod.fst).Nodup := by
    simp only [IDMigration.migrate]
    exact keys_foldl_setKey _ _ [] (by simp)
  have hmain : IDMigration.migrate (IDMigration.migrate db) = IDMigration.migrate db := by
    generalize hs : IDMigration.migrate db = s at rP rE rN hkeys
    have hproj : s.projects.mapIdx (fun idx p => { p with id := IDMigration.newId "PRJ" idx })
        = s.projects := by
      rw [← hs]
      simp only [IDMigration.migrate]
      exact mapIdx_idem _ _ _ (fun i x => rfl)
    have hev : s.evaluators.mapIdx (fun idx e => { e with id := IDMigration.newId "EVAL" idx })
        = s.evaluators := by
      rw [← hs]
      simp only [IDMigration.migrate]
      exact mapIdx_idem _ _ _ (fun i x => rfl)
    have hpan : s.panels.mapIdx (fun idx p =>
        { p with id := IDMigration.newId "PNL" idx, evaluatorIds := p.evaluatorIds
                 projectIds := p.projectIds }) = s.panels := by
      rw [← hs]
      simp only [IDMigration.migrate]
      exact mapIdx_idem _ _ _ (fun i x => rfl)
    have hres : s.results.mapIdx (fun idx r =>
        { r with id := IDMigration.newId "RES" idx, panelId := r.panelId
                 projectId := r.projectId, evaluatorId := r.evaluatorId }) = s.results := by
      rw [← hs]
      simp only [IDMigration.migrate]
      exact mapIdx_idem _ _ _ (fun i x => rfl)
    have hopt : ∀ o : Option String,
        o.map (IDMigration.remap (IDMigration.idMap "PNL" (s.panels.map (fun p => p.id)))) = o := by
      intro o
      cases o with
      | none => rfl
      | some x => simp [rN]
    have hst : s.evaluatorState.foldl (fun st e => setKey st e.1 e.2) [] = s.evaluatorState := by
      have := foldl_setKey_rebuild s.evaluatorState [] (by simpa using hkeys)
      simpa using this
    have fP : IDMigration.remap (IDMigration.idMap "PRJ" (s.projects.map (fun p => p.id))) = id :=
      funext rP
    have fE : IDMigration.remap (IDMigration.idMap "EVAL" (s.evaluators.map (fun e => e.id)))
        = id := funext rE
    unfold IDMigration.migrate
    simp only [fP, fE, rN, hopt, List.map_id, id_eq, hproj, hev, hpan, hres, hst]
  exact ⟨hmain, by rw [hmain], by rw [hmain], by rw [hmain], by rw [hmain], by rw [hmain]⟩

/-! ## Ids after migration -/

theorem String_append_left_cancel (a b c : String) (h : a ++ b = a ++ c) : b = c := by
  have h2 := congrArg String.data h
  simp only [String.data_append] at h2
  exact String.ext (List.append_cancel_left h2)

theorem newId_injective (pfx : String) (i j : Nat)
    (h : IDMigration.newId pfx i = IDMigration.newId pfx j) : i = j := by
  unfold IDMigration.newId at h
  rw [String.append_assoc, String.append_assoc] at h
  have h2 := String_append_left_cancel _ _ _ (String_append_left_cancel _ _ _ h)
  have hi := (padStart4_spec (i + 1)).2.1
  have hj := (padStart4_spec (j + 1)).2.1
  rw [h2] at hi
  omega

theorem getElem?_newIds {α : Type} (pfx : String) (l : List α) (i : Nat) :
    (l.mapIdx (fun idx (_ : α) => IDMigration.newId pfx idx))[i]?
      = if i < l.length then some (IDMigration.newId pfx i) else none := by
  rw [List.getElem?_mapIdx]
  by_cases h : i < l.length
  · rw [if_pos h, List.getElem?_eq_getElem h]; rfl
  · rw [if_neg h, List.getElem?_eq_none (by omega)]; rfl

theorem nodup_newIds {α : Type} (pfx : String) (l : List α) :
    (l.mapIdx (fun idx (_ : α) => IDMigration.newId pfx idx)).Nodup := by
  rw [List.nodup_iff_getElem?_ne_getElem?]
  intro i j hij hj
  rw [List.length_mapIdx] at hj
  rw [getElem?_newIds, getElem?_newIds, if_pos (by omega), if_pos hj]
  intro h
  have := newId_injective pfx i j (Option.some.inj h)
  omega

theorem migrate_ids (db : DB) :
    (IDMigration.migrate db).projects.map (fun p => p.id)
      = db.projects.mapIdx (fun idx _ => IDMigration.newId "PRJ" idx) ∧
    (IDMigration.migrate db).evaluators.map (fun e => e.id)
      = db.evaluators.mapIdx (fun idx _ => IDMigration.newId "EVAL" idx) ∧
    (IDMigration.migrate db).panels.map (fun p => p.id)
      = db.panels.mapIdx (fun idx _ => IDMigration.newId "PNL" idx) ∧
    (IDMigration.migrate db).results.map (fun r => r.id)
      = db.results.mapIdx (fun idx _ => IDMigration.newId "RES" idx) := by
  refine ⟨?_, ?_, ?_, ?_⟩ <;>
  · apply List.ext_getElem?
    intro i
    simp only [IDMigration.migrate, List.getElem?_map, List.getElem?_mapIdx]
    cases (_ : List _)[i]? <;> rfl

/-- The id map of a list of pairwise distinct ids is the list of pairs itself. -/
theorem idMap_of_nodup (pfx : String) (ids : List String) (h : ids.Nodup) :
    IDMigration.idMap pfx ids = ids.mapIdx (fun idx old => (old, IDMigration.newId pfx idx)) := by
  unfold IDMigration.idMap
  have hkeys : (ids.mapIdx (fun idx old => (old, IDMigration.newId pfx idx))).map Prod.fst
      = ids := by
    apply List.ext_getElem?
    intro i
    simp only [List.getElem?_map, List.getElem?_mapIdx]
    cases ids[i]? <;> rfl
  have := foldl_setKey_rebuild
    (ids.mapIdx (fun idx old => (old, IDMigration.newId pfx idx))) [] (by
      rw [List.nil_append, hkeys]; exact h)
  simpa using this

theorem remap_of_nodup (pfx : String) (ids : List String) (h : ids.Nodup) (x : String) :
    rewrittenTo ids (ids.mapIdx (fun idx _ => IDMigration.newId pfx idx)) x
      (IDMigration.remap (IDMigration.idMap pfx ids) x) := by
  have hmap := idMap_of_nodup pfx ids h
  have hkeys : (ids.mapIdx (fun idx old => (old, IDMigration.newId pfx idx))).map Prod.fst
      = ids := by
    apply List.ext_getElem?
    intro i
    simp only [List.getElem?_map, List.getElem?_mapIdx]
    cases ids[i]? <;> rfl
  constructor
  · intro i hi
    have hlt : i < ids.length := (List.getElem?_eq_some.mp hi).1
    have hmem : (x, IDMigration.newId pfx i)
        ∈ ids.mapIdx (fun idx old => (old, IDMigration.newId pfx idx)) := by
      apply List.getElem?_mem (n := i)
      rw [List.getElem?_mapIdx, hi]; rfl
    have hget := getKey_of_mem _ (x, IDMigration.newId pfx i) (by rw [hkeys]; exact h) hmem
    have hne : IDMigration.newId pfx i ≠ "" := by
      intro h0
      have := congrArg String.length h0
      simp [IDMigration.newId, String.length_append] at this
      have h4 := (padStart4_spec (i + 1)).2.2.1
      omega
    rw [getElem?_newIds, if_pos hlt]
    unfold IDMigration.remap
    rw [hmap, hget]
    simp [orElse, hne]
  · intro hx
    unfold IDMigration.remap
    have hnone : getKey (IDMigration.idMap pfx ids) x = none := by
      cases hg : getKey (IDMigration.idMap pfx ids) x with
      | none => rfl
      | some v =>
        have hm := getKey_mem _ x v hg
        rw [hmap] at hm
        have : x ∈ (ids.mapIdx (fun idx old => (old, IDMigration.newId pfx idx))).map Prod.fst :=
          List.mem_map_of_mem Prod.fst hm
        rw [hkeys] at this
        exact absurd this hx
    rw [hnone]

theorem mem_keys_foldl_setKey {α : Type} (l : List (String × α)) (f : String → String)
    (acc : List (String × α)) (k : String) :
    k ∈ (l.foldl (fun st e => setKey st (f e.1) e.2) acc).map Prod.fst ↔
      k ∈ acc.map Prod.fst ∨ ∃ e ∈ l, f e.1 = k := by
  induction l generalizing acc with
  | nil => simp
  | cons a rest ih =>
    simp only [List.foldl_cons]
    rw [ih, keys_setKey]
    by_cases hk : f a.1 ∈ acc.map Prod.fst
    · rw [if_pos hk]
      constructor
      · rintro (h | ⟨e, he, hf⟩)
        · exact Or.inl h
        · exact Or.inr ⟨e, List.mem_cons_of_mem _ he, hf⟩
      · rintro (h | ⟨e, he, hf⟩)
        · exact Or.inl h
        · rcases List.mem_cons.mp he with h1 | h1
          · subst h1; rw [← hf]; exact Or.inl hk
          · exact Or.inr ⟨e, h1, hf⟩
    · rw [if_neg hk]
      constructor
      · rintro (h | ⟨e, he, hf⟩)
        · rcases List.mem_append.mp h with h1 | h1
          · exact Or.inl h1
          · right
            simp only [List.mem_singleton] at h1
            exact ⟨a, by simp, h1.symm⟩
        · exact Or.inr ⟨e, List.mem_cons_of_mem _ he, hf⟩
      · rintro (h | ⟨e, he, hf⟩)
        · exact Or.inl (List.mem_append_left _ h)
        · rcases List.mem_cons.mp he with h1 | h1
          · subst h1; left; rw [← hf]; simp
          · exact Or.inr ⟨e, h1, hf⟩

/-- C21 (counterexample): `Sample.danglingStore` has pairwise distinct ids; its
Result refers to the deleted project `PRJ-0001`, which resolves to no project.
`migrate` gives the remaining project (Water Filter) the id `PRJ-0001` and
leaves the reference as it is, so after migration the Result refers to the
project at position 0. -/
theorem C21_dangling_reference_captured :
    (Sample.danglingStore.projects.map (fun p => p.id)).Nodup ∧
    (Sample.danglingStore.evaluators.map (fun e => e.id)).Nodup ∧
    (Sample.danglingStore.panels.map (fun p => p.id)).Nodup ∧
    (Sample.danglingStore.results.map (fun r => r.id)).Nodup ∧
    Sample.danglingStore.results.map (fun r => r.projectId) = ["PRJ-0001"] ∧
    "PRJ-0001" ∉ Sample.danglingStore.projects.map (fun p => p.id) ∧
    (IDMigration.migrate Sample.danglingStore).results.map (fun r => r.projectId)
      = ["PRJ-0001"] ∧
    (IDMigration.migrate Sample.danglingStore).projects.map (fun p => (p.id, p.title))
      = [("PRJ-0001", "Water Filter")] := by
  decide

/-- C21 (amended): for every store whose project, evaluator and panel ids are
pairwise distinct, the ids are pairwise distinct after `migrate` as well, and
every reference (each element of a Panel's `evaluatorIds` and `projectIds`,
each Result's `panelId`, `projectId` and `evaluatorId`, each EvaluatorState
key) that resolved to an entity resolves after `migrate` to the entity at the
same position of its collection; a reference that resolved to no entity is
kept as it is, so it resolves to no entity afterwards unless it happens to be
one of the new ids. -/
theorem C21_migrate_references (db : DB)
    (hP : (db.projects.map (fun p => p.id)).Nodup)
    (hE : (db.evaluators.map (fun e => e.id)).Nodup)
    (hN : (db.panels.map (fun p => p.id)).Nodup) :
    ((IDMigration.migrate db).projects.map (fun p => p.id)).Nodup ∧
    ((IDMigration.migrate db).evaluators.map (fun e => e.id)).Nodup ∧
    ((IDMigration.migrate db).panels.map (fun p => p.id)).Nodup ∧
    (∀ (j : Nat) (pa : Panel), db.panels[j]? = some pa →
      ∃ pa2, (IDMigration.migrate db).panels[j]? = some pa2 ∧
        List.Forall₂
          (rewrittenTo (db.evaluators.map (fun e => e.id))
            ((IDMigration.migrate db).evaluators.map (fun e => e.id)))
          pa.evaluatorIds pa2.evaluatorIds ∧
        List.Forall₂
          (rewrittenTo (db.projects.map (fun p => p.id))
            ((IDMigration.migrate db).projects.map (fun p => p.id)))
          pa.projectIds pa2.projectIds) ∧
    (∀ (j : Nat) (r : Result), db.results[j]? = some r →
      ∃ r2, (IDMigration.migrate db).results[j]? = some r2 ∧
        rewrittenTo (db.projects.map (fun p => p.id))
          ((IDMigration.migrate db).projects.map (fun p => p.id)) r.projectId r2.projectId ∧
        rewrittenTo (db.evaluators.map (fun e => e.id))
          ((IDMigration.migrate db).evaluators.map (fun e => e.id))
          r.evaluatorId r2.evaluatorId ∧
        (r.panelId = none → r2.panelId = none) ∧
        (∀ x, r.panelId = some x → ∃ y, r2.panelId = some y ∧
          rewrittenTo (db.panels.map (fun p => p.id))
            ((IDMigration.migrate db).panels.map (fun p => p.id)) x y)) ∧
    (∀ k ∈ db.evaluatorState.map Prod.fst,
      ∃ k2 ∈ (IDMigration.migrate db).evaluatorState.map Prod.fst,
        rewrittenTo (db.evaluators.map (fun e => e.id))
          ((IDMigration.migrate db).evaluators.map (fun e => e.id)) k k2) ∧
    (∀ k2 ∈ (IDMigration.migrate db).evaluatorState.map Prod.fst,
      ∃ k ∈ db.evaluatorState.map Prod.fst,
        rewrittenTo (db.evaluators.map (fun e => e.id))
          ((IDMigration.migrate db).evaluators.map (fun e => e.id)) k k2) := by
  obtain ⟨iP, iE, iN, _⟩ := migrate_ids db
  have lP : (db.projects.mapIdx (fun idx (_ : Project) => IDMigration.newId "PRJ" idx))
      = (db.projects.map (fun p => p.id)).mapIdx (fun idx _ => IDMigration.newId "PRJ" idx) := by
    apply List.ext_getElem?
    intro i
    simp only [List.getElem?_mapIdx, List.getElem?_map]
    cases db.projects[i]? <;> rfl
  have lE : (db.evaluators.mapIdx (fun idx (_ : Evaluator) => IDMigration.newId "EVAL" idx))
      = (db.evaluators.map (fun e => e.id)).mapIdx
          (fun idx _ => IDMigration.newId "EVAL" idx) := by
    apply List.ext_getElem?
    intro i
    simp only [List.getElem?_mapIdx, List.getElem?_map]
    cases db.evaluators[i]? <;> rfl
  have lN : (db.panels.mapIdx (fun idx (_ : Panel) => IDMigration.newId "PNL" idx))
      = (db.panels.map (fun p => p.id)).mapIdx (fun idx _ => IDMigration.newId "PNL" idx) := by
    apply List.ext_getElem?
    intro i
    simp only [List.getElem?_mapIdx, List.getElem?_map]
    cases db.panels[i]? <;> rfl
  have rP := fun x => remap_of_nodup "PRJ" (db.projects.map (fun p => p.id)) hP x
  have rE := fun x => remap_of_nodup "EVAL" (db.evaluators.map (fun e => e.id)) hE x
  have rN := fun x => remap_of_nodup "PNL" (db.panels.map (fun p => p.id)) hN x
  rw [iP, iE, iN, lP, lE, lN]
  refine ⟨nodup_newIds _ _, nodup_newIds _ _, nodup_newIds _ _, ?_, ?_, ?_, ?_⟩
  · intro j pa hj
    refine ⟨_, by simp only [IDMigration.migrate, List.getElem?_mapIdx, hj]; rfl, ?_, ?_⟩
    · simp only [List.forall₂_map_right_iff]
      exact List.forall₂_same.mpr (fun x _ => rE x)
    · simp only [List.forall₂_map_right_iff]
      exact List.forall₂_same.mpr (fun x _ => rP x)
  · intro j r hj
    refine ⟨_, by simp only [IDMigration.migrate, List.getElem?_mapIdx, hj]; rfl,
      rP _, rE _, ?_, ?_⟩
    · intro h0
      simp [h0]
    · intro x hx
      exact ⟨_, by simp only [hx, Option.map_some'], rN x⟩
  · intro k hk
    obtain ⟨e, he, rfl⟩ := List.mem_map.mp hk
    refine ⟨IDMigration.remap (IDMigration.idMap "EVAL" (db.evaluators.map (fun e => e.id))) e.1,
      ?_, rE _⟩
    simp only [IDMigration.migrate]
    rw [mem_keys_foldl_setKey]
    exact Or.inr ⟨e, he, rfl⟩
  · intro k2 hk2
    simp only [IDMigration.migrate] at hk2
    rw [mem_keys_foldl_setKey] at hk2
    rcases hk2 with h | ⟨e, he, hf⟩
    · simp at h
    · exact ⟨e.1, List.mem_map_of_mem Prod.fst he, hf ▸ rE _⟩

/-- C21 (witness): the amended claim at `Sample.staffedStore`. -/
theorem C21_migrate_references_witness :
    (Sample.staffedStore.projects.map (fun p => p.id)).Nodup ∧
    (Sample.staffedStore.evaluators.map (fun e => e.id)).Nodup ∧
    (Sample.staffedStore.panels.map (fun p => p.id)).Nodup ∧
    ((IDMigration.migrate Sample.staffedStore).projects.map (fun p => p.id)).Nodup :=
  ⟨by decide, by decide, by decide,
    (C21_migrate_references Sample.staffedStore (by decide) (by decide) (by decide)).1⟩

theorem id_of_getElem?_newIds {α : Type} (pfx : String) (l : List α) (ids : List String)
    (h : ids = l.mapIdx (fun idx (_ : α) => IDMigration.newId pfx idx)) (i : Nat) (x : String)
    (hx : ids[i]? = some x) : x = pfx ++ "-" ++ padStart4 (toString (i + 1)) := by
  rw [h, getElem?_newIds] at hx
  by_cases hi : i < l.length
  · rw [if_pos hi] at hx
    exact (Option.some.inj hx).symm
  · rw [if_neg hi] at hx
    cases hx

theorem newId_length_not_mem {α : Type} (pfx : String) (l : List α) :
    IDMigration.newId pfx l.length ∉ l.mapIdx (fun idx (_ : α) => IDMigration.newId pfx idx) := by
  intro h
  obtain ⟨i, hi⟩ := List.mem_iff_getElem?.mp h
  rw [getElem?_newIds] at hi
  by_cases hlt : i < l.length
  · rw [if_pos hlt] at hi
    have := newId_injective pfx i l.length (Option.some.inj hi)
    omega
  · rw [if_neg hlt] at hi
    cases hi

/-- C28: for every store, after `migrate` the entity at 0-based index `i` of
each collection has the id PREFIX, a dash, and the decimal numeral of `i + 1`
left-padded with zeros to four digits (`padStart(4, '0')`: the digits of the
suffix have value `i + 1`, and there are exactly four of them while
`i + 1 < 10000`); the ids within each kind are pairwise distinct; and
`U.uid(kind)` on the migrated store returns an id that no entity of that kind
holds. -/
theorem C28_migrated_ids_canonical (db : DB) :
    (∀ (i : Nat) (p : Project), (IDMigration.migrate db).projects[i]? = some p →
      p.id = "PRJ" ++ "-" ++ padStart4 (toString (i + 1))) ∧
    (∀ (i : Nat) (e : Evaluator), (IDMigration.migrate db).evaluators[i]? = some e →
      e.id = "EVAL" ++ "-" ++ padStart4 (toString (i + 1))) ∧
    (∀ (i : Nat) (p : Panel), (IDMigration.migrate db).panels[i]? = some p →
      p.id = "PNL" ++ "-" ++ padStart4 (toString (i + 1))) ∧
    (∀ (i : Nat) (r : Result), (IDMigration.migrate db).results[i]? = some r →
      r.id = "RES" ++ "-" ++ padStart4 (toString (i + 1))) ∧
    (∀ i : Nat,
      (∀ c ∈ (padStart4 (toString (i + 1))).data, c.isDigit = true) ∧
      decimalValue (padStart4 (toString (i + 1))).data = i + 1 ∧
      (i + 1 < 10000 → (padStart4 (toString (i + 1))).length = 4)) ∧
    ((IDMigration.migrate db).projects.map (fun p => p.id)).Nodup ∧
    ((IDMigration.migrate db).evaluators.map (fun e => e.id)).Nodup ∧
    ((IDMigration.migrate db).panels.map (fun p => p.id)).Nodup ∧
    ((IDMigration.migrate db).results.map (fun r => r.id)).Nodup ∧
    U.uid (IDMigration.migrate db) "project"
      ∉ (IDMigration.migrate db).projects.map (fun p => p.id) ∧
    U.uid (IDMigration.migrate db) "evaluator"
      ∉ (IDMigration.migrate db).evaluators.map (fun e => e.id) ∧
    U.uid (IDMigration.migrate db) "panel"
      ∉ (IDMigration.migrate db).panels.map (fun p => p.id) ∧
    U.uid (IDMigration.migrate db) "result"
      ∉ (IDMigration.migrate db).results.map (fun r => r.id) := by
  obtain ⟨iP, iE, iN, iR⟩ := migrate_ids db
  have uP : U.uid (IDMigration.migrate db) "project"
      = IDMigration.newId "PRJ" db.projects.length := by
    simp [U.uid, IDMigration.migrate, IDMigration.newId]
  have uE : U.uid (IDMigration.migrate db) "evaluator"
      = IDMigration.newId "EVAL" db.evaluators.length := by
    simp [U.uid, IDMigration.migrate, IDMigration.newId]
  have uN : U.uid (IDMigration.migrate db) "panel"
      = IDMigration.newId "PNL" db.panels.length := by
    simp [U.uid, IDMigration.migrate, IDMigration.newId]
  have uR : U.uid (IDMigration.migrate db) "result"
      = IDMigration.newId "RES" db.results.length := by
    simp [U.uid, IDMigration.migrate, IDMigration.newId]
  refine ⟨?_, ?_, ?_, ?_, ?_, ?_, ?_, ?_, ?_, ?_, ?_, ?_, ?_⟩
  · intro i p hp
    exact id_of_getElem?_newIds "PRJ" db.projects _ iP i p.id
      (by rw [List.getElem?_map, hp]; rfl)
  · intro i e he
    exact id_of_getElem?_newIds "EVAL" db.evaluators _ iE i e.id
      (by rw [List.getElem?_map, he]; rfl)
  · intro i p hp
    exact id_of_getElem?_newIds "PNL" db.panels _ iN i p.id
      (by rw [List.getElem?_map, hp]; rfl)
  · intro i r hr
    exact id_of_getElem?_newIds "RES" db.results _ iR i r.id
      (by rw [List.getElem?_map, hr]; rfl)
  · intro i
    have h := padStart4_spec (i + 1)
    exact ⟨h.1, h.2.1, h.2.2.2.1⟩
  · rw [iP]; exact nodup_newIds _ _
  · rw [iE]; exact nodup_newIds _ _
  · rw [iN]; exact nodup_newIds _ _
  · rw [iR]; exact nodup_newIds _ _
  · rw [iP, uP]; exact newId_length_not_mem _ _
  · rw [iE, uE]; exact newId_length_not_mem _ _
  · rw [iN, uN]; exact newId_length_not_mem _ _
  · rw [iR, uR]; exact newId_length_not_mem _ _

/-- The bulk synchronisation in terms of the push call it reaches. -/
theorem saveToGASAsBulk_of_pushed (db : DB) (token promptAnswer : Option String)
    (login push : Remote) (now : Nat) :
    saveToGASAsBulk db token promptAnswer login push now =
      match saveToGASAsBulkPushed db token promptAnswer login with
      | none => (db, token)
      | some (_, t) =>
        match push with
        | .threw _ => (db, t)
        | .replied r => if r.ok then ({ db with lastSync := some now }, t) else (db, t) := by
  unfold saveToGASAsBulk saveToGASAsBulkPushed
  by_cases hu : db.settings.gasUrl = ""
  · simp [hu]
  · simp only [hu, if_false]
    by_cases ht : token = none ∨ token = some ""
    · simp only [ht, if_true]
      cases promptAnswer with
      | none => rfl
      | some pass =>
        by_cases hp : pass = ""
        · simp [hp]
        · simp only [hp, if_false]
          cases login with
          | threw m => rfl
          | replied r =>
            by_cases hr : r.ok = true
            · simp [hr]
            · simp [hr]
    · simp only [ht, if_false]

/-- C22: for every store and every outcome of the prompt, the login exchange
and the bulk push, `saveToGASAsBulk` changes no field of the store other than
`lastSync`; it sets `lastSync` to the current time when the push call is
reached and replies ok, and in every other case (no URL, prompt cancelled or
left empty, login thrown or not ok, push thrown or not ok) the store,
`lastSync` included, is the one before. The first argument of the push call
holds exactly `settings`, `evaluators`, `projects`, `panels`, `results` and
`evaluatorState` of the current store. -/
theorem C22_bulk_sync_only_sets_lastSync (db : DB) (token promptAnswer : Option String)
    (login push : Remote) (now : Nat) :
    (∃ ls, (saveToGASAsBulk db token promptAnswer login push now).1
      = { db with lastSync := ls }) ∧
    (((saveToGASAsBulkPushed db token promptAnswer login).isSome = true ∧
        ∃ r, push = .replied r ∧ r.ok = true) →
      (saveToGASAsBulk db token promptAnswer login push now).1
        = { db with lastSync := some now }) ∧
    (¬ ((saveToGASAsBulkPushed db token promptAnswer login).isSome = true ∧
        ∃ r, push = .replied r ∧ r.ok = true) →
      (saveToGASAsBulk db token promptAnswer login push now).1 = db) ∧
    (db.settings.gasUrl = "" →
      saveToGASAsBulkPushed db token promptAnswer login = none) ∧
    ((token = none ∨ token = some "") →
      (promptAnswer = none ∨ promptAnswer = some "" ∨ (∃ m, login = .threw m) ∨
        ∃ r, login = .replied r ∧ r.ok = false) →
      saveToGASAsBulkPushed db token promptAnswer login = none) ∧
    (∀ (snap : Snapshot) (t : Option String),
      saveToGASAsBulkPushed db token promptAnswer login = some (snap, t) →
      snap.settings = db.settings ∧ snap.evaluators = db.evaluators ∧
      snap.projects = db.projects ∧ snap.panels = db.panels ∧
      snap.results = db.results ∧ snap.evaluatorState = db.evaluatorState) := by
  have key := saveToGASAsBulk_of_pushed db token promptAnswer login push now
  refine ⟨saveToGASAsBulk_frame db token promptAnswer login push now, ?_, ?_, ?_, ?_, ?_⟩
  · rintro ⟨hs, r, rfl, hr⟩
    rw [key]
    cases hq : saveToGASAsBulkPushed db token promptAnswer login with
    | none => rw [hq] at hs; cases hs
    | some v => simp [hr]
  · intro hn
    rw [key]
    cases hq : saveToGASAsBulkPushed db token promptAnswer login with
    | none => rfl
    | some v =>
      cases push with
      | threw m => rfl
      | replied r =>
        by_cases hr : r.ok = true
        · exact absurd ⟨by rw [hq]; rfl, r, rfl, hr⟩ hn
        · simp [hr]
  · intro hu
    simp [saveToGASAsBulkPushed, hu]
  · intro ht hc
    unfold saveToGASAsBulkPushed
    by_cases hu : db.settings.gasUrl = ""
    · simp [hu]
    · simp only [hu, if_false, ht, if_true]
      rcases hc with h | h | ⟨m, h⟩ | ⟨r, h, hr⟩
      · subst h; rfl
      · subst h; rfl
      · subst h
        cases promptAnswer with
        | none => rfl
        | some pass => by_cases hp : pass = "" <;> simp [hp]
      · subst h
        cases promptAnswer with
        | none => rfl
        | some pass => by_cases hp : pass = "" <;> simp [hp, hr]
  · intro snap t h
    unfold saveToGASAsBulkPushed at h
    by_cases hu : db.settings.gasUrl = ""
    · simp [hu] at h
    · simp only [hu, if_false] at h
      split at h
      · cases h
      · simp only [Option.some.injEq, Prod.mk.injEq] at h
        obtain ⟨h1, _⟩ := h
        subst h1
        exact ⟨rfl, rfl, rfl, rfl, rfl, rfl⟩

/-- C22 (witness): on `Sample.onlineStore`, without a session token, the password
is entered, the login and the push reply ok: `lastSync` becomes the current
time and nothing else changes. -/
theorem C22_bulk_sync_only_sets_lastSync_witness :
    (saveToGASAsBulk Sample.onlineStore none (some "secret")
        (.replied { ok := true, token := some "tok", error := none })
        (.replied { ok := true, token := none, error := none }) 7).1
      = { Sample.onlineStore with lastSync := some 7 } :=
  (C22_bulk_sync_only_sets_lastSync Sample.onlineStore none (some "secret")
    (.replied { ok := true, token := some "tok", error := none })
    (.replied { ok := true, token := none, error := none }) 7).2.1
    ⟨by decide, _, rfl, rfl⟩

/-- The upsert writes the first position that holds the id of the new record. -/
theorem storeResult_first (rs : List Result) (x : Result) (h : ∃ y ∈ rs, y.id = x.id) :
    ∃ (i : Nat) (y : Result), rs[i]? = some y ∧ y.id = x.id ∧
      (∀ (j : Nat) (z : Result), j < i → rs[j]? = some z → z.id ≠ x.id) ∧
      storeResult rs x = rs.set i x := by
  induction rs with
  | nil => obtain ⟨y, hy, _⟩ := h; cases hy
  | cons a rest ih =>
    rw [storeResult_cons]
    by_cases ha : a.id = x.id
    · refine ⟨0, a, by simp, ha, ?_, ?_⟩
      · intro j z hj; omega
      · rw [if_pos ha]; rfl
    · rw [if_neg ha]
      obtain ⟨y, hy, hyx⟩ := h
      have hy2 : y ∈ rest := by
        rcases List.mem_cons.mp hy with h1 | h1
        · subst h1; exact absurd hyx ha
        · exact h1
      obtain ⟨i, y2, hi, hid, hfirst, hset⟩ := ih ⟨y, hy2, hyx⟩
      refine ⟨i + 1, y2, by simpa using hi, hid, ?_, ?_⟩
      · intro j z hj hz
        cases j with
        | zero =>
          simp only [List.getElem?_cons_zero, Option.some.injEq] at hz
          subst hz; exact ha
        | succ k =>
          simp only [List.getElem?_cons_succ] at hz
          exact hfirst k z (by omega) hz
      · rw [hset]; rfl

/-- C23: for every store, every Result `r`, and every outcome of the remote push
(reply, failure, or no endpoint configured), `saveResultToGAS` completes
without raising and yields the same store in all cases: `DB.results` has `r`
in place of the first record with the id of `r` when there is one (the other
positions are as before), and `r` appended when there is none; no other field
of the store changes. -/
theorem C23_saveResultToGAS_local_write (db : DB) (baseUrl : String) (r : Result)
    (net : Remote) :
    saveResultToGASRun db baseUrl r net = .ok (saveResultToGAS db r net) ∧
    saveResultToGAS db r net = { db with results := storeResult db.results r } ∧
    ((∀ y ∈ db.results, y.id ≠ r.id) →
      (saveResultToGAS db r net).results = db.results ++ [r]) ∧
    ((∃ y ∈ db.results, y.id = r.id) →
      ∃ (i : Nat) (y : Result), db.results[i]? = some y ∧ y.id = r.id ∧
        (∀ (j : Nat) (z : Result), j < i → db.results[j]? = some z → z.id ≠ r.id) ∧
        (saveResultToGAS db r net).results = db.results.set i r ∧
        (saveResultToGAS db r net).results[i]? = some r ∧
        (saveResultToGAS db r net).results.length = db.results.length ∧
        ∀ j : Nat, j ≠ i → (saveResultToGAS db r net).results[j]? = db.results[j]?) := by
  refine ⟨?_, rfl, ?_, ?_⟩
  · unfold saveResultToGASRun GAS_API.pushResult
    by_cases hu : db.settings.gasUrl = ""
    · simp only [hu, if_true, saveResultToGAS]
      rfl
    · by_cases hb : baseUrl = ""
      · simp only [hu, hb, if_true, if_false, saveResultToGAS]
        rfl
      · cases net <;>
        · simp only [hu, hb, if_false, saveResultToGAS, Remote.await]
          rfl
  · intro h
    exact storeResult_append_of_fresh db.results r h
  · intro h
    obtain ⟨i, y, hi, hid, hfirst, hset⟩ := storeResult_first db.results r h
    have hlt : i < db.results.length := by
      by_contra hn
      rw [List.getElem?_eq_none (by omega)] at hi
      cases hi
    refine ⟨i, y, hi, hid, hfirst, hset, ?_, ?_, ?_⟩
    · show (storeResult db.results r)[i]? = some r
      rw [hset, List.getElem?_set_self hlt]
    · show (storeResult db.results r).length = db.results.length
      rw [hset, List.length_set]
    · intro j hj
      show (storeResult db.results r)[j]? = db.results[j]?
      rw [hset, List.getElem?_set_ne (Ne.symm hj)]

/-- C23 (witness): pushing a second version of `RES-0001` to `Sample.store`
while the request fails replaces the stored record and raises nothing. -/
theorem C23_saveResultToGAS_local_write_witness :
    (∃ y ∈ Sample.store.results, y.id = Sample.result1b.id) ∧
    saveResultToGASRun Sample.store "" Sample.result1b (.threw "offline")
      = .ok (saveResultToGAS Sample.store Sample.result1b (.threw "offline")) :=
  ⟨⟨Sample.result1, by decide, by decide⟩,
    (C23_saveResultToGAS_local_write Sample.store "" Sample.result1b (.threw "offline")).1⟩

/-- C24 (counterexample): `Sample.onlineStore` fetches `Sample.remoteData`, whose
`settings` object holds the key `eventTitle` only. After the load the
collections are those of the dataset, but the settings are not replaced by the
fetched object: `adminPass`, `subtitle` and `gasUrl`, which the dataset does
not hold, keep their local value. -/
theorem C24_settings_are_merged_not_replaced :
    Sample.remoteData.settings.map (fun s => (s.eventTitle, s.subtitle, s.adminPass, s.gasUrl))
      = some (some "Science Fair", none, none, none) ∧
    attemptLoadFromGAS Sample.onlineStore "" (.json (some Sample.remoteData)) 5
      = .ok
        ({ settings :=
              { eventTitle := "Science Fair", subtitle := "Project Evaluation System"
                welcomeTitle := "Welcome", welcomeBody := "Please read the instructions."
                logoUrl := "", adminPass := "admin123", gasUrl := "https://gas.example/exec" }
           evaluators := Sample.staff, projects := [], panels := [], results := []
           evaluatorState := [], lastSync := some 5 },
         "https://gas.example/exec") :=
  ⟨by decide, rfl⟩

/-- C24 (amended): `attemptLoadFromGAS` never raises. When an endpoint is
configured and the fetch yields a dataset `d`, afterwards `evaluators`,
`projects`, `panels`, `results` and `evaluatorState` are those of `d` (the
empty collection for one that `d` does not hold), every settings key that
`d.settings` holds has the value of `d` while every other settings key keeps
its local value, and `lastSync` is the current time. When no endpoint is
configured, the fetch fails, or the fetched body is `null`, the store is left
exactly as it was. -/
theorem C24_load_merges_settings (db : DB) (baseUrl : String) (net : Fetched) (now : Nat) :
    ∃ out : DB,
      attemptLoadFromGAS db baseUrl net now
        = .ok (out, if db.settings.gasUrl = "" then baseUrl else db.settings.gasUrl) ∧
      (∀ d : Dataset, (if db.settings.gasUrl = "" then baseUrl else db.settings.gasUrl) ≠ "" →
        net = .json (some d) →
        out.evaluators = d.evaluators.getD [] ∧
        out.projects = d.projects.getD [] ∧
        out.panels = d.panels.getD [] ∧
        out.results = d.results.getD [] ∧
        out.evaluatorState = d.evaluatorState.getD [] ∧
        out.lastSync = some now ∧
        (d.settings = none → out.settings = db.settings) ∧
        (∀ sd : SettingsData, d.settings = some sd →
          out.settings.eventTitle = sd.eventTitle.getD db.settings.eventTitle ∧
          out.settings.subtitle = sd.subtitle.getD db.settings.subtitle ∧
          out.settings.welcomeTitle = sd.welcomeTitle.getD db.settings.welcomeTitle ∧
          out.settings.welcomeBody = sd.welcomeBody.getD db.settings.welcomeBody ∧
          out.settings.logoUrl = sd.logoUrl.getD db.settings.logoUrl ∧
          out.settings.adminPass = sd.adminPass.getD db.settings.adminPass ∧
          out.settings.gasUrl = sd.gasUrl.getD db.settings.gasUrl)) ∧
      (((if db.settings.gasUrl = "" then baseUrl else db.settings.gasUrl) = "" ∨
          net = .json none ∨ ∃ m, net = .threw m) →
        out = db) := by
  unfold attemptLoadFromGAS GAS_API.getData
  generalize (if db.settings.gasUrl = "" then baseUrl else db.settings.gasUrl) = base
  by_cases hb : base = ""
  · refine ⟨db, ?_, ?_, ?_⟩
    · simp only [hb, if_true]; rfl
    · intro d hne; exact absurd hb hne
    · intro _; rfl
  · cases net with
    | threw m =>
      refine ⟨db, ?_, ?_, ?_⟩
      · simp only [hb, if_false]; rfl
      · intro d _ h; cases h
      · intro _; rfl
    | json data =>
      cases data with
      | none =>
        refine ⟨db, ?_, ?_, ?_⟩
        · simp only [hb, if_false]; rfl
        · intro d _ h; cases h
        · intro _; rfl
      | some d0 =>
        refine ⟨{ settings := match d0.settings with
                    | some sd => objectAssign db.settings sd
                    | none => db.settings
                  evaluators := d0.evaluators.getD [], projects := d0.projects.getD []
                  panels := d0.panels.getD [], results := d0.results.getD []
                  evaluatorState := d0.evaluatorState.getD [], lastSync := some now }, ?_, ?_, ?_⟩
        · simp only [hb, if_false]; rfl
        · intro d _ h
          simp only [Fetched.json.injEq, Option.some.injEq] at h
          subst h
          refine ⟨rfl, rfl, rfl, rfl, rfl, rfl, ?_, ?_⟩
          · intro hs; simp only [hs]
          · intro sd hs
            simp [hs, objectAssign]
        · rintro (h | h | ⟨m, h⟩)
          · exact absurd h hb
          · cases h
          · cases h

/-- C24 (witness): the load of `Sample.remoteData` into `Sample.onlineStore`
replaces the evaluators by those of the dataset. -/
theorem C24_load_merges_settings_witness :
    ∃ out : DB,
      attemptLoadFromGAS Sample.onlineStore "" (.json (some Sample.remoteData)) 5
        = .ok (out, "https://gas.example/exec") ∧
      out.evaluators = Sample.staff ∧ out.settings.adminPass = "admin123" := by
  obtain ⟨out, h1, h2, _⟩ :=
    C24_load_merges_settings Sample.onlineStore "" (.json (some Sample.remoteData)) 5
  obtain ⟨he, _, _, _, _, _, _, hs⟩ := h2 Sample.remoteData (by decide) rfl
  exact ⟨out, h1, he, (hs _ rfl).2.2.2.2.2.1⟩

theorem pair_sublist_of_getElem? {α : Type} (l : List α) (i j : Nat) (a b : α)
    (hij : i < j) (ha : l[i]? = some a) (hb : l[j]? = some b) : [a, b].Sublist l := by
  induction l generalizing i j with
  | nil => simp at ha
  | cons x rest ih =>
    cases j with
    | zero => omega
    | succ k =>
      simp only [List.getElem?_cons_succ] at hb
      cases i with
      | zero =>
        simp only [List.getElem?_cons_zero, Option.some.injEq] at ha
        subst ha
        exact List.Sublist.cons₂ _ (List.singleton_sublist.mpr (List.getElem?_mem hb))
      | succ m =>
        simp only [List.getElem?_cons_succ] at ha
        exact List.Sublist.cons _ (ih m k (by omega) ha hb)

/-- A stable sort keeps the order of the elements that its comparator ties. -/
theorem filter_insertionSort_of_tied {α : Type} (r : α → α → Prop) [DecidableRel r]
    (keep : α → Bool) (l : List α) (h : ∀ a b, keep a = true → keep b = true → r a b) :
    (l.insertionSort r).filter keep = l.filter keep := by
  have hpw : (l.filter keep).Pairwise r := by
    rw [List.pairwise_iff_forall_sublist]
    intro a b hab
    have ha : a ∈ l.filter keep := hab.subset (by simp)
    have hb : b ∈ l.filter keep := hab.subset (by simp)
    exact h a b (List.mem_filter.mp ha).2 (List.mem_filter.mp hb).2
  have hsub : (l.filter keep).Sublist (l.insertionSort r) :=
    List.sublist_insertionSort hpw (List.filter_sublist l)
  have hsub2 : (l.filter keep).Sublist ((l.insertionSort r).filter keep) := by
    have := hsub.filter keep
    simpa [List.filter_filter] using this
  have hlen : ((l.insertionSort r).filter keep).length = (l.filter keep).length :=
    ((List.perm_insertionSort r l).filter keep).length_eq
  exact (hsub2.eq_of_length hlen.symm).symm

/-- C25: for every store, the ranking of `Admin.scores` breaks ties by the
order of `DB.projects`: when the project at position `i` and the project at a
later position `j` have equal `averageScore`, the row of the first stands
before the row of the second in the ranking; and for every value `v`, the rows
of the ranking with `averageScore = v` are, in this order, the rows of the
projects with that average in the order of `DB.projects`. -/
theorem C25_ranking_ties_keep_project_order (db : DB) :
    (∀ (i j : Nat) (p q : Project), i < j →
      db.projects[i]? = some p → db.projects[j]? = some q →
      (Admin.projectScore db p).averageScore = (Admin.projectScore db q).averageScore →
      [Admin.projectScore db p, Admin.projectScore db q].Sublist (Admin.scores db)) ∧
    (∀ v : ℚ,
      (Admin.scores db).filter (fun s => decide (s.averageScore = v))
        = (db.projects.map (Admin.projectScore db)).filter
            (fun s => decide (s.averageScore = v))) := by
  constructor
  · intro i j p q hij hp hq heq
    have h1 : [p, q].Sublist db.projects := pair_sublist_of_getElem? _ i j p q hij hp hq
    have h2 : [Admin.projectScore db p, Admin.projectScore db q].Sublist
        (Admin.projectScores db) := h1.map (Admin.projectScore db)
    exact List.pair_sublist_insertionSort
      (show Admin.keepsOrder _ _ by unfold Admin.keepsOrder; rw [heq]; simp) h2
  · intro v
    apply filter_insertionSort_of_tied
    intro a b ha hb
    simp only [decide_eq_true_eq] at ha hb
    unfold Admin.keepsOrder
    rw [ha, hb]
    simp

/-- C25 (witness): in `Sample.store` without its Result both projects have the
average 0, and Solar Oven, entered first, is ranked first. -/
theorem C25_ranking_ties_keep_project_order_witness :
    [Admin.projectScore { Sample.store with results := [] }
        ⟨"PRJ-0001", "Solar Oven", "", "", "", ""⟩,
      Admin.projectScore { Sample.store with results := [] }
        ⟨"PRJ-0002", "Water Filter", "", "", "", ""⟩].Sublist
      (Admin.scores { Sample.store with results := [] }) :=
  (C25_ranking_ties_keep_project_order { Sample.store with results := [] }).1 0 1
    ⟨"PRJ-0001", "Solar Oven", "", "", "", ""⟩ ⟨"PRJ-0002", "Water Filter", "", "", "", ""⟩
    (by decide) rfl rfl (by decide!)

theorem openRubricModal_id_of_no_prior {db : DB} {evalId projectId : String}
    (now : Nat) (h : Eval.prior db evalId projectId = none) :
    (Eval.openRubricModal db evalId projectId now).id = U.uid db "result" := by
  simp [Eval.openRubricModal, h]

/-- C26 (counterexample): `Sample.collidingStore` holds one Result, `RES-0002` of
`EVAL-0002` for `PRJ-0001`. `EVAL-0001` has no Result for `PRJ-0002`; the draft
opened for that pair gets the id `U.uid('result') = RES-0002`, and saving it
(by any of the three paths) overwrites the Result of the other pair: the
number of Results stays 1 and the record of `EVAL-0002` is gone. -/
theorem C26_new_result_overwrites_other_pair :
    Eval.prior Sample.collidingStore "EVAL-0001" "PRJ-0002" = none ∧
    Sample.collidingStore.results = [Sample.result2] ∧
    (Eval.openRubricModal Sample.collidingStore "EVAL-0001" "PRJ-0002" 2000).id = "RES-0002" ∧
    (Eval.saveFromModal Sample.collidingStore
      (Eval.openRubricModal Sample.collidingStore "EVAL-0001" "PRJ-0002" 2000)
      Sample.tenModal).accepted = true ∧
    (Eval.saveFromModal Sample.collidingStore
      (Eval.openRubricModal Sample.collidingStore "EVAL-0001" "PRJ-0002" 2000)
      Sample.tenModal).db.results.map (fun r => (r.id, r.projectId, r.evaluatorId))
      = [("RES-0002", "PRJ-0002", "EVAL-0001")] ∧
    (Eval.reviewThenSaveDraft Sample.collidingStore
      (Eval.openRubricModal Sample.collidingStore "EVAL-0001" "PRJ-0002" 2000)
      Sample.tenModal).results.map (fun r => (r.id, r.projectId, r.evaluatorId))
      = [("RES-0002", "PRJ-0002", "EVAL-0001")] ∧
    (Eval.reviewThenSubmit Sample.collidingStore
      (Eval.openRubricModal Sample.collidingStore "EVAL-0001" "PRJ-0002" 2000)
      Sample.tenModal 2001 (.threw "offline")).results.map
        (fun r => (r.id, r.projectId, r.evaluatorId))
      = [("RES-0002", "PRJ-0002", "EVAL-0001")] := by
  decide!

/-- C26 (amended): for every store in which no Result holds the id that
`U.uid('result')` returns, and every (evaluator, project) pair that has no
Result, saving the draft built by `openRubricModal` for the pair through a
dialog that passes validation (`saveFromModal`, or the review step followed by
`saveDraftOnly` or `submitDraft`) appends one Result of that pair to
`DB.results`: the number of Results grows by exactly one and every Result
stored before is kept, at its position and unchanged. -/
theorem C26_new_result_is_appended (db : DB) (evalId projectId : String) (now now2 : Nat)
    (m : RubricModal) (push : Remote)
    (hprior : Eval.prior db evalId projectId = none)
    (hfresh : ∀ r ∈ db.results, r.id ≠ U.uid db "result")
    (hm : allInputsInRange m) :
    (∃ x : Result, x.projectId = projectId ∧ x.evaluatorId = evalId ∧
      (Eval.saveFromModal db (Eval.openRubricModal db evalId projectId now) m).db.results
        = db.results ++ [x]) ∧
    (∃ x : Result, x.projectId = projectId ∧ x.evaluatorId = evalId ∧
      (Eval.reviewThenSaveDraft db (Eval.openRubricModal db evalId projectId now) m).results
        = db.results ++ [x]) ∧
    (∃ x : Result, x.projectId = projectId ∧ x.evaluatorId = evalId ∧
      (Eval.reviewThenSubmit db (Eval.openRubricModal db evalId projectId now) m now2
        push).results = db.results ++ [x]) := by
  have hid := openRubricModal_id_of_no_prior now hprior
  have hpj := openRubricModal_projectId db evalId projectId now
  have hev := openRubricModal_evaluatorId db evalId projectId now
  have hacc : (Eval.readInputs (Eval.openRubricModal db evalId projectId now).scores
      m.inputs).1 = true := (accepted_iff _ m).mpr hm
  refine ⟨?_, ?_, ?_⟩
  · have hk := saveFromModal_keeps db (Eval.openRubricModal db evalId projectId now) m
    have ha := (saveFromModal_accepted db (Eval.openRubricModal db evalId projectId now) m).1
    refine ⟨_, hk.2.1.trans hpj, hk.2.2.1.trans hev, ?_⟩
    rw [(saveFromModal_db db _ m).1 (ha.trans hacc)]
    apply storeResult_append_of_fresh
    intro y hy
    rw [hk.1, hid]
    exact hfresh y hy
  · have hk := prepareReview_keeps db (Eval.openRubricModal db evalId projectId now) m
    have ha := (prepareReview_accepted db (Eval.openRubricModal db evalId projectId now) m).1
    refine ⟨_, hk.2.1.trans hpj, hk.2.2.1.trans hev, ?_⟩
    rw [(reviewThenSaveDraft_results db _ m).1 (ha.trans hacc)]
    apply storeResult_append_of_fresh
    intro y hy
    rw [hk.1, hid]
    exact hfresh y hy
  · have hk := prepareReview_keeps db (Eval.openRubricModal db evalId projectId now) m
    have ha := (prepareReview_accepted db (Eval.openRubricModal db evalId projectId now) m).1
    refine ⟨{ (Eval.prepareReviewFromModal db
        (Eval.openRubricModal db evalId projectId now) m).draft with ts := now2 },
      hk.2.1.trans hpj, hk.2.2.1.trans hev, ?_⟩
    rw [(reviewThenSubmit_results db _ m now2 push).1 (ha.trans hacc)]
    apply storeResult_append_of_fresh
    intro y hy
    show y.id ≠ (Eval.prepareReviewFromModal db
        (Eval.openRubricModal db evalId projectId now) m).draft.id
    rw [hk.1, hid]
    exact hfresh y hy

/-- C26 (witness): in `Sample.store`, `EVAL-0001` has no Result for `PRJ-0002` and
`RES-0002` is not taken; the save appends. -/
theorem C26_new_result_is_appended_witness :
    Eval.prior Sample.store "EVAL-0001" "PRJ-0002" = none ∧
    (∀ r ∈ Sample.store.results, r.id ≠ U.uid Sample.store "result") ∧
    allInputsInRange Sample.tenModal ∧
    ∃ x : Result, x.projectId = "PRJ-0002" ∧ x.evaluatorId = "EVAL-0001" ∧
      (Eval.saveFromModal Sample.store
        (Eval.openRubricModal Sample.store "EVAL-0001" "PRJ-0002" 2000)
        Sample.tenModal).db.results = Sample.store.results ++ [x] :=
  ⟨by decide, by decide!, by
      intro k _
      exact ⟨10, rfl, by norm_num, by norm_num⟩,
    (C26_new_result_is_appended Sample.store "EVAL-0001" "PRJ-0002" 2000 0 Sample.tenModal
      (.threw "offline") (by decide) (by decide!)
      (by
        intro k _
        exact ⟨10, rfl, by norm_num, by norm_num⟩)).1⟩

/-- C27 (code bug): a rejected edit of an existing entity is not atomic. On
`Sample.store`, saving the dialog of project `PRJ-0001` with an empty title is
rejected, yet the stored project has lost its title; on
`Sample.staffedStore`, saving the dialog of evaluator `EVAL-0001` with empty
name and email is rejected, yet the stored evaluator has lost both; on
`Sample.store`, saving the dialog of panel `PNL-0001` with two evaluators and
no project is rejected, yet the stored panel now has two evaluators and no
project. The same rejected input in the dialogs that add a new entity leaves
the store as it was. -/
theorem C27_rejected_edit_changes_store :
    (Admin.editProject Sample.store (some "PRJ-0001") ⟨"", "", "", "", ""⟩).1 = false ∧
    (Admin.editProject Sample.store (some "PRJ-0001") ⟨"", "", "", "", ""⟩).2 ≠ Sample.store ∧
    Sample.store.projects.map (fun p => (p.id, p.title))
      = [("PRJ-0001", "Solar Oven"), ("PRJ-0002", "Water Filter")] ∧
    (Admin.editProject Sample.store (some "PRJ-0001") ⟨"", "", "", "", ""⟩).2.projects.map
        (fun p => (p.id, p.title))
      = [("PRJ-0001", ""), ("PRJ-0002", "Water Filter")] ∧
    (Admin.editEvaluator Sample.staffedStore (some "EVAL-0001") ⟨"", "", "", "", ""⟩).1
      = false ∧
    (Admin.editEvaluator Sample.staffedStore (some "EVAL-0001") ⟨"", "", "", "", ""⟩).2
      ≠ Sample.staffedStore ∧
    (Admin.editEvaluator Sample.staffedStore (some "EVAL-0001")
        ⟨"", "", "", "", ""⟩).2.evaluators.map (fun e => (e.id, e.name, e.email))
      = [("EVAL-0001", "", ""), ("EVAL-0002", "Ben", "ben@example.org"),
          ("EVAL-0003", "Cy", "cy@example.org")] ∧
    panelInvariant Sample.store ∧
    (Admin.editPanel Sample.store (some "PNL-0001") "Panel 1" ["EVAL-0001", "EVAL-0002"]
      []).1 = false ∧
    (Admin.editPanel Sample.store (some "PNL-0001") "Panel 1" ["EVAL-0001", "EVAL-0002"]
        []).2.panels.map (fun pa => (pa.id, pa.evaluatorIds, pa.projectIds))
      = [("PNL-0001", ["EVAL-0001", "EVAL-0002"], [])] ∧
    ¬ panelInvariant
      (Admin.editPanel Sample.store (some "PNL-0001") "Panel 1" ["EVAL-0001", "EVAL-0002"]
        []).2 ∧
    Admin.editProject Sample.store none ⟨"", "", "", "", ""⟩ = (false, Sample.store) ∧
    Admin.editEvaluator Sample.staffedStore none ⟨"", "", "", "", ""⟩
      = (false, Sample.staffedStore) ∧
    Admin.editPanel Sample.store none "Panel 2" ["EVAL-0001", "EVAL-0002"] []
      = (false, Sample.store) := by
  decide!

/-- With at most one Result per pair, the Results that `goToAssigned` counts are
no more than the assigned projects. -/
theorem completed_le_total (db : DB) (evalId : String) (h : atMostOnePerPair db.results) :
    (Eval.goToAssigned db evalId).completed ≤ (Eval.goToAssigned db evalId).total := by
  show (db.results.filter (fun r => r.evaluatorId == evalId &&
      (Eval.myProjectIds db evalId).contains r.projectId)).length
    ≤ (Eval.myProjectIds db evalId).length
  have hpw : (db.results.filter (fun r => r.evaluatorId == evalId &&
      (Eval.myProjectIds db evalId).contains r.projectId)).Pairwise
        (fun a b => ¬ samePair a b) := List.Pairwise.sublist (List.filter_sublist _) h
  have hnd : ((db.results.filter (fun r => r.evaluatorId == evalId &&
      (Eval.myProjectIds db evalId).contains r.projectId)).map
        (fun r => r.projectId)).Nodup := by
    rw [List.Nodup, List.pairwise_map]
    refine List.Pairwise.imp_of_mem ?_ hpw
    intro a b ha hb hab heq
    have ha2 := (List.mem_filter.mp ha).2
    have hb2 := (List.mem_filter.mp hb).2
    simp only [Bool.and_eq_true, beq_iff_eq] at ha2 hb2
    exact hab ⟨heq, ha2.1.trans hb2.1.symm⟩
  have hsub : (db.results.filter (fun r => r.evaluatorId == evalId &&
      (Eval.myProjectIds db evalId).contains r.projectId)).map (fun r => r.projectId)
        ⊆ Eval.myProjectIds db evalId := by
    intro x hx
    obtain ⟨r, hr, rfl⟩ := List.mem_map.mp hx
    have hr2 := (List.mem_filter.mp hr).2
    simp only [Bool.and_eq_true] at hr2
    simpa using hr2.2
  have := (List.subperm_of_subset hnd hsub).length_le
  simpa using this

theorem toString_nat_injective (a b : Nat) (h : toString a = toString b) : a = b := by
  have ha := (repr_spec a).2.1
  have hb := (repr_spec b).2.1
  rw [h] at ha
  omega

theorem uniqueInOrder_foldl_of_nodup (xs acc : List String) (h : (acc ++ xs).Nodup) :
    xs.foldl (fun acc x => if x ∈ acc then acc else acc ++ [x]) acc = acc ++ xs := by
  induction xs generalizing acc with
  | nil => simp
  | cons x rest ih =>
    have hx : x ∉ acc := by
      intro hmem
      have := List.nodup_append.mp h
      exact this.2.2 hmem (List.mem_cons_self x rest) 
    simp only [List.foldl_cons, if_neg hx]
    rw [ih (acc ++ [x]) (by simpa using h)]
    simp

theorem uniqueInOrder_of_nodup (xs : List String) (h : xs.Nodup) : uniqueInOrder xs = xs := by
  unfold uniqueInOrder
  rw [uniqueInOrder_foldl_of_nodup xs [] (by simpa using h)]
  simp

theorem wideStore_myProjectIds :
    Eval.myProjectIds Sample.wideStore "EVAL-0001"
      = (List.range 200).map (fun i => toString i) := by
  have hnd : ((List.range 200).map (fun i => toString i)).Nodup :=
    (List.nodup_range 200).map (fun a b h => toString_nat_injective a b h)
  have hp : Eval.myPanels Sample.wideStore "EVAL-0001"
      = [{ id := "PNL-0001", name := "Panel 1"
           evaluatorIds := ["EVAL-0001", "EVAL-0002", "EVAL-0003"]
           projectIds := (List.range 200).map (fun i => toString i) }] := rfl
  unfold Eval.myProjectIds
  rw [hp]
  simp only [List.flatMap_cons, List.flatMap_nil, List.append_nil]
  exact uniqueInOrder_of_nodup _ hnd

theorem wideStore_results :
    Sample.wideStore.results = (List.range 199).map (fun i =>
      ({ id := "R" ++ toString i, panelId := some "PNL-0001", projectId := toString i
         evaluatorId := "EVAL-0001", scores := [], remark := "", total := 0, ts := 1
         finalizedByEvaluator := false } : Result)) := rfl

/-- C29 (counterexample): `Sample.wideStore` holds at most one Result per pair;
`EVAL-0001` is assigned 200 projects and has a Result for 199 of them. The
progress shows 199 of 200 completed, 1 left, and 100 percent. -/
theorem C29_hundred_percent_with_one_left :
    atMostOnePerPair Sample.wideStore.results ∧
    Eval.goToAssigned Sample.wideStore "EVAL-0001"
      = { total := 200, completed := 199, left := 1, pct := 100 } := by
  have hT : (Eval.myProjectIds Sample.wideStore "EVAL-0001").length = 200 := by
    rw [wideStore_myProjectIds, List.length_map, List.length_range]
  have hF : Sample.wideStore.results.filter
      (fun r => r.evaluatorId == "EVAL-0001" &&
        (Eval.myProjectIds Sample.wideStore "EVAL-0001").contains r.projectId)
      = Sample.wideStore.results := by
    rw [List.filter_eq_self]
    intro r hr
    rw [wideStore_results] at hr
    obtain ⟨i, hi, rfl⟩ := List.mem_map.mp hr
    have hmem : toString i ∈ Eval.myProjectIds Sample.wideStore "EVAL-0001" := by
      rw [wideStore_myProjectIds]
      exact List.mem_map.mpr
        ⟨i, List.mem_range.mpr (by have := List.mem_range.mp hi; omega), rfl⟩
    simpa using hmem
  have hC : (Sample.wideStore.results.filter
      (fun r => r.evaluatorId == "EVAL-0001" &&
        (Eval.myProjectIds Sample.wideStore "EVAL-0001").contains r.projectId)).length
      = 199 := by
    rw [hF, wideStore_results, List.length_map, List.length_range]
  constructor
  · rw [wideStore_results]
    unfold atMostOnePerPair
    rw [List.pairwise_map]
    refine List.Pairwise.imp ?_ (List.nodup_range 199)
    intro a b hab hs
    exact hab (toString_nat_injective a b hs.1)
  · unfold Eval.goToAssigned
    simp only [hT, hC]
    decide!

/-- C29 (amended): for every store holding at most one Result per
(projectId, evaluatorId) pair and every evaluator, the progress values of
`goToAssigned` satisfy `completed ≤ total`, `left = total - completed` and
`0 ≤ pct ≤ 100`; `pct = 100` holds whenever `total > 0` and
`199 * total ≤ 200 * completed` (the ratio rounds to 100), and with fewer
than `2 ^ 32` assigned projects, the bound of an array, it holds exactly
then; so it holds whenever `total > 0` and `completed = total`, and with
fewer than 200 assigned projects it holds only then. -/
theorem C29_progress_values (db : DB) (evalId : String) (h : atMostOnePerPair db.results) :
    (Eval.goToAssigned db evalId).completed ≤ (Eval.goToAssigned db evalId).total ∧
    (Eval.goToAssigned db evalId).left
      = ((Eval.goToAssigned db evalId).total : Int) - (Eval.goToAssigned db evalId).completed ∧
    0 ≤ (Eval.goToAssigned db evalId).pct ∧
    (Eval.goToAssigned db evalId).pct ≤ 100 ∧
    ((0 < (Eval.goToAssigned db evalId).total ∧
        199 * (Eval.goToAssigned db evalId).total
          ≤ 200 * (Eval.goToAssigned db evalId).completed) →
      (Eval.goToAssigned db evalId).pct = 100) ∧
    ((Eval.goToAssigned db evalId).total < 2 ^ 32 →
      ((Eval.goToAssigned db evalId).pct = 100 ↔
        0 < (Eval.goToAssigned db evalId).total ∧
        199 * (Eval.goToAssigned db evalId).total
          ≤ 200 * (Eval.goToAssigned db evalId).completed)) ∧
    (0 < (Eval.goToAssigned db evalId).total →
      (Eval.goToAssigned db evalId).completed = (Eval.goToAssigned db evalId).total →
      (Eval.goToAssigned db evalId).pct = 100) ∧
    ((Eval.goToAssigned db evalId).total < 200 →
      ((Eval.goToAssigned db evalId).pct = 100 ↔
        0 < (Eval.goToAssigned db evalId).total ∧
        (Eval.goToAssigned db evalId).completed = (Eval.goToAssigned db evalId).total)) := by
  have hle := completed_le_total db evalId h
  have hleft : (Eval.goToAssigned db evalId).left
      = max 0 (((Eval.goToAssigned db evalId).total : Int)
          - (Eval.goToAssigned db evalId).completed) := rfl
  have hpct : (Eval.goToAssigned db evalId).pct
      = if (Eval.goToAssigned db evalId).total = 0 then 0
        else mathRound (roundToDouble (roundToDouble
          (((Eval.goToAssigned db evalId).completed : ℚ)
            / ((Eval.goToAssigned db evalId).total : ℚ)) * 100)) := rfl
  generalize (Eval.goToAssigned db evalId).completed = c at hle hleft hpct ⊢
  generalize (Eval.goToAssigned db evalId).total = t at hle hleft hpct ⊢
  generalize (Eval.goToAssigned db evalId).left = l at hleft ⊢
  generalize (Eval.goToAssigned db evalId).pct = p at hpct ⊢
  have hback : 0 < t ∧ 199 * t ≤ 200 * c → p = 100 := by
    rintro ⟨ht, h199⟩
    rw [hpct, if_neg (by omega)]
    exact pct_hundred c t ht hle h199
  have hfwd : t < 2 ^ 32 → p = 100 → 0 < t ∧ 199 * t ≤ 200 * c := by
    intro hbound hp
    by_cases ht : t = 0
    · subst ht
      simp only [if_true] at hpct
      omega
    · refine ⟨by omega, ?_⟩
      by_contra hn
      rw [if_neg ht] at hpct
      have htq : (0 : ℚ) < (t : ℚ) := by exact_mod_cast (by omega : 0 < t)
      have hq : (200 : ℚ) * c < 199 * t := by exact_mod_cast (by omega : 200 * c < 199 * t)
      have hx : (c : ℚ) / t * 100 < ((99 : ℤ) : ℚ) + 1 / 2 := by
        rw [div_mul_eq_mul_div, div_lt_iff₀ htq]
        push_cast
        linarith
      have hw := (pct_side c t (by omega) (by omega) 99).1 hx
      have : p < 100 := by
        rw [hpct]
        unfold mathRound
        rw [Int.floor_lt]
        push_cast at hw ⊢
        linarith
      omega
  have hbounds : 0 ≤ p ∧ p ≤ 100 := by
    by_cases ht : t = 0
    · subst ht
      simp only [if_true] at hpct
      subst hpct
      simp
    · rw [if_neg ht] at hpct
      rw [hpct]
      exact pct_bounds c t (by omega) hle
  refine ⟨hle, ?_, hbounds.1, hbounds.2, hback, ?_, ?_, ?_⟩
  · rw [hleft]; omega
  · intro hbound
    exact ⟨hfwd hbound, hback⟩
  · intro ht hc
    exact hback ⟨ht, by omega⟩
  · intro ht
    constructor
    · intro hp
      obtain ⟨h1, h2⟩ := hfwd (by omega) hp
      exact ⟨h1, by omega⟩
    · rintro ⟨h1, h2⟩
      exact hback ⟨h1, by omega⟩

/-- C29 (witness): `Sample.store` holds at most one Result per pair; `EVAL-0001`
has completed no more than the projects assigned. -/
theorem C29_progress_values_witness :
    atMostOnePerPair Sample.store.results ∧
    (Eval.goToAssigned Sample.store "EVAL-0001").completed
      ≤ (Eval.goToAssigned Sample.store "EVAL-0001").total :=
  ⟨by decide, (C29_progress_values Sample.store "EVAL-0001" (by decide)).1⟩

theorem toFixed_mono (digits : Nat) (x y : ℚ) (h : x ≤ y) :
    toFixed digits x ≤ toFixed digits y := by
  have hp : (0 : ℚ) < 10 ^ digits := by positivity
  unfold toFixed
  by_cases hx : x < 0
  · by_cases hy : y < 0
    · rw [if_pos hx, if_pos hy]
      apply neg_le_neg
      apply div_le_div_of_nonneg_right _ hp.le
      have : ⌊(-y) * 10 ^ digits + 1 / 2⌋ ≤ ⌊(-x) * 10 ^ digits + 1 / 2⌋ := by
        apply Int.floor_mono
        have : (-y) * 10 ^ digits ≤ (-x) * 10 ^ digits :=
          mul_le_mul_of_nonneg_right (by linarith) hp.le
        linarith
      exact_mod_cast this
    · rw [if_pos hx, if_neg hy]
      have h1 : (0 : ℚ) ≤ ((⌊(-x) * 10 ^ digits + 1 / 2⌋ : ℤ) : ℚ) / 10 ^ digits := by
        apply div_nonneg _ hp.le
        have : (0 : ℤ) ≤ ⌊(-x) * 10 ^ digits + 1 / 2⌋ := by
          apply Int.floor_nonneg.mpr
          have : (0 : ℚ) ≤ (-x) * 10 ^ digits := mul_nonneg (by linarith) hp.le
          linarith
        exact_mod_cast this
      have h2 : (0 : ℚ) ≤ ((⌊y * 10 ^ digits + 1 / 2⌋ : ℤ) : ℚ) / 10 ^ digits := by
        apply div_nonneg _ hp.le
        have : (0 : ℤ) ≤ ⌊y * 10 ^ digits + 1 / 2⌋ := by
          apply Int.floor_nonneg.mpr
          have : (0 : ℚ) ≤ y * 10 ^ digits := mul_nonneg (by linarith) hp.le
          linarith
        exact_mod_cast this
      linarith
  · have hy : ¬ y < 0 := by linarith
    rw [if_neg hx, if_neg hy]
    apply div_le_div_of_nonneg_right _ hp.le
    have : ⌊x * 10 ^ digits + 1 / 2⌋ ≤ ⌊y * 10 ^ digits + 1 / 2⌋ := by
      apply Int.floor_mono
      have : x * 10 ^ digits ≤ y * 10 ^ digits := mul_le_mul_of_nonneg_right h hp.le
      linarith
    exact_mod_cast this

theorem toFixed_zero (digits : Nat) : toFixed digits 0 = 0 := by
  unfold toFixed
  rw [if_neg (lt_irrefl 0)]
  have : ⌊(0 : ℚ) * 10 ^ digits + 1 / 2⌋ = 0 := by
    rw [Int.floor_eq_iff]
    constructor <;> norm_num
  rw [this]
  simp

/-- A row of the exported sheet carries the id of its project and the average of
the ranking rounded to two decimals. -/
theorem exportRow_spec (db : DB) (p : Project) :
    (Admin.exportRow db p).projectId = (Admin.projectScore db p).id ∧
    (Admin.exportRow db p).averageScore
      = toFixed 2 (Admin.projectScore db p).averageScore := by
  unfold Admin.exportRow Admin.projectScore
  dsimp only
  by_cases h : (db.results.filter (fun r => r.projectId == p.id)).length = 0
  · rw [if_pos h, if_pos h]
    exact ⟨rfl, (toFixed_zero 2).symm⟩
  · rw [if_neg h, if_neg h]
    exact ⟨rfl, rfl⟩

/-- C30 (counterexample): in `Sample.closeStore` the averages of `PRJ-0001` and
`PRJ-0002` are 44.001 and 44.004. The ranking lists `PRJ-0002` first; the
exported sheet holds 44 for both (the value of `44.00`) and lists `PRJ-0001`
first. -/
theorem C30_export_order_differs_from_ranking :
    (Admin.scores Sample.closeStore).map (fun s => (s.id, s.averageScore))
      = [("PRJ-0002", 44004 / 1000), ("PRJ-0001", 44001 / 1000)] ∧
    (Admin.exportScores Sample.closeStore).map (fun r => (r.projectId, r.averageScore))
      = [("PRJ-0001", 44), ("PRJ-0002", 44)] ∧
    (Admin.exportScores Sample.closeStore).map (fun r => r.projectId)
      ≠ (Admin.scores Sample.closeStore).map (fun s => s.id) := by
  decide!

/-- C30 (amended): for every store in which no two projects with different
`averageScore` have the same average after rounding to two decimals
(`toFixed(2)`), the sequence of project ids in the rows produced by
`exportScores` is the sequence of project ids in the ranking produced by
`Admin.scores`. -/
theorem C30_export_agrees_with_ranking (db : DB)
    (h : ∀ p ∈ db.projects, ∀ q ∈ db.projects,
      toFixed 2 (Admin.projectScore db p).averageScore
          = toFixed 2 (Admin.projectScore db q).averageScore →
        (Admin.projectScore db p).averageScore = (Admin.projectScore db q).averageScore) :
    (Admin.exportScores db).map (fun r => r.projectId)
      = (Admin.scores db).map (fun s => s.id) := by
  haveI : DecidableRel (fun p q : Project =>
      (Admin.projectScore db q).averageScore - (Admin.projectScore db p).averageScore ≤ 0) :=
    fun p q => inferInstanceAs (Decidable
      ((Admin.projectScore db q).averageScore - (Admin.projectScore db p).averageScore ≤ 0))
  have h1 : (db.projects.insertionSort (fun p q : Project =>
        (Admin.projectScore db q).averageScore - (Admin.projectScore db p).averageScore ≤ 0)).map
        (Admin.projectScore db) = Admin.scores db := by
    unfold Admin.scores Admin.projectScores
    apply List.map_insertionSort
    intro a _ b _
    rfl
  have h2 : (db.projects.insertionSort (fun p q : Project =>
        (Admin.projectScore db q).averageScore - (Admin.projectScore db p).averageScore ≤ 0)).map
        (Admin.exportRow db) = Admin.exportScores db := by
    unfold Admin.exportScores
    apply List.map_insertionSort
    intro a ha b hb
    unfold Admin.exportKeepsOrder
    rw [(exportRow_spec db a).2, (exportRow_spec db b).2, sub_nonpos, sub_nonpos]
    constructor
    · intro hle
      exact toFixed_mono 2 _ _ hle
    · intro hle
      by_contra hn
      have hlt : (Admin.projectScore db a).averageScore < (Admin.projectScore db b).averageScore :=
        lt_of_not_le hn
      have heq := le_antisymm (toFixed_mono 2 _ _ hlt.le) hle
      exact absurd (h a ha b hb heq) (ne_of_lt hlt)
  rw [← h1, ← h2, List.map_map, List.map_map]
  apply List.map_congr_left
  intro p _
  exact (exportRow_spec db p).1

/-- C30 (witness): in `Sample.store` the averages 47 and 0 stay apart after
rounding, and the exported sheet has the order of the ranking. -/
theorem C30_export_agrees_with_ranking_witness :
    (∀ p ∈ Sample.store.projects, ∀ q ∈ Sample.store.projects,
      toFixed 2 (Admin.projectScore Sample.store p).averageScore
          = toFixed 2 (Admin.projectScore Sample.store q).averageScore →
        (Admin.projectScore Sample.store p).averageScore
          = (Admin.projectScore Sample.store q).averageScore) ∧
    (Admin.exportScores Sample.store).map (fun r => r.projectId)
      = (Admin.scores Sample.store).map (fun s => s.id) :=
  ⟨by decide!, C30_export_agrees_with_ranking Sample.store (by decide!)⟩

end ThingDB
